import Mathlib

/-!
Verification of the knowledge-base synchronization engine (`app/kb/update.py`)
of the rpg-rag repository, together with the pieces of `app/api/routes.py`
that expose it.  The Python code is shallowly embedded: pure helpers become
Lean functions, the SQL-backed state becomes an explicit `DB` record that is
threaded through the run, and the filesystem seen by one run is part of the
source configuration.  The two SHA-256 call sites (`_sha256_file` on raw file
bytes and `_sha256_text` on decoded text) are abstracted as a pair of
deterministic hash functions carried in `HashFns`; no claim depends on any
property of SHA-256 beyond determinism of each call site.
-/

set_option maxRecDepth 4000

/-! ## Glob matcher: `fnmatch.fnmatchcase` + `PurePosixPath.match`

`_matches_any` calls `PurePosixPath(rel).match(pat)` (CPython 3.11):
the pattern is split on `/` (dropping empty and `.` components); an empty
component list raises `ValueError`; an absolute pattern never matches the
(always relative) paths produced by the walk; a relative pattern with more
components than the path returns `False`; otherwise the trailing components
of the path are matched, right to left, one `fnmatch.fnmatchcase` per
component.  Inside one component: `*` matches any run of characters, `?` any
single character, `[...]` a character class (leading `!` negates, a `]` in
first position is literal, `a-b` is a range, an unterminated `[` is a literal
character); a reversed range makes the regex compilation raise, which the
caller's `except` swallows.  `**` receives no special treatment: it is `*`
twice in a single component.
-/

inductive ClsItem where
  | one (c : Char)
  | range (a b : Char)
deriving DecidableEq

inductive GTok where
  | lit (c : Char)
  | anyOne
  | star
  | cls (neg : Bool) (items : List ClsItem)
deriving DecidableEq

/-- Character-class membership, as the compiled regex `[...]` decides it. -/
def clsMem (items : List ClsItem) (c : Char) : Bool :=
  items.any (fun it =>
    match it with
    | ClsItem.one a => a == c
    | ClsItem.range a b => a ≤ c && c ≤ b)

/-- Split a class body at the first `]`, returning (inside, after). -/
def splitOnRB : List Char → Option (List Char × List Char)
  | [] => none
  | c :: cs =>
    if c = ']' then some ([], cs)
    else (splitOnRB cs).map (fun p => (c :: p.1, p.2))

/-- Class items from the raw body; `none` models the `re.error` raised by a
reversed range such as `[z-a]`. -/
def classItems : List Char → Option (List ClsItem)
  | [] => some []
  | a :: '-' :: b :: rest =>
    if b < a then none
    else (classItems rest).map (fun its => ClsItem.range a b :: its)
  | a :: rest => (classItems rest).map (fun its => ClsItem.one a :: its)

/-- Tokenizer for one fnmatch component, mirroring `fnmatch.translate`.
Fueled recursion: `parseGlob` supplies `length + 1` fuel, which is always
sufficient because every step consumes at least one character. -/
def parseGlobF : Nat → List Char → Except Unit (List GTok)
  | 0, _ => Except.ok []
  | _ + 1, [] => Except.ok []
  | fuel + 1, c :: rest =>
    if c = '*' then (parseGlobF fuel rest).map (fun ts => GTok.star :: ts)
    else if c = '?' then (parseGlobF fuel rest).map (fun ts => GTok.anyOne :: ts)
    else if c = '[' then
      let negR : Bool × List Char :=
        match rest with
        | '!' :: t => (true, t)
        | _ => (false, rest)
      match negR.2 with
      | [] => (parseGlobF fuel rest).map (fun ts => GTok.lit '[' :: ts)
      | first :: r2 =>
        match splitOnRB r2 with
        | none => (parseGlobF fuel rest).map (fun ts => GTok.lit '[' :: ts)
        | some (mid, after) =>
          match classItems (first :: mid) with
          | none => Except.error ()
          | some items => (parseGlobF fuel after).map (fun ts => GTok.cls negR.1 items :: ts)
    else (parseGlobF fuel rest).map (fun ts => GTok.lit c :: ts)

def parseGlob (pat : List Char) : Except Unit (List GTok) :=
  parseGlobF (pat.length + 1) pat

/-- Token-level matcher: the semantics of the regex `fnmatch.translate` emits,
anchored at both ends of the component.  Fueled so that it evaluates inside
the kernel; every recursive call shrinks `tokens + chars`, so the wrapper's
`length + length + 1` fuel is always sufficient. -/
def gmatchF : Nat → List GTok → List Char → Bool
  | 0, _, _ => false
  | fuel + 1, ts0, cs0 =>
    match ts0, cs0 with
    | [], [] => true
    | [], _ :: _ => false
    | GTok.lit a :: ts, c :: cs => a == c && gmatchF fuel ts cs
    | GTok.lit _ :: _, [] => false
    | GTok.anyOne :: ts, _ :: cs => gmatchF fuel ts cs
    | GTok.anyOne :: _, [] => false
    | GTok.cls neg items :: ts, c :: cs => (clsMem items c != neg) && gmatchF fuel ts cs
    | GTok.cls _ _ :: _, [] => false
    | GTok.star :: ts, [] => gmatchF fuel ts []
    | GTok.star :: ts, c :: cs => gmatchF fuel ts (c :: cs) || gmatchF fuel (GTok.star :: ts) cs

def gmatch (ts : List GTok) (cs : List Char) : Bool :=
  gmatchF (ts.length + cs.length + 1) ts cs

/-- `fnmatch.fnmatchcase(name, pat)` on explicit characters; `Except.error`
models a raised `re.error` from a malformed class range. -/
def fnmatchcase (name pat : List Char) : Except Unit Bool :=
  (parseGlob pat).map (fun ts => gmatch ts name)

/-- Split at `/`, as `str.split('/')` does. -/
def splitOnSlash : List Char → List (List Char)
  | [] => [[]]
  | c :: cs =>
    if c = '/' then [] :: splitOnSlash cs
    else
      match splitOnSlash cs with
      | [] => [[c]]
      | g :: gs => (c :: g) :: gs

/-- Components of a POSIX path or pattern as `parse_parts` produces them:
split on `/`, dropping empty and `.` entries. -/
def purePosixParts (s : String) : List (List Char) :=
  (splitOnSlash s.toList).filter (fun t => !(t == []) && !(t == ['.']))

/-- Right-to-left componentwise matching over reversed lists, stopping like
`zip` does when the shorter (pattern) list runs out. -/
def matchRightRev : List (List Char) → List (List Char) → Except Unit Bool
  | _, [] => Except.ok true
  | [], _ :: _ => Except.ok true
  | p :: ps, q :: qs => do
    let b ← fnmatchcase p q
    if b then matchRightRev ps qs else pure false

/-- `PurePosixPath(path).match(pattern)` for a relative `path` given by its
components; `Except.error` models a raised exception (empty pattern, or a
malformed class inside a reached component). -/
def pathMatchE (pathParts : List (List Char)) (pattern : String) : Except Unit Bool :=
  let isAbs : Bool := match pattern.toList with | '/' :: _ => true | _ => false
  let comps := purePosixParts pattern
  if !isAbs && comps.isEmpty then Except.error ()
  else if isAbs then Except.ok false
  else if pathParts.length < comps.length then Except.ok false
  else matchRightRev pathParts.reverse comps.reverse

/-- `_matches_any` from `app/kb/update.py`: first successful pattern wins,
a raising pattern is skipped by the `except Exception: continue`. -/
def _matches_any (relPosix : String) (patterns : List String) : Bool :=
  patterns.any (fun pat =>
    match pathMatchE (purePosixParts relPosix) pat with
    | Except.ok b => b
    | Except.error _ => false)

/-- `_should_include` from `app/kb/update.py`. -/
def _should_include (relPosix : String) (includeGlobs excludeGlobs : List String) : Bool :=
  if !excludeGlobs.isEmpty && _matches_any relPosix excludeGlobs then false
  else if includeGlobs.isEmpty then true
  else _matches_any relPosix includeGlobs

/-! ## Chunker: `_chunk_text` -/

/-- The ASCII part of the whitespace set `str.strip()` removes. -/
def pyIsSpace (c : Char) : Bool :=
  c == ' ' || c == '\t' || c == '\n' || c == '\r' ||
    c == Char.ofNat 11 || c == Char.ofNat 12

/-- `str.strip()`. -/
def pyStrip (s : List Char) : List Char :=
  ((s.dropWhile pyIsSpace).reverse.dropWhile pyIsSpace).reverse

/-- The `while i < len(s)` loop of `_chunk_text`: window `[i, min(len, i+max))`,
stop once the window reaches the end, else advance to `max(0, j - overlap)`
(natural subtraction).  Fueled: `chunkTextL` passes `length` fuel, enough for
every terminating run of the Python loop (whenever `overlap < maxChars`). -/
def chunkWindows (s : List Char) (maxChars overlap : Nat) : Nat → Nat → List (List Char)
  | 0, _ => []
  | fuel + 1, i =>
    if i < s.length then
      let j := min s.length (i + maxChars)
      let piece := (s.drop i).take (j - i)
      if s.length ≤ j then [piece]
      else piece :: chunkWindows s maxChars overlap fuel (j - overlap)
    else []

/-- `_chunk_text` on explicit character lists. -/
def chunkTextL (s : List Char) (maxChars overlap : Nat) : List (List Char) :=
  let t := pyStrip s
  if t.isEmpty then [] else chunkWindows t maxChars overlap t.length 0

/-- `_chunk_text` from `app/kb/update.py` (defaults 6000 / 300). -/
def _chunk_text (textStr : String) (maxChars : Nat := 6000) (overlap : Nat := 300) :
    List String :=
  (chunkTextL textStr.toList maxChars overlap).map (fun l => String.mk l)

/-- Reconstruction operator of the fragment-invariant: keep the first
fragment whole, drop the leading `overlap` characters of every later one. -/
def reassemble (overlap : Nat) : List (List Char) → List Char
  | [] => []
  | f :: rest => f ++ (rest.map (fun g => g.drop overlap)).flatten

/-! ## Data model

Rows of the tables touched by `update_campaign_kb`, with timestamp columns
(`now()` values) left unmodeled: no claim mentions them.  The per-chunk
constant `metadata` JSON stub is likewise omitted.  `nextId` stands for the
id generator of the store; freshness of generated ids is an assumption the
real database guarantees and appears as the `WF` hypothesis below. -/

structure HashFns where
  fileHash : String → String
  textHash : String → String

structure Params where
  dryRun : Bool
  forceRehash : Bool
  maxFiles : Option Nat
deriving DecidableEq

structure PyStat where
  size : Int
  mtime : Int
deriving DecidableEq

/-- One directory entry of `os.walk`; `stat = none` models an `OSError`
from `full_path.stat()`. -/
structure FsFile where
  name : String
  stat : Option PyStat
  content : String
deriving DecidableEq

/-- One `(dirpath, filenames)` pair of `os.walk`, with
`rel = Path(dirpath).relative_to(root).as_posix()` (so `"."` for the root). -/
structure FsDir where
  rel : String
  files : List FsFile
deriving DecidableEq

/-- A row of `campaign_sources` together with the filesystem this run sees
under its root (`walk` is what `os.walk` yields; empty when the tree is). -/
structure SourceCfg where
  id : Nat
  campaignId : String
  name : String
  enabled : Bool
  rootExists : Bool
  includeGlobs : List String
  excludeGlobs : List String
  changeDetection : String
  walk : List FsDir
deriving DecidableEq

structure FileRec where
  id : Nat
  sourceId : Nat
  folderId : Nat
  relPath : String
  ext : Option String
  sizeBytes : Int
  mtimeEpoch : Int
  sha256 : Option String
  status : String
  lastIngestStatus : String
  error : Option String
deriving DecidableEq

structure FolderRec where
  id : Nat
  sourceId : Nat
  relPath : String
  parentId : Option Nat
  depth : Nat
deriving DecidableEq

structure DocRec where
  id : Nat
  campaignId : String
  sourceFileId : Nat
  docType : String
  title : String
  bodyMd : String
  contentHash : String
deriving DecidableEq

structure ChunkRec where
  campaignId : String
  documentId : Nat
  sectionPath : String
  chunkIndex : Nat
  content : String
  embeddingModel : String
deriving DecidableEq

structure Stats where
  sourcesTotal : Nat
  sourcesScanned : Nat
  filesSeen : Nat
  filesNew : Nat
  filesChanged : Nat
  filesUnchanged : Nat
  filesDeleted : Nat
  filesIngested : Nat
  docsIngested : Nat
  docsSkipped : Nat
  errors : List String
deriving DecidableEq

structure RunRec where
  id : Nat
  campaignId : String
  trigger : String
  status : String
  stats : Option Stats
  error : Option String
deriving DecidableEq

structure RunFileRec where
  runId : Nat
  fileId : Nat
  action : String
  status : String
  reason : Option String
  error : Option String
deriving DecidableEq

structure DB where
  campaigns : List String
  sources : List SourceCfg
  folders : List FolderRec
  files : List FileRec
  docs : List DocRec
  chunks : List ChunkRec
  runs : List RunRec
  runFiles : List RunFileRec
  nextId : Nat
deriving DecidableEq

structure RunResult where
  runId : Nat
  status : String
  stats : Stats
deriving DecidableEq

/-! ## Path helpers (`pathlib` fragments used by the walk loop) -/

/-- Relative POSIX path of file `name` inside the walked directory `dirRel`
(`(Path(dirpath) / fn).relative_to(root).as_posix()`). -/
def fileRelPath (dirRel name : String) : String :=
  if dirRel == "." then name else dirRel ++ "/" ++ name

/-- Join components with `/`. -/
def joinSlash : List (List Char) → List Char
  | [] => []
  | [g] => g
  | g :: gs => g ++ '/' :: joinSlash gs

/-- `PurePosixPath(dirRel).parent.as_posix()` for the clean relative strings
`os.walk` yields. -/
def pyParentRel (dirRel : String) : String :=
  let parts := purePosixParts dirRel
  if parts.length ≤ 1 then "." else String.mk (joinSlash parts.dropLast)

def lastDotIdx : List Char → Option Nat
  | [] => none
  | c :: cs =>
    match lastDotIdx cs with
    | some i => some (i + 1)
    | none => if c = '.' then some 0 else none

/-- Index of the dot starting `PurePath(name).suffix`, when that suffix is
nonempty (`0 < i < len - 1`). -/
def pySuffixIdx (name : String) : Option Nat :=
  match lastDotIdx name.toList with
  | some i => if 0 < i ∧ i + 1 < name.toList.length then some i else none
  | none => none

/-- `full_path.suffix.lower().lstrip(".") or None`. -/
def pathExt (name : String) : Option String :=
  match pySuffixIdx name with
  | some i => some (String.mk ((name.toList.drop (i + 1)).map Char.toLower))
  | none => none

/-- `full_path.stem`. -/
def pathStem (name : String) : String :=
  match pySuffixIdx name with
  | some i => String.mk (name.toList.take i)
  | none => name

/-! ## Engine state and steps -/

/-- Mutable state of one source scan: the store, the aggregated stats, the
`seen_paths` set and the per-source `files_to_ingest` counter. -/
structure ScanState where
  db : DB
  stats : Stats
  seenPaths : List String
  filesToIngest : Nat
deriving DecidableEq

/-- `INSERT INTO source_folders ... ON CONFLICT (source_id, rel_path)
DO UPDATE SET last_seen_at = now() RETURNING id` (timestamp unmodeled). -/
def upsertFolder (db : DB) (sourceId : Nat) (relPath : String) (parentId : Option Nat)
    (depth : Nat) : DB × Nat :=
  match db.folders.find? (fun fr => fr.sourceId == sourceId && fr.relPath == relPath) with
  | some fr => (db, fr.id)
  | none =>
    ({ db with
        folders := db.folders ++ [⟨db.nextId, sourceId, relPath, parentId, depth⟩],
        nextId := db.nextId + 1 },
      db.nextId)

/-- Lines 276–287 of `update.py`: metadata verdict, optional hash
confirmation.  Returns `(is_new, changed, sha256)`. -/
structure Verdict where
  isNew : Bool
  changed : Bool
  sha256 : Option String
deriving DecidableEq

def classifyFile (H : HashFns) (changeDetection : String) (forceRehash : Bool)
    (prev : Option FileRec) (sizeBytes mtimeEpoch : Int) (content : String) : Verdict :=
  let isNew := prev.isNone
  let changedHint := isNew ||
    (match prev with
     | some p => !(p.sizeBytes == sizeBytes) || !(p.mtimeEpoch == mtimeEpoch)
     | none => false)
  let sha0 : Option String := match prev with | some p => p.sha256 | none => none
  if (changeDetection == "sha256" || changeDetection == "auto") &&
      (forceRehash || changedHint || isNew) then
    let shaNow := H.fileHash content
    let changed :=
      match prev with
      | some p => if p.sha256 == some shaNow then false else changedHint
      | none => changedHint
    ⟨isNew, changed, some shaNow⟩
  else
    ⟨isNew, changedHint, sha0⟩

/-- `_upsert_document_and_chunks` from `app/kb/update.py`: hash-guarded
document upsert plus full fragment replacement.  Returns the new store, the
document id and the `doc_action` string. -/
def _upsert_document_and_chunks (H : HashFns) (db : DB) (campaignId : String)
    (sourceFileId : Nat) (title docType body : String) : DB × Nat × String :=
  let contentHash := H.textHash body
  let insChunks : DB → Nat → DB := fun db1 docId =>
    { db1 with
        chunks := db1.chunks ++
          ((_chunk_text body).enum.map (fun p =>
            (⟨campaignId, docId, "", p.1, p.2, "nomic-embed-text"⟩ : ChunkRec))) }
  match db.docs.find? (fun d => d.campaignId == campaignId && d.sourceFileId == sourceFileId) with
  | some d =>
    if d.contentHash == contentHash then (db, d.id, "skipped")
    else
      let db1 := { db with
        docs := db.docs.map (fun e =>
          if e.id == d.id then
            { e with title := title, docType := docType, bodyMd := body,
                     contentHash := contentHash }
          else e),
        chunks := db.chunks.filter (fun c => !(c.documentId == d.id)) }
      (insChunks db1 d.id, d.id, "ingested")
  | none =>
    let docId := db.nextId
    let db1 := { db with
      docs := db.docs ++ [⟨docId, campaignId, sourceFileId, docType, title, body, contentHash⟩],
      nextId := db.nextId + 1 }
    (insChunks db1 docId, docId, "ingested")

/-- Lines 292–297 of `update.py`: the classification counters. -/
def statCounters (stats : Stats) (v : Verdict) : Stats :=
  if v.isNew then { stats with filesNew := stats.filesNew + 1 }
  else if v.changed then { stats with filesChanged := stats.filesChanged + 1 }
  else { stats with filesUnchanged := stats.filesUnchanged + 1 }

/-- Lines 299–333 of `update.py`: insert the new File row, or update the
previously found row in place; returns the store and the row id. -/
def upsertFileRow (db : DB) (sourceId folderId : Nat) (relPath : String)
    (ext : Option String) (pstat : PyStat) (v : Verdict) (prev : Option FileRec) :
    DB × Nat :=
  if v.isNew then
    ({ db with
        files := db.files ++ [⟨db.nextId, sourceId, folderId, relPath, ext,
          pstat.size, pstat.mtime, v.sha256, "seen", "never", none⟩],
        nextId := db.nextId + 1 }, db.nextId)
  else
    let fid := (prev.map (fun r => r.id)).getD 0
    ({ db with files := db.files.map (fun r =>
        if r.id == fid then
          { r with folderId := folderId, ext := ext, sizeBytes := pstat.size,
                   mtimeEpoch := pstat.mtime, sha256 := v.sha256, status := "seen" }
        else r) }, fid)

/-- Lines 339–384 of `update.py` (the `try` body): read, materialize, record
outcome, append the ingest audit row.  In the model, reads are total
functions of the walk data, so the `except` arm is unreachable and is not
represented. -/
def ingestFile (H : HashFns) (runId : Nat) (campaignId : String) (fileId : Nat)
    (name : String) (ext : Option String) (content : String) (st : ScanState) :
    ScanState :=
  let st : ScanState := { st with filesToIngest := st.filesToIngest + 1 }
  let title := pathStem name
  let docType := if ext == some "md" then "md" else ext.getD "file"
  let res := _upsert_document_and_chunks H st.db campaignId fileId title docType content
  let docAction := res.2.2
  let st : ScanState :=
    if docAction == "ingested" then
      { st with db := res.1, stats := { st.stats with
          filesIngested := st.stats.filesIngested + 1,
          docsIngested := st.stats.docsIngested + 1 } }
    else
      { st with db := res.1, stats := { st.stats with
          docsSkipped := st.stats.docsSkipped + 1 } }
  let ingestStatus := if docAction == "ingested" then "ok" else "skipped"
  let st : ScanState := { st with db := { st.db with
      files := st.db.files.map (fun r =>
        if r.id == fileId then
          { r with lastIngestStatus := ingestStatus, error := none }
        else r) } }
  { st with db :=
      if st.db.runFiles.any (fun e => e.runId == runId && e.fileId == fileId) then
        st.db
      else { st.db with runFiles := st.db.runFiles ++
          [⟨runId, fileId, "ingest", "ok", none, none⟩] } }

/-- Lines 257–408 of `update.py`: one file of one walked directory.
`existingMap` is the snapshot of non-deleted rows taken at source start,
`folderMap` the live folder map. -/
def processFile (H : HashFns) (p : Params) (runId : Nat) (src : SourceCfg)
    (existingMap : List FileRec) (folderMap : List (String × Nat)) (dirRel : String)
    (st : ScanState) (f : FsFile) : ScanState :=
  let relPath := fileRelPath dirRel f.name
  if !(_should_include relPath src.includeGlobs src.excludeGlobs) then st
  else
    match f.stat with
    | none =>
      { st with stats := { st.stats with
          errors := st.stats.errors ++ ["stat failed for " ++ relPath] } }
    | some pstat =>
      let st : ScanState := { st with
        seenPaths := st.seenPaths ++ [relPath],
        stats := { st.stats with filesSeen := st.stats.filesSeen + 1 } }
      let prev := existingMap.find? (fun r => r.relPath == relPath)
      let v := classifyFile H src.changeDetection p.forceRehash prev
        pstat.size pstat.mtime f.content
      let folderId := ((folderMap.find? (fun e => e.1 == dirRel)).map Prod.snd).getD
        (((folderMap.find? (fun e => e.1 == "")).map Prod.snd).getD 0)
      let ext := pathExt f.name
      let st : ScanState := { st with stats := statCounters st.stats v }
      let ins := upsertFileRow st.db src.id folderId relPath ext pstat v prev
      let st : ScanState := { st with db := ins.1 }
      if (v.isNew || v.changed) && !p.dryRun then
        if (match p.maxFiles with
            | some k => decide (k ≤ st.filesToIngest)
            | none => false) then st
        else ingestFile H runId src.campaignId ins.2 f.name ext f.content st
      else st

/-- Lines 232–255 of `update.py`: folder bookkeeping for one walked
directory, then the file loop over its entries. -/
def processDir (H : HashFns) (p : Params) (runId : Nat) (src : SourceCfg)
    (existingMap : List FileRec) (acc : ScanState × List (String × Nat)) (d : FsDir) :
    ScanState × List (String × Nat) :=
  let st := acc.1
  let folderMap := acc.2
  let dirRel := d.rel
  let parentRel := if dirRel == "" then "" else pyParentRel dirRel
  let depth := if dirRel == "" then 0 else (purePosixParts dirRel).length
  let upd : ScanState × List (String × Nat) :=
    if (folderMap.find? (fun e => e.1 == dirRel)).isNone then
      let parentId := ((folderMap.find? (fun e => e.1 == parentRel)).map Prod.snd).getD
        (((folderMap.find? (fun e => e.1 == "")).map Prod.snd).getD 0)
      let r := upsertFolder st.db src.id dirRel (some parentId) depth
      ({ st with db := r.1 }, folderMap ++ [(dirRel, r.2)])
    else (st, folderMap)
  ((d.files.foldl (processFile H p runId src existingMap upd.2 dirRel) upd.1), upd.2)

/-- The snapshot `existing_map` is built from: non-deleted rows of the
source, keyed by relative path. -/
def sourceSnapshot (db : DB) (sid : Nat) : List FileRec :=
  db.files.filter (fun r => r.sourceId == sid && !(r.status == "deleted"))

/-- Lines 410–425 of `update.py`: one entry of the post-walk soft-delete
reconciliation. -/
def markDeleted (p : Params) (runId : Nat) (st : ScanState) (prev : FileRec) : ScanState :=
  if st.seenPaths.contains prev.relPath then st
  else
    let st : ScanState := { st with stats := { st.stats with
        filesDeleted := st.stats.filesDeleted + 1 } }
    if p.dryRun then st
    else
      let db : DB := { st.db with files := st.db.files.map (fun r =>
        if r.id == prev.id then { r with status := "deleted" } else r) }
      let db : DB :=
        if db.runFiles.any (fun e => e.runId == runId && e.fileId == prev.id) then db
        else { db with runFiles := db.runFiles ++
            [⟨runId, prev.id, "delete", "ok", some "missing_on_disk", none⟩] }
      { st with db := db }

/-- Lines 173–428 of `update.py`: one enabled source. -/
def processSource (H : HashFns) (p : Params) (runId : Nat) (acc : DB × Stats)
    (src : SourceCfg) : DB × Stats :=
  let db := acc.1
  let stats := { acc.2 with sourcesScanned := acc.2.sourcesScanned + 1 }
  if !src.rootExists then
    (db, { stats with errors := stats.errors ++
        ["Source '" ++ src.name ++ "' root_path not found"] })
  else
    let existingMap := sourceSnapshot db src.id
    let folderMap0 := (db.folders.filter (fun fr => fr.sourceId == src.id)).map
      (fun fr => (fr.relPath, fr.id))
    let rootUp :=
      if (folderMap0.find? (fun e => e.1 == "")).isNone then
        let r := upsertFolder db src.id "" none 0
        (r.1, folderMap0 ++ [("", r.2)])
      else (db, folderMap0)
    let st0 : ScanState := ⟨rootUp.1, stats, [], 0⟩
    let walked := (src.walk.foldl (processDir H p runId src existingMap) (st0, rootUp.2)).1
    let final := existingMap.foldl (markDeleted p runId) walked
    (final.db, final.stats)

/-- The enabled sources of the campaign, in select order. -/
def enabledSources (db : DB) (campaignId : String) : List SourceCfg :=
  db.sources.filter (fun s => s.campaignId == campaignId && s.enabled)

def initStats (total : Nat) : Stats := ⟨total, 0, 0, 0, 0, 0, 0, 0, 0, 0, []⟩

/-- `update_campaign_kb` from `app/kb/update.py`.  The returned store is the
committed state; on the `ValueError("Campaign not found.")` path the
rollback leaves the store untouched and the exception is the `Except.error`
(which `kb_update` in `app/api/routes.py` surfaces as an HTTP error). -/
def update_campaign_kb (H : HashFns) (campaignId : String) (p : Params) (db : DB) :
    DB × Except String RunResult :=
  if !(db.campaigns.contains campaignId) then
    (db, Except.error "Campaign not found.")
  else
    let runId := db.nextId
    let db1 := { db with
      runs := db.runs ++ [⟨runId, campaignId, "api", "running", none, none⟩],
      nextId := db.nextId + 1 }
    let sources := enabledSources db1 campaignId
    let res := sources.foldl (processSource H p runId) (db1, initStats sources.length)
    let stats := res.2
    let status := if stats.errors.isEmpty then "ok" else "partial"
    let db2 := { res.1 with runs := res.1.runs.map (fun r =>
      if r.id == runId then
        { r with status := status, stats := some stats,
                 error := if stats.errors.isEmpty then none
                          else some (String.intercalate "\n" stats.errors) }
      else r) }
    (db2, Except.ok ⟨runId, status, stats⟩)

/-- The store/stats pair after the per-source fold of one accepted run:
`update_campaign_kb` on a known project finalizes exactly this outcome. -/
def runOutcome (H : HashFns) (p : Params) (c : String) (db : DB) : DB × Stats :=
  (enabledSources db c).foldl (processSource H p db.nextId)
    ({ db with runs := db.runs ++ [⟨db.nextId, c, "api", "running", none, none⟩],
               nextId := db.nextId + 1 },
      initStats (enabledSources db c).length)

/-! ## Derived views and well-formedness -/

/-- A walk entry that passes the glob filter and whose stat succeeds. -/
structure WalkEntry where
  rel : String
  pstat : PyStat
  content : String
deriving DecidableEq

/-- The walk entries the engine classifies, in walk order. -/
def walkIncluded (src : SourceCfg) : List WalkEntry :=
  src.walk.flatMap (fun d => d.files.filterMap (fun f =>
    let rel := fileRelPath d.rel f.name
    if _should_include rel src.includeGlobs src.excludeGlobs then
      f.stat.map (fun ps => ⟨rel, ps, f.content⟩)
    else none))

def walkRels (src : SourceCfg) : List String :=
  (walkIncluded src).map (fun e => e.rel)

/-- `stat failed` messages of the walk, in walk order. -/
def walkErrors (src : SourceCfg) : List String :=
  src.walk.flatMap (fun d => d.files.filterMap (fun f =>
    let rel := fileRelPath d.rel f.name
    if _should_include rel src.includeGlobs src.excludeGlobs then
      match f.stat with
      | none => some ("stat failed for " ++ rel)
      | some _ => none
    else none))

/-- Store sanity the real database guarantees: generated ids are unique and
below the generator, audit rows reference existing (hence sub-generator)
runs, and source ids are unique. -/
def WF (db : DB) : Prop :=
  (db.files.map (fun r => r.id)).Nodup ∧
  (∀ r ∈ db.files, r.id < db.nextId) ∧
  (∀ e ∈ db.runFiles, e.runId < db.nextId) ∧
  (db.sources.map (fun s => s.id)).Nodup

/-- Filesystem sanity `os.walk` guarantees: no relative path is yielded
twice within one source. -/
def wfWalk (src : SourceCfg) : Prop :=
  (src.walk.flatMap (fun d => d.files.map (fun f => fileRelPath d.rel f.name))).Nodup

/-- The snapshot resolves `e.rel` to a row carrying `e`'s size and mtime. -/
def snapFound (db : DB) (sid : Nat) (e : WalkEntry) : Prop :=
  ∃ r, (sourceSnapshot db sid).find? (fun x => x.relPath == e.rel) = some r ∧
       r.sizeBytes = e.pstat.size ∧ r.mtimeEpoch = e.pstat.mtime

/-- Every classified walk entry of `src` already has a matching row. -/
def SnapMatches (db : DB) (src : SourceCfg) : Prop :=
  ∀ e ∈ walkIncluded src, snapFound db src.id e

/-! ## Concrete sample data used by closed witnesses and counterexamples -/

/-- A concrete stand-in for the two SHA-256 call sites: deterministic and
collision-free between the two tag spaces. -/
def sampleHash : HashFns :=
  ⟨fun s => "f:" ++ s, fun s => "t:" ++ s⟩

/-- One enabled source, two fresh files in the root directory. -/
def srcTwoFiles : SourceCfg :=
  ⟨1, "camp", "notes", true, true, [], [], "auto",
    [⟨".", [⟨"a.md", some ⟨1, 10⟩, "alpha"⟩, ⟨"b.md", some ⟨2, 20⟩, "beta"⟩]⟩]⟩

def dbTwoFiles : DB :=
  ⟨["camp"], [srcTwoFiles], [], [], [], [], [], [], 100⟩

/-- Two enabled sources with one fresh file each. -/
def srcA : SourceCfg :=
  ⟨1, "camp", "A", true, true, [], [], "auto",
    [⟨".", [⟨"a.md", some ⟨1, 10⟩, "alpha"⟩]⟩]⟩

def srcB : SourceCfg :=
  ⟨2, "camp", "B", true, true, [], [], "auto",
    [⟨".", [⟨"b.md", some ⟨2, 20⟩, "beta"⟩]⟩]⟩

def dbTwoSources : DB :=
  ⟨["camp"], [srcA, srcB], [], [], [], [], [], [], 100⟩

/-- A source whose walk no longer contains the previously seen file. -/
def srcGone : SourceCfg :=
  ⟨1, "camp", "gone", true, true, [], [], "auto", [⟨".", []⟩]⟩

/-- Store with one previously seen file row for `srcGone`. -/
def dbGone : DB :=
  ⟨["camp"], [srcGone], [],
    [⟨7, 1, 3, "a.md", some "md", 1, 10, some "f:alpha", "seen", "ok", none⟩],
    [], [], [], [], 100⟩


/-- The metadata verdict of lines 277–278: new, or size/mtime drifted. -/
def metaChanged (prev : Option FileRec) (sizeBytes mtimeEpoch : Int) : Bool :=
  match prev with
  | none => true
  | some pr => !(pr.sizeBytes == sizeBytes) || !(pr.mtimeEpoch == mtimeEpoch)

/-- The `notes.md` rewrite scenario: mode `mtime`, prior row (size 100,
mtime 10, hash "H1"), on-disk file now (size 120, mtime 11, new content). -/
def srcMtime : SourceCfg :=
  ⟨1, "camp", "s", true, true, [], [], "mtime",
    [⟨".", [⟨"notes.md", some ⟨120, 11⟩, "new body"⟩]⟩]⟩

def dbMtime : DB :=
  ⟨["camp"], [srcMtime], [],
    [⟨7, 1, 3, "notes.md", some "md", 100, 10, some "H1", "seen", "ok", none⟩],
    [], [], [], [], 100⟩

/-- Store sanity the database guarantees for file rows: generated ids are
unique and stay below the id generator. -/
def FilesWF (db : DB) : Prop :=
  ((db.files.map (fun r => r.id)).Nodup) ∧ (∀ r ∈ db.files, r.id < db.nextId)

/-- Context carried while one source is scanned: well-formed file rows, and
every snapshot row id still below the generator and owned by this source. -/
def SrcCtx (sid : Nat) (em : List FileRec) (db : DB) : Prop :=
  FilesWF db ∧ (∀ pr ∈ em, pr.id < db.nextId) ∧
  (∀ pr ∈ em, ∀ r ∈ db.files, r.id = pr.id → r.sourceId = sid)

/-- Classification of one walk entry against a snapshot, as the engine
performs it. -/
def classifySnap (H : HashFns) (force : Bool) (mode : String) (snap : List FileRec)
    (e : WalkEntry) : Verdict :=
  classifyFile H mode force (snap.find? (fun r => r.relPath == e.rel))
    e.pstat.size e.pstat.mtime e.content

/-- The walk entry a directory file contributes, if any. -/
def entryOf (src : SourceCfg) (dirRel : String) (f : FsFile) : Option WalkEntry :=
  if _should_include (fileRelPath dirRel f.name) src.includeGlobs src.excludeGlobs then
    f.stat.map (fun ps => (⟨fileRelPath dirRel f.name, ps, f.content⟩ : WalkEntry))
  else none

/-- The error messages a directory file contributes, if any. -/
def errOf (src : SourceCfg) (dirRel : String) (f : FsFile) : List String :=
  if _should_include (fileRelPath dirRel f.name) src.includeGlobs src.excludeGlobs then
    match f.stat with
    | none => ["stat failed for " ++ fileRelPath dirRel f.name]
    | some _ => []
  else []

def countNew (H : HashFns) (force : Bool) (mode : String) (snap : List FileRec) :
    List WalkEntry → Nat
  | [] => 0
  | e :: es =>
    (if (classifySnap H force mode snap e).isNew then 1 else 0) +
      countNew H force mode snap es

def countChanged (H : HashFns) (force : Bool) (mode : String) (snap : List FileRec) :
    List WalkEntry → Nat
  | [] => 0
  | e :: es =>
    (if (classifySnap H force mode snap e).isNew then 0
     else if (classifySnap H force mode snap e).changed then 1 else 0) +
      countChanged H force mode snap es

def countUnchanged (H : HashFns) (force : Bool) (mode : String) (snap : List FileRec) :
    List WalkEntry → Nat
  | [] => 0
  | e :: es =>
    (if (classifySnap H force mode snap e).isNew then 0
     else if (classifySnap H force mode snap e).changed then 0 else 1) +
      countUnchanged H force mode snap es

/-- Snapshot rows the deletion pass will count as vanished. -/
def countDeleted (em : List FileRec) (rels : List String) : Nat :=
  (em.filter (fun r => !(rels.contains r.relPath))).length

/-- Positional no-new-deletions relation between two file stores: a run may
insert rows and refresh rows in place, but no surviving position flips to
`deleted`. -/
def NoNewDeleted (files1 files2 : List FileRec) : Prop :=
  files1.length ≤ files2.length ∧
  ∀ i, (h2 : i < files2.length) → (files2.get ⟨i, h2⟩).status = "deleted" →
    ∃ h1 : i < files1.length, (files1.get ⟨i, h1⟩).status = "deleted"

def expSeen : List SourceCfg → Nat
  | [] => 0
  | s :: ss => (if s.rootExists then (walkIncluded s).length else 0) + expSeen ss

def expNew (H : HashFns) (force : Bool) (db : DB) : List SourceCfg → Nat
  | [] => 0
  | s :: ss =>
    (if s.rootExists then
      countNew H force s.changeDetection (sourceSnapshot db s.id) (walkIncluded s)
     else 0) + expNew H force db ss

def expChanged (H : HashFns) (force : Bool) (db : DB) : List SourceCfg → Nat
  | [] => 0
  | s :: ss =>
    (if s.rootExists then
      countChanged H force s.changeDetection (sourceSnapshot db s.id) (walkIncluded s)
     else 0) + expChanged H force db ss

def expUnchanged (H : HashFns) (force : Bool) (db : DB) : List SourceCfg → Nat
  | [] => 0
  | s :: ss =>
    (if s.rootExists then
      countUnchanged H force s.changeDetection (sourceSnapshot db s.id) (walkIncluded s)
     else 0) + expUnchanged H force db ss

def expDeleted (db : DB) : List SourceCfg → Nat
  | [] => 0
  | s :: ss =>
    (if s.rootExists then countDeleted (sourceSnapshot db s.id) (walkRels s) else 0) +
      expDeleted db ss

def expErrors : List SourceCfg → List String
  | [] => []
  | s :: ss =>
    (if s.rootExists then walkErrors s
     else ["Source '" ++ s.name ++ "' root_path not found"]) ++ expErrors ss


def trackId (em : List FileRec) (n0 : Nat) (rel : String) (rid : Nat) : Prop :=
  match em.find? (fun x => x.relPath == rel) with
  | some r0 => rid = r0.id
  | none => n0 ≤ rid

/-- Invariant carried while one source's walk is replayed: generator floor,
snapshot path uniqueness, snapshot paths accounted for, one fresh `seen` row
per processed entry, and untouched snapshot rows for unprocessed paths. -/
def EstInv (src : SourceCfg) (em : List FileRec) (n0 : Nat)
    (P : List WalkEntry) (db : DB) : Prop :=
  n0 ≤ db.nextId ∧
  (((sourceSnapshot db src.id).map (fun x => x.relPath)).Nodup) ∧
  (∀ rel ∈ (sourceSnapshot db src.id).map (fun x => x.relPath),
    rel ∈ em.map (fun x => x.relPath) ∨ rel ∈ P.map (fun e => e.rel)) ∧
  (∀ e ∈ P, ∃ x ∈ db.files, x.sourceId = src.id ∧ x.relPath = e.rel ∧
    x.sizeBytes = e.pstat.size ∧ x.mtimeEpoch = e.pstat.mtime ∧ x.status = "seen" ∧
    trackId em n0 e.rel x.id) ∧
  (∀ r0 ∈ em, r0.relPath ∉ P.map (fun e => e.rel) →
    ∃ x ∈ db.files, x.id = r0.id ∧ x.relPath = r0.relPath ∧ ¬(x.status = "deleted"))

/-- Run-File rows appended since a reference point, none touching file `vid`. -/
def AuditFrame (vid : Nat) (rf rf2 : List RunFileRec) : Prop :=
  ∃ news, rf2 = rf ++ news ∧ ∀ a ∈ news, ¬(a.fileId = vid)

/-! ## Theorems -/

/-! ### C8: chunker reconstruction -/

theorem chunkTextL_eq (s : List Char) (mc ov : Nat) :
    chunkTextL s mc ov =
      if pyStrip s = [] then [] else chunkWindows (pyStrip s) mc ov (pyStrip s).length 0 := by
  rw [chunkTextL]
  by_cases h : pyStrip s = []
  · simp [h]
  · simp [h, List.isEmpty_iff]

theorem chunkWindows_flatten_drop (s : List Char) (mc ov : Nat) (hov : ov < mc) :
    ∀ (fuel i : Nat), i < s.length → s.length - i ≤ fuel →
      ((chunkWindows s mc ov fuel i).map (fun g => g.drop ov)).flatten = s.drop (i + ov) := by
  intro fuel
  induction fuel with
  | zero => intro i hi hf; omega
  | succ f ih =>
    intro i hi hf
    rw [chunkWindows]
    simp only [hi, if_pos]
    by_cases hj : s.length ≤ min s.length (i + mc)
    · simp only [hj, if_pos, List.map_cons, List.map_nil, List.flatten_cons,
        List.flatten_nil, List.append_nil]
      have hmin : min s.length (i + mc) = s.length := by omega
      rw [hmin]
      rw [List.take_of_length_le (by simp)]
      rw [List.drop_drop]
    · simp only [hj, if_neg, not_false_iff, List.map_cons, List.flatten_cons]
      have hmin : min s.length (i + mc) = i + mc := by omega
      rw [hmin] at hj ⊢
      have h2 : i + mc - ov < s.length := by omega
      have h3 : s.length - (i + mc - ov) ≤ f := by omega
      rw [ih (i + mc - ov) h2 h3]
      rw [List.drop_take, List.drop_drop]
      have hco2 : i + mc - ov + ov = i + mc := by omega
      rw [hco2]
      have hms : i + mc - i - ov = mc - ov := by omega
      rw [hms]
      calc (s.drop (i + ov)).take (mc - ov) ++ s.drop (i + mc)
          = (s.drop (i + ov)).take (mc - ov) ++ (s.drop (i + ov)).drop (mc - ov) := by
            rw [List.drop_drop]
            have hx : i + ov + (mc - ov) = i + mc := by omega
            rw [hx]
        _ = s.drop (i + ov) := List.take_append_drop _ _

theorem chunkWindows_reassemble (s : List Char) (mc ov : Nat) (hov : ov < mc)
    (fuel i : Nat) (hi : i < s.length) (hf : s.length - i ≤ fuel) :
    reassemble ov (chunkWindows s mc ov fuel i) = s.drop i := by
  cases fuel with
  | zero => omega
  | succ f =>
    rw [chunkWindows]
    simp only [hi, if_pos]
    by_cases hj : s.length ≤ min s.length (i + mc)
    · simp only [hj, if_pos, reassemble, List.map_nil, List.flatten_nil, List.append_nil]
      have hmin : min s.length (i + mc) = s.length := by omega
      rw [hmin]
      exact List.take_of_length_le (by simp)
    · simp only [hj, if_neg, not_false_iff, reassemble]
      have hmin : min s.length (i + mc) = i + mc := by omega
      rw [hmin] at hj ⊢
      have h2 : i + mc - ov < s.length := by omega
      have h3 : s.length - (i + mc - ov) ≤ f := by omega
      rw [chunkWindows_flatten_drop s mc ov hov f (i + mc - ov) h2 h3]
      have hco2 : i + mc - ov + ov = i + mc := by omega
      rw [hco2]
      calc (s.drop i).take (i + mc - i) ++ s.drop (i + mc)
          = (s.drop i).take (i + mc - i) ++ (s.drop i).drop (i + mc - i) := by
            rw [List.drop_drop]
            have hx : i + (i + mc - i) = i + mc := by omega
            rw [hx]
        _ = s.drop i := List.take_append_drop _ _

theorem chunkWindows_no_empty (s : List Char) (mc ov : Nat) (hmc : 1 ≤ mc) :
    ∀ (fuel i : Nat), ∀ g ∈ chunkWindows s mc ov fuel i, g ≠ [] := by
  intro fuel
  induction fuel with
  | zero => intro i g hg; simp [chunkWindows] at hg
  | succ f ih =>
    intro i g hg
    rw [chunkWindows] at hg
    by_cases hi : i < s.length
    · simp only [hi, if_pos] at hg
      have hlen : 0 < ((s.drop i).take (min s.length (i + mc) - i)).length := by
        rw [List.length_take, List.length_drop]
        omega
      have hpiece : ((s.drop i).take (min s.length (i + mc) - i)) ≠ [] := by
        intro hempty
        rw [hempty] at hlen
        simp at hlen
      by_cases hj : s.length ≤ min s.length (i + mc)
      · simp only [hj, if_pos, List.mem_singleton] at hg
        rw [hg]; exact hpiece
      · simp only [hj, if_neg, not_false_iff, List.mem_cons] at hg
        rcases hg with hg | hg
        · rw [hg]; exact hpiece
        · exact ih _ g hg
    · simp only [hi, if_neg, not_false_iff] at hg
      simp at hg

/-- C8. For every text input and every bounds with `overlapChars < maxChars`:
concatenating the chunker's fragments in order, dropping the first
`overlapChars` characters of every fragment after the first (every preceding
window is full), reproduces the trimmed input exactly; empty trimmed input
yields the empty sequence, and no fragment (in particular no trailing one)
is empty. -/
theorem C8_chunker_reconstruction (s : List Char) (maxChars overlap : Nat)
    (hov : overlap < maxChars) :
    reassemble overlap (chunkTextL s maxChars overlap) = pyStrip s ∧
    (pyStrip s = [] → chunkTextL s maxChars overlap = []) ∧
    (∀ g ∈ chunkTextL s maxChars overlap, g ≠ []) ∧
    _chunk_text (String.mk s) maxChars overlap =
      (chunkTextL s maxChars overlap).map (fun l => String.mk l) := by
  refine ⟨?_, ?_, ?_, rfl⟩
  · rw [chunkTextL_eq]
    by_cases hemp : pyStrip s = []
    · simp [hemp, reassemble]
    · simp only [hemp, if_neg, not_false_iff]
      have hlen : 0 < (pyStrip s).length := List.length_pos.mpr hemp
      have hmain := chunkWindows_reassemble (pyStrip s) maxChars overlap hov
        (pyStrip s).length 0 hlen (by omega)
      rw [hmain]
      simp
  · intro h
    rw [chunkTextL_eq]
    simp [h]
  · intro g hg
    rw [chunkTextL_eq] at hg
    by_cases hemp : pyStrip s = []
    · simp [hemp] at hg
    · simp only [hemp, if_neg, not_false_iff] at hg
      exact chunkWindows_no_empty (pyStrip s) maxChars overlap (by omega) _ _ g hg

/-- Closed witness for C8 at a concrete input. -/
theorem C8_chunker_reconstruction_witness :
    reassemble 1 (chunkTextL "  hello world  ".toList 4 1) = pyStrip "  hello world  ".toList ∧
    (pyStrip "  hello world  ".toList = [] → chunkTextL "  hello world  ".toList 4 1 = []) ∧
    (∀ g ∈ chunkTextL "  hello world  ".toList 4 1, g ≠ []) ∧
    _chunk_text (String.mk "  hello world  ".toList) 4 1 =
      (chunkTextL "  hello world  ".toList 4 1).map (fun l => String.mk l) :=
  C8_chunker_reconstruction "  hello world  ".toList 4 1 (by decide)

/-! ### C3: glob matcher -/

/-- C3 counterexample: with includes `["**/*.md"]` and excludes
`["**/.git/**"]`, the code includes `.git/c.md` and rejects `a.md` —
the reverse of the claimed scenario. -/
theorem C3_glob_scenario_counterexample :
    _should_include "a.md" ["**/*.md"] ["**/.git/**"] = false ∧
    _should_include ".git/c.md" ["**/*.md"] ["**/.git/**"] = true ∧
    _should_include "b.txt" ["**/*.md"] ["**/.git/**"] = false := by
  refine ⟨by decide, by decide, by decide⟩

/-- C3 (amended): any exclude match forces `false`; an empty include set
(with no exclude match) defaults to `true`; otherwise the result is exactly
`_matches_any` over the includes, whose per-pattern semantics is
`PurePosixPath.match` (right-anchored componentwise fnmatch, `**` behaving
as `*`, a pattern with more components than the path never matching); a
pattern that raises never matches and the exception never escapes; in the
claimed scenario exactly `.git/c.md` is included. -/
theorem C3_glob_semantics (rel : String) (inc exc : List String) :
    (_matches_any rel exc = true → _should_include rel inc exc = false) ∧
    (inc = [] → _matches_any rel exc = false → _should_include rel inc exc = true) ∧
    (inc ≠ [] → _matches_any rel exc = false →
      _should_include rel inc exc = _matches_any rel inc) ∧
    (∀ pat pats, pathMatchE (purePosixParts rel) pat = Except.error () →
      _matches_any rel (pat :: pats) = _matches_any rel pats) ∧
    (_should_include ".git/c.md" ["**/*.md"] ["**/.git/**"] = true ∧
      _should_include "a.md" ["**/*.md"] ["**/.git/**"] = false ∧
      _should_include "b.txt" ["**/*.md"] ["**/.git/**"] = false) := by
  refine ⟨?_, ?_, ?_, ?_, by decide, by decide, by decide⟩
  · intro h
    have hne : exc ≠ [] := by
      intro he
      rw [he] at h
      simp [_matches_any] at h
    rw [_should_include]
    have hcond : (!exc.isEmpty && _matches_any rel exc) = true := by
      rw [h]
      cases exc with
      | nil => exact absurd rfl hne
      | cons a t => simp
    rw [hcond]
    simp
  · intro h1 h2
    rw [_should_include]
    simp [h1, h2]
  · intro h1 h2
    rw [_should_include]
    simp [h2]
    intro h3
    exact absurd h3 h1
  · intro pat pats h
    rw [_matches_any, _matches_any]
    simp [List.any_cons, h]

/-- Closed witness for C3: a nonempty include set with no exclude match
reduces to `_matches_any` over the includes. -/
theorem C3_glob_semantics_witness :
    _should_include "x/a.md" ["*.md"] [] = _matches_any "x/a.md" ["*.md"] :=
  (C3_glob_semantics "x/a.md" ["*.md"] []).2.2.1 (by decide) (by decide)

/-! ### Frame lemmas for the engine steps -/

theorem upsertDoc_frame (H : HashFns) (db : DB) (c : String) (fid : Nat) (t dt b : String) :
    ((_upsert_document_and_chunks H db c fid t dt b).1.runs = db.runs) ∧
    ((_upsert_document_and_chunks H db c fid t dt b).1.campaigns = db.campaigns) ∧
    ((_upsert_document_and_chunks H db c fid t dt b).1.sources = db.sources) ∧
    ((_upsert_document_and_chunks H db c fid t dt b).1.folders = db.folders) ∧
    ((_upsert_document_and_chunks H db c fid t dt b).1.files = db.files) ∧
    ((_upsert_document_and_chunks H db c fid t dt b).1.runFiles = db.runFiles) ∧
    (db.nextId ≤ (_upsert_document_and_chunks H db c fid t dt b).1.nextId) := by
  rw [_upsert_document_and_chunks]
  cases hf : db.docs.find? (fun d => d.campaignId == c && d.sourceFileId == fid) with
  | none => simp
  | some d =>
    by_cases hh : d.contentHash == H.textHash b
    · simp [hh]
    · simp [hh]

theorem ingestFile_frame (H : HashFns) (runId : Nat) (c : String) (fileId : Nat)
    (name : String) (ext : Option String) (content : String) (st : ScanState) :
    ((ingestFile H runId c fileId name ext content st).db.runs = st.db.runs) ∧
    ((ingestFile H runId c fileId name ext content st).db.campaigns = st.db.campaigns) ∧
    ((ingestFile H runId c fileId name ext content st).db.sources = st.db.sources) ∧
    ((ingestFile H runId c fileId name ext content st).db.folders = st.db.folders) ∧
    (st.db.nextId ≤ (ingestFile H runId c fileId name ext content st).db.nextId) := by
  rw [ingestFile]
  have hud := fun dt => upsertDoc_frame H st.db c fileId (pathStem name) dt content
  dsimp only []
  split_ifs <;>
    refine ⟨?_, ?_, ?_, ?_, ?_⟩ <;>
    first
      | exact (hud _).1
      | exact (hud _).2.1
      | exact (hud _).2.2.1
      | exact (hud _).2.2.2.1
      | exact (hud _).2.2.2.2.2.2

theorem upsertFileRow_frame (db : DB) (sid fid : Nat) (relPath : String)
    (ext : Option String) (pstat : PyStat) (v : Verdict) (prev : Option FileRec) :
    ((upsertFileRow db sid fid relPath ext pstat v prev).1.runs = db.runs) ∧
    ((upsertFileRow db sid fid relPath ext pstat v prev).1.campaigns = db.campaigns) ∧
    ((upsertFileRow db sid fid relPath ext pstat v prev).1.sources = db.sources) ∧
    ((upsertFileRow db sid fid relPath ext pstat v prev).1.folders = db.folders) ∧
    ((upsertFileRow db sid fid relPath ext pstat v prev).1.docs = db.docs) ∧
    ((upsertFileRow db sid fid relPath ext pstat v prev).1.chunks = db.chunks) ∧
    ((upsertFileRow db sid fid relPath ext pstat v prev).1.runFiles = db.runFiles) ∧
    (db.nextId ≤ (upsertFileRow db sid fid relPath ext pstat v prev).1.nextId) := by
  rw [upsertFileRow]
  split <;> simp

theorem processFile_frame (H : HashFns) (p : Params) (runId : Nat) (src : SourceCfg)
    (em : List FileRec) (fm : List (String × Nat)) (dirRel : String)
    (st : ScanState) (f : FsFile) :
    ((processFile H p runId src em fm dirRel st f).db.runs = st.db.runs) ∧
    ((processFile H p runId src em fm dirRel st f).db.campaigns = st.db.campaigns) ∧
    ((processFile H p runId src em fm dirRel st f).db.sources = st.db.sources) ∧
    ((processFile H p runId src em fm dirRel st f).db.folders = st.db.folders) ∧
    (st.db.nextId ≤ (processFile H p runId src em fm dirRel st f).db.nextId) := by
  rw [processFile]
  split
  · exact ⟨rfl, rfl, rfl, rfl, Nat.le_refl _⟩
  · cases f.stat with
    | none => exact ⟨rfl, rfl, rfl, rfl, Nat.le_refl _⟩
    | some pstat =>
      dsimp only []
      have hup := upsertFileRow_frame st.db src.id
        (((fm.find? (fun e => e.1 == dirRel)).map Prod.snd).getD
          (((fm.find? (fun e => e.1 == "")).map Prod.snd).getD 0))
        (fileRelPath dirRel f.name) (pathExt f.name)
        pstat
        (classifyFile H src.changeDetection p.forceRehash
          (em.find? (fun r => r.relPath == fileRelPath dirRel f.name))
          pstat.size pstat.mtime f.content)
        (em.find? (fun r => r.relPath == fileRelPath dirRel f.name))
      split
      · split
        · exact ⟨hup.1, hup.2.1, hup.2.2.1, hup.2.2.2.1, hup.2.2.2.2.2.2.2⟩
        · have hing := ingestFile_frame H runId src.campaignId
            (upsertFileRow st.db src.id
              (((fm.find? (fun e => e.1 == dirRel)).map Prod.snd).getD
                (((fm.find? (fun e => e.1 == "")).map Prod.snd).getD 0))
              (fileRelPath dirRel f.name) (pathExt f.name) pstat
              (classifyFile H src.changeDetection p.forceRehash
                (em.find? (fun r => r.relPath == fileRelPath dirRel f.name))
                pstat.size pstat.mtime f.content)
              (em.find? (fun r => r.relPath == fileRelPath dirRel f.name))).2
            f.name (pathExt f.name) f.content
            ⟨(upsertFileRow st.db src.id
              (((fm.find? (fun e => e.1 == dirRel)).map Prod.snd).getD
                (((fm.find? (fun e => e.1 == "")).map Prod.snd).getD 0))
              (fileRelPath dirRel f.name) (pathExt f.name) pstat
              (classifyFile H src.changeDetection p.forceRehash
                (em.find? (fun r => r.relPath == fileRelPath dirRel f.name))
                pstat.size pstat.mtime f.content)
              (em.find? (fun r => r.relPath == fileRelPath dirRel f.name))).1,
             statCounters { st.stats with filesSeen := st.stats.filesSeen + 1 }
               (classifyFile H src.changeDetection p.forceRehash
                 (em.find? (fun r => r.relPath == fileRelPath dirRel f.name))
                 pstat.size pstat.mtime f.content),
             st.seenPaths ++ [fileRelPath dirRel f.name], st.filesToIngest⟩
          refine ⟨?_, ?_, ?_, ?_, ?_⟩
          · rw [hing.1]; exact hup.1
          · rw [hing.2.1]; exact hup.2.1
          · rw [hing.2.2.1]; exact hup.2.2.1
          · rw [hing.2.2.2.1]; exact hup.2.2.2.1
          · exact le_trans hup.2.2.2.2.2.2.2 hing.2.2.2.2
      · exact ⟨hup.1, hup.2.1, hup.2.2.1, hup.2.2.2.1, hup.2.2.2.2.2.2.2⟩

theorem foldl_processFile_frame (H : HashFns) (p : Params) (runId : Nat) (src : SourceCfg)
    (em : List FileRec) (fm : List (String × Nat)) (dirRel : String) :
    ∀ (fs : List FsFile) (st : ScanState),
      ((fs.foldl (processFile H p runId src em fm dirRel) st).db.runs = st.db.runs) ∧
      ((fs.foldl (processFile H p runId src em fm dirRel) st).db.campaigns = st.db.campaigns) ∧
      ((fs.foldl (processFile H p runId src em fm dirRel) st).db.sources = st.db.sources) ∧
      ((fs.foldl (processFile H p runId src em fm dirRel) st).db.folders = st.db.folders) ∧
      (st.db.nextId ≤ (fs.foldl (processFile H p runId src em fm dirRel) st).db.nextId) := by
  intro fs
  induction fs with
  | nil => intro st; exact ⟨rfl, rfl, rfl, rfl, Nat.le_refl _⟩
  | cons f rest ih =>
    intro st
    rw [List.foldl_cons]
    have h1 := processFile_frame H p runId src em fm dirRel st f
    have h2 := ih (processFile H p runId src em fm dirRel st f)
    exact ⟨h2.1.trans h1.1, h2.2.1.trans h1.2.1, h2.2.2.1.trans h1.2.2.1,
      h2.2.2.2.1.trans h1.2.2.2.1, le_trans h1.2.2.2.2 h2.2.2.2.2⟩

theorem upsertFolder_frame (db : DB) (sid : Nat) (relPath : String) (parentId : Option Nat)
    (depth : Nat) :
    ((upsertFolder db sid relPath parentId depth).1.runs = db.runs) ∧
    ((upsertFolder db sid relPath parentId depth).1.campaigns = db.campaigns) ∧
    ((upsertFolder db sid relPath parentId depth).1.sources = db.sources) ∧
    ((upsertFolder db sid relPath parentId depth).1.files = db.files) ∧
    ((upsertFolder db sid relPath parentId depth).1.docs = db.docs) ∧
    ((upsertFolder db sid relPath parentId depth).1.chunks = db.chunks) ∧
    ((upsertFolder db sid relPath parentId depth).1.runFiles = db.runFiles) ∧
    (db.nextId ≤ (upsertFolder db sid relPath parentId depth).1.nextId) := by
  rw [upsertFolder]
  cases db.folders.find? (fun fr => fr.sourceId == sid && fr.relPath == relPath) with
  | none => simp
  | some fr => simp

theorem processDir_frame (H : HashFns) (p : Params) (runId : Nat) (src : SourceCfg)
    (em : List FileRec) (acc : ScanState × List (String × Nat)) (d : FsDir) :
    ((processDir H p runId src em acc d).1.db.runs = acc.1.db.runs) ∧
    ((processDir H p runId src em acc d).1.db.campaigns = acc.1.db.campaigns) ∧
    ((processDir H p runId src em acc d).1.db.sources = acc.1.db.sources) ∧
    (acc.1.db.nextId ≤ (processDir H p runId src em acc d).1.db.nextId) := by
  rw [processDir]
  dsimp only []
  split
  · have hfo := upsertFolder_frame acc.1.db src.id d.rel
      (some (((acc.2.find? (fun e => e.1 == (if d.rel == "" then "" else pyParentRel d.rel))).map
          Prod.snd).getD
        (((acc.2.find? (fun e => e.1 == "")).map Prod.snd).getD 0)))
      (if d.rel == "" then 0 else (purePosixParts d.rel).length)
    have hff := foldl_processFile_frame H p runId src em
      (acc.2 ++ [(d.rel, (upsertFolder acc.1.db src.id d.rel
        (some (((acc.2.find? (fun e => e.1 == (if d.rel == "" then "" else pyParentRel d.rel))).map
            Prod.snd).getD
          (((acc.2.find? (fun e => e.1 == "")).map Prod.snd).getD 0)))
        (if d.rel == "" then 0 else (purePosixParts d.rel).length)).2)]) d.rel d.files
      ⟨(upsertFolder acc.1.db src.id d.rel
        (some (((acc.2.find? (fun e => e.1 == (if d.rel == "" then "" else pyParentRel d.rel))).map
            Prod.snd).getD
          (((acc.2.find? (fun e => e.1 == "")).map Prod.snd).getD 0)))
        (if d.rel == "" then 0 else (purePosixParts d.rel).length)).1,
        acc.1.stats, acc.1.seenPaths, acc.1.filesToIngest⟩
    exact ⟨hff.1.trans hfo.1, hff.2.1.trans hfo.2.1, hff.2.2.1.trans hfo.2.2.1,
      le_trans hfo.2.2.2.2.2.2.2 hff.2.2.2.2⟩
  · have hff := foldl_processFile_frame H p runId src em acc.2 d.rel d.files acc.1
    exact ⟨hff.1, hff.2.1, hff.2.2.1, hff.2.2.2.2⟩

theorem foldl_processDir_frame (H : HashFns) (p : Params) (runId : Nat) (src : SourceCfg)
    (em : List FileRec) :
    ∀ (ds : List FsDir) (acc : ScanState × List (String × Nat)),
      ((ds.foldl (processDir H p runId src em) acc).1.db.runs = acc.1.db.runs) ∧
      ((ds.foldl (processDir H p runId src em) acc).1.db.campaigns = acc.1.db.campaigns) ∧
      ((ds.foldl (processDir H p runId src em) acc).1.db.sources = acc.1.db.sources) ∧
      (acc.1.db.nextId ≤ (ds.foldl (processDir H p runId src em) acc).1.db.nextId) := by
  intro ds
  induction ds with
  | nil => intro acc; exact ⟨rfl, rfl, rfl, Nat.le_refl _⟩
  | cons d rest ih =>
    intro acc
    rw [List.foldl_cons]
    have h1 := processDir_frame H p runId src em acc d
    have h2 := ih (processDir H p runId src em acc d)
    exact ⟨h2.1.trans h1.1, h2.2.1.trans h1.2.1, h2.2.2.1.trans h1.2.2.1,
      le_trans h1.2.2.2 h2.2.2.2⟩

theorem markDeleted_frame (p : Params) (runId : Nat) (st : ScanState) (prev : FileRec) :
    ((markDeleted p runId st prev).db.runs = st.db.runs) ∧
    ((markDeleted p runId st prev).db.campaigns = st.db.campaigns) ∧
    ((markDeleted p runId st prev).db.sources = st.db.sources) ∧
    ((markDeleted p runId st prev).db.folders = st.db.folders) ∧
    ((markDeleted p runId st prev).db.docs = st.db.docs) ∧
    ((markDeleted p runId st prev).db.chunks = st.db.chunks) ∧
    ((markDeleted p runId st prev).db.nextId = st.db.nextId) := by
  rw [markDeleted]
  dsimp only []
  split_ifs <;> exact ⟨rfl, rfl, rfl, rfl, rfl, rfl, rfl⟩

theorem foldl_markDeleted_frame (p : Params) (runId : Nat) :
    ∀ (em : List FileRec) (st : ScanState),
      ((em.foldl (markDeleted p runId) st).db.runs = st.db.runs) ∧
      ((em.foldl (markDeleted p runId) st).db.campaigns = st.db.campaigns) ∧
      ((em.foldl (markDeleted p runId) st).db.sources = st.db.sources) ∧
      ((em.foldl (markDeleted p runId) st).db.folders = st.db.folders) ∧
      ((em.foldl (markDeleted p runId) st).db.docs = st.db.docs) ∧
      ((em.foldl (markDeleted p runId) st).db.chunks = st.db.chunks) ∧
      ((em.foldl (markDeleted p runId) st).db.nextId = st.db.nextId) := by
  intro em
  induction em with
  | nil => intro st; exact ⟨rfl, rfl, rfl, rfl, rfl, rfl, rfl⟩
  | cons r rest ih =>
    intro st
    rw [List.foldl_cons]
    have h1 := markDeleted_frame p runId st r
    have h2 := ih (markDeleted p runId st r)
    exact ⟨h2.1.trans h1.1, h2.2.1.trans h1.2.1, h2.2.2.1.trans h1.2.2.1,
      h2.2.2.2.1.trans h1.2.2.2.1, h2.2.2.2.2.1.trans h1.2.2.2.2.1,
      h2.2.2.2.2.2.1.trans h1.2.2.2.2.2.1, h2.2.2.2.2.2.2.trans h1.2.2.2.2.2.2⟩

theorem processSource_frame (H : HashFns) (p : Params) (runId : Nat) (acc : DB × Stats)
    (src : SourceCfg) :
    ((processSource H p runId acc src).1.runs = acc.1.runs) ∧
    ((processSource H p runId acc src).1.campaigns = acc.1.campaigns) ∧
    ((processSource H p runId acc src).1.sources = acc.1.sources) ∧
    (acc.1.nextId ≤ (processSource H p runId acc src).1.nextId) := by
  rw [processSource]
  dsimp only []
  split
  · exact ⟨rfl, rfl, rfl, Nat.le_refl _⟩
  · split
    · have hfo := upsertFolder_frame acc.1 src.id "" none 0
      have hwd := foldl_processDir_frame H p runId src (sourceSnapshot acc.1 src.id) src.walk
        (⟨(upsertFolder acc.1 src.id "" none 0).1,
          { acc.2 with sourcesScanned := acc.2.sourcesScanned + 1 }, [], 0⟩,
          ((acc.1.folders.filter (fun fr => fr.sourceId == src.id)).map
            (fun fr => (fr.relPath, fr.id))) ++ [("", (upsertFolder acc.1 src.id "" none 0).2)])
      have hmd := foldl_markDeleted_frame p runId (sourceSnapshot acc.1 src.id)
        (src.walk.foldl (processDir H p runId src (sourceSnapshot acc.1 src.id))
          (⟨(upsertFolder acc.1 src.id "" none 0).1,
            { acc.2 with sourcesScanned := acc.2.sourcesScanned + 1 }, [], 0⟩,
            ((acc.1.folders.filter (fun fr => fr.sourceId == src.id)).map
              (fun fr => (fr.relPath, fr.id))) ++ [("", (upsertFolder acc.1 src.id "" none 0).2)])).1
      refine ⟨?_, ?_, ?_, ?_⟩
      · exact (hmd.1.trans hwd.1).trans hfo.1
      · exact (hmd.2.1.trans hwd.2.1).trans hfo.2.1
      · exact (hmd.2.2.1.trans hwd.2.2.1).trans hfo.2.2.1
      · refine le_trans hfo.2.2.2.2.2.2.2 (le_trans hwd.2.2.2 ?_)
        rw [hmd.2.2.2.2.2.2]
    · have hwd := foldl_processDir_frame H p runId src (sourceSnapshot acc.1 src.id) src.walk
        (⟨acc.1, { acc.2 with sourcesScanned := acc.2.sourcesScanned + 1 }, [], 0⟩,
          (acc.1.folders.filter (fun fr => fr.sourceId == src.id)).map
            (fun fr => (fr.relPath, fr.id)))
      have hmd := foldl_markDeleted_frame p runId (sourceSnapshot acc.1 src.id)
        (src.walk.foldl (processDir H p runId src (sourceSnapshot acc.1 src.id))
          (⟨acc.1, { acc.2 with sourcesScanned := acc.2.sourcesScanned + 1 }, [], 0⟩,
            (acc.1.folders.filter (fun fr => fr.sourceId == src.id)).map
              (fun fr => (fr.relPath, fr.id)))).1
      refine ⟨(hmd.1.trans hwd.1), (hmd.2.1.trans hwd.2.1), (hmd.2.2.1.trans hwd.2.2.1), ?_⟩
      refine le_trans hwd.2.2.2 ?_
      rw [hmd.2.2.2.2.2.2]

theorem foldl_processSource_frame (H : HashFns) (p : Params) (runId : Nat) :
    ∀ (srcs : List SourceCfg) (acc : DB × Stats),
      ((srcs.foldl (processSource H p runId) acc).1.runs = acc.1.runs) ∧
      ((srcs.foldl (processSource H p runId) acc).1.campaigns = acc.1.campaigns) ∧
      ((srcs.foldl (processSource H p runId) acc).1.sources = acc.1.sources) ∧
      (acc.1.nextId ≤ (srcs.foldl (processSource H p runId) acc).1.nextId) := by
  intro srcs
  induction srcs with
  | nil => intro acc; exact ⟨rfl, rfl, rfl, Nat.le_refl _⟩
  | cons s rest ih =>
    intro acc
    rw [List.foldl_cons]
    have h1 := processSource_frame H p runId acc s
    have h2 := ih (processSource H p runId acc s)
    exact ⟨h2.1.trans h1.1, h2.2.1.trans h1.2.1, h2.2.2.1.trans h1.2.2.1,
      le_trans h1.2.2.2 h2.2.2.2⟩

/-! ### C5: unknown project -/

theorem contains_false_of_not_mem (l : List String) (a : String) (h : a ∉ l) :
    l.contains a = false := by
  by_contra hne
  exact h (List.elem_iff.mp (by simpa using hne))

theorem update_campaign_kb_found (H : HashFns) (p : Params) (db : DB) (c : String)
    (hc : db.campaigns.contains c = true) :
    update_campaign_kb H c p db =
      ({ (runOutcome H p c db).1 with runs := (runOutcome H p c db).1.runs.map (fun r =>
          if r.id == db.nextId then
            { r with
                status := if (runOutcome H p c db).2.errors.isEmpty then "ok" else "partial",
                stats := some (runOutcome H p c db).2,
                error := if (runOutcome H p c db).2.errors.isEmpty then none
                         else some (String.intercalate "\n" (runOutcome H p c db).2.errors) }
          else r) },
       Except.ok ⟨db.nextId,
         if (runOutcome H p c db).2.errors.isEmpty then "ok" else "partial",
         (runOutcome H p c db).2⟩) := by
  rw [update_campaign_kb]
  simp only [hc, Bool.not_true, Bool.false_eq_true, if_false]
  rfl

theorem runOutcome_runs (H : HashFns) (p : Params) (c : String) (db : DB) :
    (runOutcome H p c db).1.runs =
      db.runs ++ [⟨db.nextId, c, "api", "running", none, none⟩] :=
  (foldl_processSource_frame H p db.nextId (enabledSources db c)
    ({ db with runs := db.runs ++ [⟨db.nextId, c, "api", "running", none, none⟩],
               nextId := db.nextId + 1 },
      initStats (enabledSources db c).length)).1

/-- C5: an unknown project aborts with the not-found error before any
persistence — the returned store is exactly the input store, so in
particular no Run row is created; a known project always yields a complete
RunResult whose run id, status and stats are those of the finalized Run row
(`ok` when the error list is empty, `partial` otherwise). -/
theorem C5_unknown_project_aborts (H : HashFns) (p : Params) (db : DB)
    (campaignId : String) :
    (campaignId ∉ db.campaigns →
      update_campaign_kb H campaignId p db = (db, Except.error "Campaign not found.")) ∧
    (campaignId ∈ db.campaigns →
      ∃ res, (update_campaign_kb H campaignId p db).2 = Except.ok res ∧
        res.runId = db.nextId ∧
        (res.status = "ok" ∨ res.status = "partial") ∧
        ∃ r ∈ (update_campaign_kb H campaignId p db).1.runs,
          r.id = res.runId ∧ r.status = res.status ∧ r.stats = some res.stats) := by
  constructor
  · intro h
    have hc : db.campaigns.contains campaignId = false := contains_false_of_not_mem _ _ h
    rw [update_campaign_kb]
    simp only [hc]
    rfl
  · intro h
    have hc : db.campaigns.contains campaignId = true := List.elem_iff.mpr h
    rw [update_campaign_kb_found H p db campaignId hc]
    refine ⟨_, rfl, rfl, ?_, ?_⟩
    · by_cases he : (runOutcome H p campaignId db).2.errors.isEmpty
      · left; simp [he]
      · right; simp [he]
    · refine ⟨⟨db.nextId, campaignId, "api",
          (if (runOutcome H p campaignId db).2.errors.isEmpty then "ok" else "partial"),
          some (runOutcome H p campaignId db).2,
          (if (runOutcome H p campaignId db).2.errors.isEmpty then none
           else some (String.intercalate "\n" (runOutcome H p campaignId db).2.errors))⟩,
        ?_, rfl, rfl, rfl⟩
      rw [runOutcome_runs, List.map_append]
      refine List.mem_append_right _ ?_
      simp

/-- Closed witness for C5 on a concrete store: the unknown campaign `"nope"`
aborts with no Run row, and the known campaign is accepted. -/
theorem C5_unknown_project_aborts_witness :
    update_campaign_kb sampleHash "nope" ⟨false, false, none⟩ dbTwoFiles =
      (dbTwoFiles, Except.error "Campaign not found.") :=
  (C5_unknown_project_aborts sampleHash ⟨false, false, none⟩ dbTwoFiles "nope").1
    (by decide)

/-! ### C6 and C7: change detector -/

/-- Characterization of the change detector (lines 276–287). -/
theorem classifyFile_eq (H : HashFns) (mode : String) (force : Bool)
    (prev : Option FileRec) (size mtime : Int) (content : String) :
    classifyFile H mode force prev size mtime content =
      if (mode == "sha256" || mode == "auto") && (force || metaChanged prev size mtime) then
        ⟨prev.isNone,
          (match prev with
           | some pr => if pr.sha256 == some (H.fileHash content) then false
                        else metaChanged prev size mtime
           | none => metaChanged prev size mtime),
          some (H.fileHash content)⟩
      else
        ⟨prev.isNone, metaChanged prev size mtime,
          match prev with | some pr => pr.sha256 | none => none⟩ := by
  cases prev with
  | none =>
    unfold classifyFile
    simp [metaChanged]
  | some pr =>
    unfold classifyFile
    simp only [metaChanged, Option.isNone_some, Bool.false_or, Bool.or_false]

/-- C6: under mode `sha256` (the spec's `hash-confirmed`) or `auto`, when
`forceRehash` holds or the metadata verdict says changed, the content hash
is computed and stored; a prior row whose stored hash equals the fresh hash
overrides the verdict to unchanged, otherwise the metadata-based verdict
is kept; and a file whose final verdict is unchanged (with a prior row
present) is never re-materialized: document and fragment stores are
untouched by its processing step. -/
theorem C6_hash_confirmation (H : HashFns) (mode : String) (force : Bool)
    (prev : Option FileRec) (size mtime : Int) (content : String)
    (hmode : mode = "sha256" ∨ mode = "auto")
    (htrig : force = true ∨ metaChanged prev size mtime = true) :
    ((classifyFile H mode force prev size mtime content).sha256 =
      some (H.fileHash content)) ∧
    (∀ pr, prev = some pr → pr.sha256 = some (H.fileHash content) →
      (classifyFile H mode force prev size mtime content).changed = false) ∧
    (∀ pr, prev = some pr → pr.sha256 ≠ some (H.fileHash content) →
      (classifyFile H mode force prev size mtime content).changed =
        metaChanged prev size mtime) ∧
    (∀ (p : Params) (runId : Nat) (src : SourceCfg) (em : List FileRec)
        (fm : List (String × Nat)) (dirRel : String) (st : ScanState) (f : FsFile)
        (pstat : PyStat) (pr : FileRec),
      f.stat = some pstat →
      em.find? (fun r => r.relPath == fileRelPath dirRel f.name) = some pr →
      (classifyFile H src.changeDetection p.forceRehash
          (em.find? (fun r => r.relPath == fileRelPath dirRel f.name))
          pstat.size pstat.mtime f.content).changed = false →
      (processFile H p runId src em fm dirRel st f).db.docs = st.db.docs ∧
      (processFile H p runId src em fm dirRel st f).db.chunks = st.db.chunks) := by
  have hcond : ((mode == "sha256" || mode == "auto") &&
      (force || metaChanged prev size mtime)) = true := by
    have h1 : (mode == "sha256" || mode == "auto") = true := by
      rcases hmode with h | h <;> simp [h]
    rw [h1, Bool.true_and]
    rcases htrig with h | h <;> simp [h]
  refine ⟨?_, ?_, ?_, ?_⟩
  · rw [classifyFile_eq, if_pos hcond]
  · intro pr hpr hsha
    rw [classifyFile_eq, if_pos hcond, hpr]
    simp [hsha]
  · intro pr hpr hsha
    rw [classifyFile_eq, if_pos hcond, hpr]
    have hbeq : (pr.sha256 == some (H.fileHash content)) = false := by
      simp [hsha]
    simp only [hbeq, Bool.false_eq_true, if_false, hpr]
  · intro p runId src em fm dirRel st f pstat pr hstat hfind hch
    rw [processFile]
    split
    · exact ⟨rfl, rfl⟩
    · rw [hstat]
      dsimp only []
      have hvnew : (classifyFile H src.changeDetection p.forceRehash
          (em.find? (fun r => r.relPath == fileRelPath dirRel f.name))
          pstat.size pstat.mtime f.content).isNew = false := by
        rw [classifyFile_eq]
        split <;> simp [hfind]
      rw [hvnew, hch]
      simp only [Bool.or_self, Bool.false_and, Bool.false_eq_true, if_false]
      have hup := upsertFileRow_frame st.db src.id
        (((fm.find? (fun e => e.1 == dirRel)).map Prod.snd).getD
          (((fm.find? (fun e => e.1 == "")).map Prod.snd).getD 0))
        (fileRelPath dirRel f.name) (pathExt f.name) pstat
        (classifyFile H src.changeDetection p.forceRehash
          (em.find? (fun r => r.relPath == fileRelPath dirRel f.name))
          pstat.size pstat.mtime f.content)
        (em.find? (fun r => r.relPath == fileRelPath dirRel f.name))
      exact ⟨hup.2.2.2.2.1, hup.2.2.2.2.2.1⟩

/-- Closed witness for C6: a file touched with unchanged content and size
under mode `auto` (mtime 10 → 99) hashes, matches the stored hash, and is
classified unchanged. -/
theorem C6_hash_confirmation_witness :
    (classifyFile sampleHash "auto" false
        (some ⟨7, 1, 3, "a.md", some "md", 1, 10, some "f:alpha", "seen", "ok", none⟩)
        1 99 "alpha").changed = false :=
  (C6_hash_confirmation sampleHash "auto" false
      (some ⟨7, 1, 3, "a.md", some "md", 1, 10, some "f:alpha", "seen", "ok", none⟩)
      1 99 "alpha" (Or.inr rfl) (Or.inr (by decide))).2.1
    ⟨7, 1, 3, "a.md", some "md", 1, 10, some "f:alpha", "seen", "ok", none⟩
    rfl (by decide)

/-- C7: under mode `mtime` no content hash is computed — the verdict is
exactly the metadata verdict, the stored hash field is passed through
unchanged, and the whole per-file step is independent of the file-hash
function; in the rewrite scenario (size 100→120, mtime 10→11) the file is
classified changed and re-ingested while its File row keeps the stale
hash `H1`. -/
theorem C7_mtime_no_hashing (fh1 fh2 th : String → String) (force : Bool)
    (prev : Option FileRec) (size mtime : Int) (content : String) :
    (classifyFile ⟨fh1, th⟩ "mtime" force prev size mtime content =
      ⟨prev.isNone, metaChanged prev size mtime,
        match prev with | some pr => pr.sha256 | none => none⟩) ∧
    (∀ (p : Params) (runId : Nat) (src : SourceCfg) (em : List FileRec)
        (fm : List (String × Nat)) (dirRel : String) (st : ScanState) (f : FsFile),
      src.changeDetection = "mtime" →
      processFile ⟨fh1, th⟩ p runId src em fm dirRel st f =
        processFile ⟨fh2, th⟩ p runId src em fm dirRel st f) ∧
    ((update_campaign_kb sampleHash "camp" ⟨false, false, none⟩ dbMtime).2.toOption.map
        (fun r => (r.stats.filesChanged, r.stats.docsIngested)) = some (1, 1) ∧
      (update_campaign_kb sampleHash "camp" ⟨false, false, none⟩ dbMtime).1.files.map
        (fun r => r.sha256) = [some "H1"]) := by
  refine ⟨?_, ?_, by decide, by decide⟩
  · rw [classifyFile_eq]
    simp
  · intro p runId src em fm dirRel st f hmode
    rw [processFile, processFile]
    cases hstat : f.stat with
    | none => rfl
    | some pstat =>
      dsimp only []
      have hcl : classifyFile ⟨fh1, th⟩ src.changeDetection p.forceRehash
          (em.find? (fun r => r.relPath == fileRelPath dirRel f.name))
          pstat.size pstat.mtime f.content =
        classifyFile ⟨fh2, th⟩ src.changeDetection p.forceRehash
          (em.find? (fun r => r.relPath == fileRelPath dirRel f.name))
          pstat.size pstat.mtime f.content := by
        rw [hmode, classifyFile_eq, classifyFile_eq]
        simp
      rw [hcl]
      rw [show (ingestFile ⟨fh1, th⟩ : Nat → String → Nat → String → Option String →
        String → ScanState → ScanState) = ingestFile ⟨fh2, th⟩ from rfl]

/-- Closed witness for C7: with mode `mtime`, two different file-hash
functions produce identical per-file steps on the rewrite scenario. -/
theorem C7_mtime_no_hashing_witness :
    processFile ⟨fun s => "A" ++ s, fun s => "t:" ++ s⟩ ⟨false, false, none⟩ 100 srcMtime
        dbMtime.files [("", 3)] "." ⟨dbMtime, initStats 1, [], 0⟩
        ⟨"notes.md", some ⟨120, 11⟩, "new body"⟩ =
      processFile ⟨fun s => "B" ++ s, fun s => "t:" ++ s⟩ ⟨false, false, none⟩ 100 srcMtime
        dbMtime.files [("", 3)] "." ⟨dbMtime, initStats 1, [], 0⟩
        ⟨"notes.md", some ⟨120, 11⟩, "new body"⟩ :=
  (C7_mtime_no_hashing (fun s => "A" ++ s) (fun s => "B" ++ s) (fun s => "t:" ++ s)
      false none 0 0 "").2.1 ⟨false, false, none⟩ 100 srcMtime
    dbMtime.files [("", 3)] "." ⟨dbMtime, initStats 1, [], 0⟩
    ⟨"notes.md", some ⟨120, 11⟩, "new body"⟩ rfl

/-! ### C10: stats invariants -/

/-- The aggregate-stats invariant of C10. -/
def StatsInv (s : Stats) : Prop :=
  s.filesSeen = s.filesNew + s.filesChanged + s.filesUnchanged ∧
  s.docsIngested = s.filesIngested

theorem statCounters_fields (stats : Stats) (v : Verdict) :
    ((statCounters stats v).filesNew + (statCounters stats v).filesChanged +
        (statCounters stats v).filesUnchanged =
      stats.filesNew + stats.filesChanged + stats.filesUnchanged + 1) ∧
    ((statCounters stats v).filesSeen = stats.filesSeen) ∧
    ((statCounters stats v).filesIngested = stats.filesIngested) ∧
    ((statCounters stats v).docsIngested = stats.docsIngested) := by
  rw [statCounters]
  split_ifs <;> refine ⟨?_, rfl, rfl, rfl⟩ <;> simp <;> omega

theorem ingestFile_statsInv (H : HashFns) (runId : Nat) (c : String) (fid : Nat)
    (n : String) (e : Option String) (cont : String) (st : ScanState)
    (h : StatsInv st.stats) : StatsInv (ingestFile H runId c fid n e cont st).stats := by
  obtain ⟨h1, h2⟩ := h
  rw [ingestFile]
  dsimp only []
  split_ifs <;> refine ⟨?_, ?_⟩ <;> simp <;> omega

theorem processFile_statsInv (H : HashFns) (p : Params) (runId : Nat) (src : SourceCfg)
    (em : List FileRec) (fm : List (String × Nat)) (dirRel : String)
    (st : ScanState) (f : FsFile)
    (h : StatsInv st.stats) : StatsInv (processFile H p runId src em fm dirRel st f).stats := by
  obtain ⟨h1, h2⟩ := h
  rw [processFile]
  split
  · exact ⟨h1, h2⟩
  · cases f.stat with
    | none => exact ⟨h1, h2⟩
    | some pstat =>
      dsimp only []
      have hsc := statCounters_fields
        { st.stats with filesSeen := st.stats.filesSeen + 1 }
        (classifyFile H src.changeDetection p.forceRehash
          (em.find? (fun r => r.relPath == fileRelPath dirRel f.name))
          pstat.size pstat.mtime f.content)
      obtain ⟨hs1, hs2, hs3, hs4⟩ := hsc
      have hst3 : StatsInv (statCounters
          { st.stats with filesSeen := st.stats.filesSeen + 1 }
          (classifyFile H src.changeDetection p.forceRehash
            (em.find? (fun r => r.relPath == fileRelPath dirRel f.name))
            pstat.size pstat.mtime f.content)) := by
        refine ⟨?_, ?_⟩
        · rw [hs2, hs1]
          simp
          omega
        · rw [hs4, hs3]
          simp
          omega
      split
      · split
        · exact hst3
        · exact ingestFile_statsInv _ _ _ _ _ _ _ _ hst3
      · exact hst3

theorem foldl_processFile_statsInv (H : HashFns) (p : Params) (runId : Nat)
    (src : SourceCfg) (em : List FileRec) (fm : List (String × Nat)) (dirRel : String) :
    ∀ (fs : List FsFile) (st : ScanState), StatsInv st.stats →
      StatsInv ((fs.foldl (processFile H p runId src em fm dirRel) st).stats) := by
  intro fs
  induction fs with
  | nil => intro st h; exact h
  | cons f rest ih =>
    intro st h
    rw [List.foldl_cons]
    exact ih _ (processFile_statsInv H p runId src em fm dirRel st f h)

theorem processDir_statsInv (H : HashFns) (p : Params) (runId : Nat) (src : SourceCfg)
    (em : List FileRec) (acc : ScanState × List (String × Nat)) (d : FsDir)
    (h : StatsInv acc.1.stats) : StatsInv ((processDir H p runId src em acc d).1.stats) := by
  rw [processDir]
  dsimp only []
  split
  · exact foldl_processFile_statsInv H p runId src em _ _ _ _ h
  · exact foldl_processFile_statsInv H p runId src em _ _ _ _ h

theorem foldl_processDir_statsInv (H : HashFns) (p : Params) (runId : Nat)
    (src : SourceCfg) (em : List FileRec) :
    ∀ (ds : List FsDir) (acc : ScanState × List (String × Nat)), StatsInv acc.1.stats →
      StatsInv ((ds.foldl (processDir H p runId src em) acc).1.stats) := by
  intro ds
  induction ds with
  | nil => intro acc h; exact h
  | cons d rest ih =>
    intro acc h
    rw [List.foldl_cons]
    exact ih _ (processDir_statsInv H p runId src em acc d h)

theorem markDeleted_statsInv (p : Params) (runId : Nat) (st : ScanState) (prev : FileRec)
    (h : StatsInv st.stats) : StatsInv (markDeleted p runId st prev).stats := by
  obtain ⟨h1, h2⟩ := h
  rw [markDeleted]
  dsimp only []
  split_ifs <;> refine ⟨?_, ?_⟩ <;> (try simp) <;> omega

theorem foldl_markDeleted_statsInv (p : Params) (runId : Nat) :
    ∀ (em : List FileRec) (st : ScanState), StatsInv st.stats →
      StatsInv ((em.foldl (markDeleted p runId) st).stats) := by
  intro em
  induction em with
  | nil => intro st h; exact h
  | cons r rest ih =>
    intro st h
    rw [List.foldl_cons]
    exact ih _ (markDeleted_statsInv p runId st r h)

theorem processSource_statsInv (H : HashFns) (p : Params) (runId : Nat)
    (acc : DB × Stats) (src : SourceCfg)
    (h : StatsInv acc.2) : StatsInv (processSource H p runId acc src).2 := by
  obtain ⟨h1, h2⟩ := h
  rw [processSource]
  dsimp only []
  split
  · refine ⟨?_, ?_⟩ <;> simp <;> omega
  · split
    · refine foldl_markDeleted_statsInv p runId _ _
        (foldl_processDir_statsInv H p runId src _ _ _ ⟨?_, ?_⟩) <;> simp <;> omega
    · refine foldl_markDeleted_statsInv p runId _ _
        (foldl_processDir_statsInv H p runId src _ _ _ ⟨?_, ?_⟩) <;> simp <;> omega

theorem foldl_processSource_statsInv (H : HashFns) (p : Params) (runId : Nat) :
    ∀ (srcs : List SourceCfg) (acc : DB × Stats), StatsInv acc.2 →
      StatsInv ((srcs.foldl (processSource H p runId) acc).2) := by
  intro srcs
  induction srcs with
  | nil => intro acc h; exact h
  | cons s rest ih =>
    intro acc h
    rw [List.foldl_cons]
    exact ih _ (processSource_statsInv H p runId acc s h)

/-- C10: every completed run reports `files_seen` as the exact sum of the
three classification counters, and `docs_ingested` equal to
`files_ingested`. -/
theorem C10_stats_invariant (H : HashFns) (p : Params) (db : DB) (campaignId : String)
    (res : RunResult)
    (hok : (update_campaign_kb H campaignId p db).2 = Except.ok res) :
    res.stats.filesSeen =
      res.stats.filesNew + res.stats.filesChanged + res.stats.filesUnchanged ∧
    res.stats.docsIngested = res.stats.filesIngested := by
  by_cases hc : db.campaigns.contains campaignId = true
  · rw [update_campaign_kb_found H p db campaignId hc] at hok
    have hres : res = ⟨db.nextId,
        if (runOutcome H p campaignId db).2.errors.isEmpty then "ok" else "partial",
        (runOutcome H p campaignId db).2⟩ := by
      exact (Except.ok.inj hok).symm
    rw [hres]
    have : StatsInv (runOutcome H p campaignId db).2 :=
      foldl_processSource_statsInv H p db.nextId (enabledSources db campaignId) _
        ⟨by simp [initStats], by simp [initStats]⟩
    exact this
  · rw [update_campaign_kb] at hok
    simp only [Bool.not_eq_true] at hc
    rw [hc] at hok
    simp at hok

/-- Closed witness for C10 on a concrete completed run. -/
theorem C10_stats_invariant_witness :
    (⟨100, "ok", ⟨1, 1, 2, 2, 0, 0, 0, 2, 2, 0, []⟩⟩ : RunResult).stats.filesSeen =
      (⟨100, "ok", ⟨1, 1, 2, 2, 0, 0, 0, 2, 2, 0, []⟩⟩ : RunResult).stats.filesNew +
      (⟨100, "ok", ⟨1, 1, 2, 2, 0, 0, 0, 2, 2, 0, []⟩⟩ : RunResult).stats.filesChanged +
      (⟨100, "ok", ⟨1, 1, 2, 2, 0, 0, 0, 2, 2, 0, []⟩⟩ : RunResult).stats.filesUnchanged ∧
    (⟨100, "ok", ⟨1, 1, 2, 2, 0, 0, 0, 2, 2, 0, []⟩⟩ : RunResult).stats.docsIngested =
      (⟨100, "ok", ⟨1, 1, 2, 2, 0, 0, 0, 2, 2, 0, []⟩⟩ : RunResult).stats.filesIngested :=
  C10_stats_invariant sampleHash ⟨false, false, none⟩ dbTwoFiles "camp"
    ⟨100, "ok", ⟨1, 1, 2, 2, 0, 0, 0, 2, 2, 0, []⟩⟩ rfl

/-! ### C4: the maxFiles cap -/

/-- Within one source scan, ingestion attempts equal the growth of the
`files_to_ingest` counter, which the cap keeps at or below `k`. -/
def WithinCap (k base : Nat) (st : ScanState) : Prop :=
  st.stats.docsIngested + st.stats.docsSkipped ≤ base + st.filesToIngest ∧
  st.filesToIngest ≤ k

theorem ingestFile_cap (H : HashFns) (runId : Nat) (c : String) (fid : Nat)
    (n : String) (e : Option String) (cont : String) (st : ScanState) :
    ((ingestFile H runId c fid n e cont st).filesToIngest = st.filesToIngest + 1) ∧
    ((ingestFile H runId c fid n e cont st).stats.docsIngested +
        (ingestFile H runId c fid n e cont st).stats.docsSkipped =
      st.stats.docsIngested + st.stats.docsSkipped + 1) := by
  rw [ingestFile]
  dsimp only []
  split_ifs <;> refine ⟨rfl, ?_⟩ <;> simp <;> omega

theorem statCounters_docs (stats : Stats) (v : Verdict) :
    ((statCounters stats v).docsIngested = stats.docsIngested) ∧
    ((statCounters stats v).docsSkipped = stats.docsSkipped) ∧
    ((statCounters stats v).errors = stats.errors) ∧
    ((statCounters stats v).filesDeleted = stats.filesDeleted) := by
  rw [statCounters]
  split_ifs <;> exact ⟨rfl, rfl, rfl, rfl⟩

theorem processFile_cap (H : HashFns) (p : Params) (k : Nat)
    (hk : p.maxFiles = some k) (runId : Nat) (src : SourceCfg)
    (em : List FileRec) (fm : List (String × Nat)) (dirRel : String)
    (st : ScanState) (f : FsFile) (base : Nat)
    (h : WithinCap k base st) :
    WithinCap k base (processFile H p runId src em fm dirRel st f) := by
  obtain ⟨h1, h2⟩ := h
  rw [processFile]
  split
  · exact ⟨h1, h2⟩
  · cases f.stat with
    | none => exact ⟨h1, h2⟩
    | some pstat =>
      dsimp only []
      split
      · rw [hk]
        split
        · refine ⟨?_, by simpa using h2⟩
          rw [(statCounters_docs _ _).1, (statCounters_docs _ _).2.1]
          simpa using h1
        · rename_i hnocap
          have hlt : st.filesToIngest < k := by
            simp at hnocap
            simpa using hnocap
          have hic := fun fid stx => ingestFile_cap H runId src.campaignId fid f.name
            (pathExt f.name) f.content stx
          refine ⟨?_, ?_⟩
          · rw [(hic _ _).2, (hic _ _).1]
            rw [(statCounters_docs _ _).1, (statCounters_docs _ _).2.1]
            simp
            omega
          · rw [(hic _ _).1]
            simp
            omega
      · refine ⟨?_, by simpa using h2⟩
        rw [(statCounters_docs _ _).1, (statCounters_docs _ _).2.1]
        simpa using h1

theorem statCounters_frame (stats : Stats) (v : Verdict) :
    ((statCounters stats v).sourcesScanned = stats.sourcesScanned) ∧
    ((statCounters stats v).sourcesTotal = stats.sourcesTotal) ∧
    ((statCounters stats v).filesDeleted = stats.filesDeleted) := by
  rw [statCounters]
  split_ifs <;> exact ⟨rfl, rfl, rfl⟩

theorem ingestFile_stats_frame (H : HashFns) (runId : Nat) (c : String) (fid : Nat)
    (n : String) (e : Option String) (cont : String) (st : ScanState) :
    ((ingestFile H runId c fid n e cont st).stats.sourcesScanned =
      st.stats.sourcesScanned) ∧
    ((ingestFile H runId c fid n e cont st).stats.sourcesTotal = st.stats.sourcesTotal) ∧
    ((ingestFile H runId c fid n e cont st).stats.filesSeen = st.stats.filesSeen) ∧
    ((ingestFile H runId c fid n e cont st).stats.filesNew = st.stats.filesNew) ∧
    ((ingestFile H runId c fid n e cont st).stats.filesChanged = st.stats.filesChanged) ∧
    ((ingestFile H runId c fid n e cont st).stats.filesUnchanged =
      st.stats.filesUnchanged) ∧
    ((ingestFile H runId c fid n e cont st).stats.filesDeleted = st.stats.filesDeleted) ∧
    ((ingestFile H runId c fid n e cont st).stats.errors = st.stats.errors) ∧
    ((ingestFile H runId c fid n e cont st).seenPaths = st.seenPaths) := by
  rw [ingestFile]
  dsimp only []
  split_ifs <;> exact ⟨rfl, rfl, rfl, rfl, rfl, rfl, rfl, rfl, rfl⟩

theorem processFile_stats_frame (H : HashFns) (p : Params) (runId : Nat) (src : SourceCfg)
    (em : List FileRec) (fm : List (String × Nat)) (dirRel : String)
    (st : ScanState) (f : FsFile) :
    ((processFile H p runId src em fm dirRel st f).stats.sourcesScanned =
      st.stats.sourcesScanned) ∧
    ((processFile H p runId src em fm dirRel st f).stats.sourcesTotal =
      st.stats.sourcesTotal) ∧
    ((processFile H p runId src em fm dirRel st f).stats.filesDeleted =
      st.stats.filesDeleted) := by
  rw [processFile]
  split
  · exact ⟨rfl, rfl, rfl⟩
  · cases f.stat with
    | none => exact ⟨rfl, rfl, rfl⟩
    | some pstat =>
      dsimp only []
      have hsc := statCounters_frame
        { st.stats with filesSeen := st.stats.filesSeen + 1 }
        (classifyFile H src.changeDetection p.forceRehash
          (em.find? (fun r => r.relPath == fileRelPath dirRel f.name))
          pstat.size pstat.mtime f.content)
      have hif := fun fid stx => ingestFile_stats_frame H runId src.campaignId fid f.name
        (pathExt f.name) f.content stx
      split
      · split
        · exact ⟨by simpa using hsc.1, by simpa using hsc.2.1, by simpa using hsc.2.2⟩
        · refine ⟨?_, ?_, ?_⟩
          · rw [(hif _ _).1]; simpa using hsc.1
          · rw [(hif _ _).2.1]; simpa using hsc.2.1
          · rw [(hif _ _).2.2.2.2.2.2.1]; simpa using hsc.2.2
      · exact ⟨by simpa using hsc.1, by simpa using hsc.2.1, by simpa using hsc.2.2⟩

theorem markDeleted_cap (p : Params) (runId : Nat) (st : ScanState) (prev : FileRec) :
    ((markDeleted p runId st prev).stats.docsIngested = st.stats.docsIngested) ∧
    ((markDeleted p runId st prev).stats.docsSkipped = st.stats.docsSkipped) ∧
    ((markDeleted p runId st prev).stats.sourcesScanned = st.stats.sourcesScanned) ∧
    ((markDeleted p runId st prev).filesToIngest = st.filesToIngest) := by
  rw [markDeleted]
  dsimp only []
  split_ifs <;> exact ⟨rfl, rfl, rfl, rfl⟩

theorem foldl_markDeleted_cap (p : Params) (runId : Nat) :
    ∀ (em : List FileRec) (st : ScanState),
      ((em.foldl (markDeleted p runId) st).stats.docsIngested =
        st.stats.docsIngested) ∧
      ((em.foldl (markDeleted p runId) st).stats.docsSkipped = st.stats.docsSkipped) ∧
      ((em.foldl (markDeleted p runId) st).stats.sourcesScanned =
        st.stats.sourcesScanned) := by
  intro em
  induction em with
  | nil => intro st; exact ⟨rfl, rfl, rfl⟩
  | cons r rest ih =>
    intro st
    rw [List.foldl_cons]
    have h1 := markDeleted_cap p runId st r
    have h2 := ih (markDeleted p runId st r)
    exact ⟨h2.1.trans h1.1, h2.2.1.trans h1.2.1, h2.2.2.trans h1.2.2.1⟩

theorem foldl_processFile_cap (H : HashFns) (p : Params) (k : Nat)
    (hk : p.maxFiles = some k) (runId : Nat) (src : SourceCfg)
    (em : List FileRec) (fm : List (String × Nat)) (dirRel : String) (base : Nat) :
    ∀ (fs : List FsFile) (st : ScanState), WithinCap k base st →
      WithinCap k base (fs.foldl (processFile H p runId src em fm dirRel) st) := by
  intro fs
  induction fs with
  | nil => intro st h; exact h
  | cons f rest ih =>
    intro st h
    rw [List.foldl_cons]
    exact ih _ (processFile_cap H p k hk runId src em fm dirRel st f base h)

theorem foldl_processFile_scanned (H : HashFns) (p : Params) (runId : Nat)
    (src : SourceCfg) (em : List FileRec) (fm : List (String × Nat)) (dirRel : String) :
    ∀ (fs : List FsFile) (st : ScanState),
      ((fs.foldl (processFile H p runId src em fm dirRel) st).stats.sourcesScanned =
        st.stats.sourcesScanned) := by
  intro fs
  induction fs with
  | nil => intro st; rfl
  | cons f rest ih =>
    intro st
    rw [List.foldl_cons]
    exact (ih _).trans (processFile_stats_frame H p runId src em fm dirRel st f).1

theorem processDir_cap (H : HashFns) (p : Params) (k : Nat) (hk : p.maxFiles = some k)
    (runId : Nat) (src : SourceCfg) (em : List FileRec)
    (acc : ScanState × List (String × Nat)) (d : FsDir) (base : Nat)
    (h : WithinCap k base acc.1) :
    WithinCap k base (processDir H p runId src em acc d).1 ∧
    ((processDir H p runId src em acc d).1.stats.sourcesScanned =
      acc.1.stats.sourcesScanned) := by
  rw [processDir]
  dsimp only []
  split
  · exact ⟨foldl_processFile_cap H p k hk runId src em _ _ base _ _ h,
      foldl_processFile_scanned H p runId src em _ _ _ _⟩
  · exact ⟨foldl_processFile_cap H p k hk runId src em _ _ base _ _ h,
      foldl_processFile_scanned H p runId src em _ _ _ _⟩

theorem foldl_processDir_cap (H : HashFns) (p : Params) (k : Nat)
    (hk : p.maxFiles = some k) (runId : Nat) (src : SourceCfg) (em : List FileRec)
    (base : Nat) :
    ∀ (ds : List FsDir) (acc : ScanState × List (String × Nat)), WithinCap k base acc.1 →
      WithinCap k base (ds.foldl (processDir H p runId src em) acc).1 ∧
      ((ds.foldl (processDir H p runId src em) acc).1.stats.sourcesScanned =
        acc.1.stats.sourcesScanned) := by
  intro ds
  induction ds with
  | nil => intro acc h; exact ⟨h, rfl⟩
  | cons d rest ih =>
    intro acc h
    rw [List.foldl_cons]
    have h1 := processDir_cap H p k hk runId src em acc d base h
    have h2 := ih _ h1.1
    exact ⟨h2.1, h2.2.trans h1.2⟩

/-- The per-run aggregate bound the per-source cap yields. -/
def CapInv (k : Nat) (s : Stats) : Prop :=
  s.docsIngested + s.docsSkipped ≤ k * s.sourcesScanned

theorem walkDelete_capInv (H : HashFns) (p : Params) (k : Nat)
    (hk : p.maxFiles = some k) (runId : Nat) (src : SourceCfg) (em : List FileRec)
    (accp : ScanState × List (String × Nat))
    (h0 : accp.1.filesToIngest = 0)
    (hD : accp.1.stats.docsIngested + accp.1.stats.docsSkipped + k ≤
      k * accp.1.stats.sourcesScanned) :
    ((em.foldl (markDeleted p runId)
        (src.walk.foldl (processDir H p runId src em) accp).1).stats.docsIngested +
      (em.foldl (markDeleted p runId)
        (src.walk.foldl (processDir H p runId src em) accp).1).stats.docsSkipped ≤
     k * (em.foldl (markDeleted p runId)
        (src.walk.foldl (processDir H p runId src em) accp).1).stats.sourcesScanned) := by
  have hwc := foldl_processDir_cap H p k hk runId src em
    (accp.1.stats.docsIngested + accp.1.stats.docsSkipped) src.walk accp
    ⟨by rw [h0]; omega, by rw [h0]; exact Nat.zero_le k⟩
  obtain ⟨⟨hc1, hc2⟩, hsc⟩ := hwc
  have hdel := foldl_markDeleted_cap p runId em
    (src.walk.foldl (processDir H p runId src em) accp).1
  rw [hdel.1, hdel.2.1, hdel.2.2, hsc]
  omega

theorem processSource_cap (H : HashFns) (p : Params) (k : Nat)
    (hk : p.maxFiles = some k) (runId : Nat) (acc : DB × Stats) (src : SourceCfg)
    (h : CapInv k acc.2) : CapInv k (processSource H p runId acc src).2 := by
  unfold CapInv at h
  rw [processSource]
  dsimp only []
  split
  · unfold CapInv
    simp only []
    calc acc.2.docsIngested + acc.2.docsSkipped
        ≤ k * acc.2.sourcesScanned := h
      _ ≤ k * (acc.2.sourcesScanned + 1) := Nat.mul_le_mul_left k (Nat.le_succ _)
  · unfold CapInv
    split
    · refine walkDelete_capInv H p k hk runId src _ _ rfl ?_
      simp only []
      rw [Nat.mul_succ]
      omega
    · refine walkDelete_capInv H p k hk runId src _ _ rfl ?_
      simp only []
      rw [Nat.mul_succ]
      omega

theorem foldl_processSource_cap (H : HashFns) (p : Params) (k : Nat)
    (hk : p.maxFiles = some k) (runId : Nat) :
    ∀ (srcs : List SourceCfg) (acc : DB × Stats), CapInv k acc.2 →
      CapInv k ((srcs.foldl (processSource H p runId) acc).2) := by
  intro srcs
  induction srcs with
  | nil => intro acc h; exact h
  | cons src rest ih =>
    intro acc h
    rw [List.foldl_cons]
    exact ih _ (processSource_cap H p k hk runId acc src h)

/-- C4 counterexample: `maxFiles = 1` over two sources with one fresh file
each ingests two documents in one run — the cap is not a per-run bound. -/
theorem C4_run_cap_counterexample :
    (update_campaign_kb sampleHash "camp" ⟨false, false, some 1⟩ dbTwoSources).2.toOption.map
        (fun r => r.stats.docsIngested) = some 2 ∧ ¬(2 ≤ 1) := by
  refine ⟨by decide, by decide⟩

/-- C4 (amended): `maxFiles = k` caps document-ingestion attempts per
source, so a completed run attempts at most `k × sources_scanned` ingests
(each attempt ends as `docs_ingested` or `docs_skipped`); a new or changed
file beyond the cap is silently skipped with its File row still upserted as
`seen`.  With one source, `maxFiles = 1` and two new files, exactly one
Document is created, the other File stays `seen` with ingest outcome
`never`, and no error is recorded. -/
theorem C4_max_files_cap (H : HashFns) (p : Params) (db : DB) (campaignId : String)
    (k : Nat) (res : RunResult) (hk : p.maxFiles = some k)
    (hok : (update_campaign_kb H campaignId p db).2 = Except.ok res) :
    (res.stats.docsIngested + res.stats.docsSkipped ≤ k * res.stats.sourcesScanned) ∧
    ((update_campaign_kb sampleHash "camp" ⟨false, false, some 1⟩ dbTwoFiles).1.docs.length
        = 1 ∧
      (update_campaign_kb sampleHash "camp" ⟨false, false, some 1⟩ dbTwoFiles).1.files.map
          (fun r => (r.relPath, r.status, r.lastIngestStatus)) =
        [("a.md", "seen", "ok"), ("b.md", "seen", "never")] ∧
      (update_campaign_kb sampleHash "camp" ⟨false, false, some 1⟩ dbTwoFiles).2.toOption.map
          (fun r => (r.stats.docsIngested, r.stats.errors.isEmpty)) = some (1, true)) := by
  refine ⟨?_, by decide, by decide, by decide⟩
  by_cases hc : db.campaigns.contains campaignId = true
  · rw [update_campaign_kb_found H p db campaignId hc] at hok
    have hres : res = ⟨db.nextId,
        if (runOutcome H p campaignId db).2.errors.isEmpty then "ok" else "partial",
        (runOutcome H p campaignId db).2⟩ := (Except.ok.inj hok).symm
    rw [hres]
    exact foldl_processSource_cap H p k hk db.nextId (enabledSources db campaignId) _
      (by unfold CapInv; simp [initStats])
  · rw [update_campaign_kb] at hok
    simp only [Bool.not_eq_true] at hc
    rw [hc] at hok
    simp at hok

/-- Closed witness for C4 at the single-source scenario run. -/
theorem C4_max_files_cap_witness :
    ((⟨100, "ok", ⟨1, 1, 2, 2, 0, 0, 0, 1, 1, 0, []⟩⟩ : RunResult).stats.docsIngested +
        (⟨100, "ok", ⟨1, 1, 2, 2, 0, 0, 0, 1, 1, 0, []⟩⟩ : RunResult).stats.docsSkipped ≤
      1 * (⟨100, "ok", ⟨1, 1, 2, 2, 0, 0, 0, 1, 1, 0, []⟩⟩ : RunResult).stats.sourcesScanned) ∧
    ((update_campaign_kb sampleHash "camp" ⟨false, false, some 1⟩ dbTwoFiles).1.docs.length
        = 1 ∧
      (update_campaign_kb sampleHash "camp" ⟨false, false, some 1⟩ dbTwoFiles).1.files.map
          (fun r => (r.relPath, r.status, r.lastIngestStatus)) =
        [("a.md", "seen", "ok"), ("b.md", "seen", "never")] ∧
      (update_campaign_kb sampleHash "camp" ⟨false, false, some 1⟩ dbTwoFiles).2.toOption.map
          (fun r => (r.stats.docsIngested, r.stats.errors.isEmpty)) = some (1, true)) :=
  C4_max_files_cap sampleHash ⟨false, false, some 1⟩ dbTwoFiles "camp" 1
    ⟨100, "ok", ⟨1, 1, 2, 2, 0, 0, 0, 1, 1, 0, []⟩⟩ rfl rfl

theorem filter_map_fix {α : Type} (g : α → α) (q : α → Bool) :
    ∀ (l : List α), (∀ x ∈ l, q (g x) = q x) → (∀ x ∈ l, q x = true → g x = x) →
      (l.map g).filter q = l.filter q := by
  intro l
  induction l with
  | nil => intro _ _; rfl
  | cons x xs ih =>
    intro h1 h2
    rw [List.map_cons, List.filter_cons, List.filter_cons]
    rw [h1 x (List.mem_cons_self x xs)]
    cases hx : q x with
    | true =>
      rw [h2 x (List.mem_cons_self x xs) hx]
      simp only [if_pos]
      rw [ih (fun y hy => h1 y (List.mem_cons_of_mem x hy))
        (fun y hy => h2 y (List.mem_cons_of_mem x hy))]
    | false =>
      simp only [Bool.false_eq_true, if_false]
      exact ih (fun y hy => h1 y (List.mem_cons_of_mem x hy))
        (fun y hy => h2 y (List.mem_cons_of_mem x hy))

theorem filter_append_none {α : Type} (q : α → Bool) (l news : List α)
    (h : ∀ x ∈ news, q x = false) : (l ++ news).filter q = l.filter q := by
  rw [List.filter_append]
  have hnil : news.filter q = [] := by
    rw [List.filter_eq_nil_iff]
    intro a ha
    rw [h a ha]
    simp
  rw [hnil, List.append_nil]

theorem map_id_of_proj {α β : Type} (g : α → α) (proj : α → β)
    (hg : ∀ x, proj (g x) = proj x) (l : List α) :
    (l.map g).map proj = l.map proj := by
  rw [List.map_map]
  exact List.map_congr_left (fun x _ => hg x)

theorem nodup_ids_map (g : FileRec → FileRec) (l : List FileRec)
    (hg : ∀ x, (g x).id = x.id)
    (h : (l.map (fun r => r.id)).Nodup) : ((l.map g).map (fun r => r.id)).Nodup := by
  rw [map_id_of_proj g (fun r => r.id) hg l]
  exact h

theorem classifyFile_isNew (H : HashFns) (mode : String) (force : Bool)
    (prev : Option FileRec) (size mtime : Int) (content : String) :
    (classifyFile H mode force prev size mtime content).isNew = prev.isNone := by
  rw [classifyFile_eq]
  split <;> rfl

theorem upsertFileRow_true_eq (db : DB) (sid folderId : Nat) (relPath : String)
    (ext : Option String) (pstat : PyStat) (v : Verdict) (prev : Option FileRec)
    (hnew : v.isNew = true) :
    ((upsertFileRow db sid folderId relPath ext pstat v prev).1.files =
      db.files ++ [⟨db.nextId, sid, folderId, relPath, ext, pstat.size, pstat.mtime,
        v.sha256, "seen", "never", none⟩]) ∧
    ((upsertFileRow db sid folderId relPath ext pstat v prev).1.nextId = db.nextId + 1) ∧
    ((upsertFileRow db sid folderId relPath ext pstat v prev).2 = db.nextId) ∧
    ((upsertFileRow db sid folderId relPath ext pstat v prev).1.docs = db.docs) ∧
    ((upsertFileRow db sid folderId relPath ext pstat v prev).1.chunks = db.chunks) ∧
    ((upsertFileRow db sid folderId relPath ext pstat v prev).1.runFiles = db.runFiles) := by
  rw [upsertFileRow]
  simp [hnew]

theorem upsertFileRow_false_eq (db : DB) (sid folderId : Nat) (relPath : String)
    (ext : Option String) (pstat : PyStat) (v : Verdict) (prev : Option FileRec)
    (pr0 : FileRec) (hnew : v.isNew = false) (hpr : prev = some pr0) :
    ((upsertFileRow db sid folderId relPath ext pstat v prev).1.files =
      db.files.map (fun r =>
        if r.id == pr0.id then
          { r with folderId := folderId, ext := ext, sizeBytes := pstat.size,
                   mtimeEpoch := pstat.mtime, sha256 := v.sha256, status := "seen" }
        else r)) ∧
    ((upsertFileRow db sid folderId relPath ext pstat v prev).1.nextId = db.nextId) ∧
    ((upsertFileRow db sid folderId relPath ext pstat v prev).2 = pr0.id) ∧
    ((upsertFileRow db sid folderId relPath ext pstat v prev).1.docs = db.docs) ∧
    ((upsertFileRow db sid folderId relPath ext pstat v prev).1.chunks = db.chunks) ∧
    ((upsertFileRow db sid folderId relPath ext pstat v prev).1.runFiles = db.runFiles) := by
  rw [upsertFileRow]
  simp [hnew, hpr]

theorem upsertFileRow_ctx (db : DB) (sid folderId : Nat) (relPath : String)
    (ext : Option String) (pstat : PyStat) (v : Verdict) (prev : Option FileRec)
    (em : List FileRec)
    (hctx : SrcCtx sid em db)
    (hv : v.isNew = false → ∃ pr0, prev = some pr0 ∧ pr0 ∈ em) :
    SrcCtx sid em (upsertFileRow db sid folderId relPath ext pstat v prev).1 ∧
    (∀ sid2, ¬(sid2 = sid) →
      (upsertFileRow db sid folderId relPath ext pstat v prev).1.files.filter
          (fun r => r.sourceId == sid2) =
        db.files.filter (fun r => r.sourceId == sid2)) ∧
    (∀ r ∈ (upsertFileRow db sid folderId relPath ext pstat v prev).1.files,
      r.id = (upsertFileRow db sid folderId relPath ext pstat v prev).2 →
      r.sourceId = sid) := by
  obtain ⟨⟨hnd, hlt⟩, hemlt, hown⟩ := hctx
  cases hnew : v.isNew with
  | true =>
    obtain ⟨hf, hn, h2, _, _, _⟩ := upsertFileRow_true_eq db sid folderId relPath ext
      pstat v prev hnew
    refine ⟨⟨⟨?_, ?_⟩, ?_, ?_⟩, ?_, ?_⟩
    · rw [hf]
      simp only [List.map_append, List.map_cons, List.map_nil]
      rw [List.nodup_append]
      refine ⟨hnd, List.nodup_singleton _, ?_⟩
      intro a ha hb
      simp at hb
      subst hb
      obtain ⟨r, hr, hrid⟩ := List.mem_map.mp ha
      exact absurd hrid (Nat.ne_of_lt (hlt r hr))
    · intro r hr
      rw [hf] at hr
      rw [hn]
      simp only [List.mem_append, List.mem_singleton] at hr
      rcases hr with hr | hr
      · exact Nat.lt_succ_of_lt (hlt r hr)
      · rw [hr]; exact Nat.lt_succ_self _
    · rw [hn]
      intro pr hpr
      exact Nat.lt_succ_of_lt (hemlt pr hpr)
    · intro pr hpr r hr hid
      rw [hf] at hr
      simp only [List.mem_append, List.mem_singleton] at hr
      rcases hr with hr | hr
      · exact hown pr hpr r hr hid
      · rw [hr]
    · intro sid2 hne
      rw [hf]
      refine filter_append_none _ _ _ ?_
      intro x hx
      simp only [List.mem_singleton] at hx
      rw [hx]
      simp only []
      exact beq_eq_false_iff_ne.mpr (fun hc => hne hc.symm)
    · intro r hr hid
      rw [hf] at hr
      rw [h2] at hid
      simp only [List.mem_append, List.mem_singleton] at hr
      rcases hr with hr | hr
      · exact absurd hid (Nat.ne_of_lt (hlt r hr))
      · rw [hr]
  | false =>
    obtain ⟨pr0, hpr0, hprmem⟩ := hv hnew
    obtain ⟨hf, hn, h2, _, _, _⟩ := upsertFileRow_false_eq db sid folderId relPath ext
      pstat v prev pr0 hnew hpr0
    refine ⟨⟨⟨?_, ?_⟩, ?_, ?_⟩, ?_, ?_⟩
    · rw [hf]
      refine nodup_ids_map _ _ ?_ hnd
      intro x
      by_cases hx : (x.id == pr0.id) = true <;> simp [hx]
    · intro r hr
      rw [hf] at hr
      rw [hn]
      obtain ⟨r0, hr0, hr0e⟩ := List.mem_map.mp hr
      rw [← hr0e]
      by_cases hx : (r0.id == pr0.id) = true <;> simp [hx] <;> exact hlt r0 hr0
    · rw [hn]
      exact hemlt
    · intro pr hpr r hr hid
      rw [hf] at hr
      obtain ⟨r0, hr0, hr0e⟩ := List.mem_map.mp hr
      rw [← hr0e] at hid ⊢
      by_cases hx : (r0.id == pr0.id) = true <;> simp only [hx, if_pos,
        Bool.false_eq_true, if_false] <;> simp only [hx, if_pos,
        Bool.false_eq_true, if_false] at hid <;> [skip; skip] <;>
        first
          | exact hown pr hpr r0 hr0 (by simpa using hid)
          | exact hown pr hpr r0 hr0 hid
    · intro sid2 hne
      rw [hf]
      refine filter_map_fix _ _ _ ?_ ?_
      · intro x hx
        by_cases h2x : (x.id == pr0.id) = true <;> simp [h2x]
      · intro x hx hq
        have hxsid : x.sourceId = sid2 := by simpa using hq
        by_cases h2x : (x.id == pr0.id) = true
        · have hxs := hown pr0 hprmem x hx (by simpa using h2x)
          exact absurd (hxsid ▸ hxs) (fun hc => hne hc)
        · simp [h2x]
    · intro r hr hid
      rw [hf] at hr
      rw [h2] at hid
      obtain ⟨r0, hr0, hr0e⟩ := List.mem_map.mp hr
      rw [← hr0e] at hid ⊢
      by_cases hx : (r0.id == pr0.id) = true
      · simp only [hx, if_pos]
        simp only [hx, if_pos] at hid
        exact hown pr0 hprmem r0 hr0 (by simpa using hid)
      · simp only [hx, Bool.false_eq_true, if_false] at hid ⊢
        exact hown pr0 hprmem r0 hr0 hid

theorem ctx_map_step (sid : Nat) (em : List FileRec) (db db2 : DB)
    (g : FileRec → FileRec) (fid : Nat)
    (hfiles : db2.files = db.files.map g)
    (hnext : db.nextId ≤ db2.nextId)
    (hgid : ∀ x, (g x).id = x.id)
    (hgsid : ∀ x, (g x).sourceId = x.sourceId)
    (hgfix : ∀ x, ¬(x.id = fid) → g x = x)
    (hfid : ∀ r ∈ db.files, r.id = fid → r.sourceId = sid)
    (hctx : SrcCtx sid em db) :
    SrcCtx sid em db2 ∧
    (∀ sid2, ¬(sid2 = sid) →
      db2.files.filter (fun r => r.sourceId == sid2) =
        db.files.filter (fun r => r.sourceId == sid2)) := by
  obtain ⟨⟨hnd, hlt⟩, hemlt, hown⟩ := hctx
  refine ⟨⟨⟨?_, ?_⟩, ?_, ?_⟩, ?_⟩
  · rw [hfiles]
    exact nodup_ids_map g _ hgid hnd
  · intro r hr
    rw [hfiles] at hr
    obtain ⟨r0, hr0, hr0e⟩ := List.mem_map.mp hr
    rw [← hr0e, hgid r0]
    exact lt_of_lt_of_le (hlt r0 hr0) hnext
  · intro pr hpr
    exact lt_of_lt_of_le (hemlt pr hpr) hnext
  · intro pr hpr r hr hid
    rw [hfiles] at hr
    obtain ⟨r0, hr0, hr0e⟩ := List.mem_map.mp hr
    rw [← hr0e, hgsid r0]
    rw [← hr0e, hgid r0] at hid
    exact hown pr hpr r0 hr0 hid
  · intro sid2 hne
    rw [hfiles]
    refine filter_map_fix _ _ _ ?_ ?_
    · intro x hx
      rw [hgsid x]
    · intro x hx hq
      refine hgfix x ?_
      intro hxid
      have hxs := hfid x hx hxid
      have hxsid : x.sourceId = sid2 := by simpa using hq
      exact hne (hxsid ▸ hxs)

theorem ingestFile_db_eq (H : HashFns) (runId : Nat) (c : String) (fid : Nat)
    (n : String) (e : Option String) (cont : String) (st : ScanState) :
    ∃ s0 rf2,
      (ingestFile H runId c fid n e cont st).db.files = st.db.files.map (fun r =>
        if r.id == fid then { r with lastIngestStatus := s0, error := none } else r) ∧
      st.db.nextId ≤ (ingestFile H runId c fid n e cont st).db.nextId ∧
      (ingestFile H runId c fid n e cont st).db.runFiles = st.db.runFiles ++ rf2 := by
  rw [ingestFile]
  have hud := fun dt => upsertDoc_frame H st.db c fid (pathStem n) dt cont
  dsimp only []
  split_ifs <;> dsimp only <;>
    first
      | (refine ⟨"ok", [], ?_, (hud _).2.2.2.2.2.2, ?_⟩
         · rw [(hud _).2.2.2.2.1]
         · rw [(hud _).2.2.2.2.2.1, List.append_nil])
      | (refine ⟨"ok", [⟨runId, fid, "ingest", "ok", none, none⟩], ?_,
            (hud _).2.2.2.2.2.2, ?_⟩
         · rw [(hud _).2.2.2.2.1]
         · rw [(hud _).2.2.2.2.2.1])
      | (refine ⟨"skipped", [], ?_, (hud _).2.2.2.2.2.2, ?_⟩
         · rw [(hud _).2.2.2.2.1]
         · rw [(hud _).2.2.2.2.2.1, List.append_nil])
      | (refine ⟨"skipped", [⟨runId, fid, "ingest", "ok", none, none⟩], ?_,
            (hud _).2.2.2.2.2.2, ?_⟩
         · rw [(hud _).2.2.2.2.1]
         · rw [(hud _).2.2.2.2.2.1])

theorem ingestFile_ctx (H : HashFns) (runId : Nat) (c : String) (fid : Nat)
    (n : String) (e : Option String) (cont : String) (st : ScanState)
    (sid : Nat) (em : List FileRec)
    (hctx : SrcCtx sid em st.db)
    (hfid : ∀ r ∈ st.db.files, r.id = fid → r.sourceId = sid) :
    SrcCtx sid em (ingestFile H runId c fid n e cont st).db ∧
    (∀ sid2, ¬(sid2 = sid) →
      (ingestFile H runId c fid n e cont st).db.files.filter
          (fun r => r.sourceId == sid2) =
        st.db.files.filter (fun r => r.sourceId == sid2)) := by
  obtain ⟨s0, rf2, hfiles, hnext, _⟩ := ingestFile_db_eq H runId c fid n e cont st
  refine ctx_map_step sid em st.db _ _ fid hfiles hnext ?_ ?_ ?_ hfid hctx
  · intro x
    by_cases hx : (x.id == fid) = true <;> simp [hx]
  · intro x
    by_cases hx : (x.id == fid) = true <;> simp [hx]
  · intro x hx
    have hbeq : (x.id == fid) = false := by
      exact beq_eq_false_iff_ne.mpr hx
    simp [hbeq]

theorem markDeleted_db_eq (p : Params) (runId : Nat) (st : ScanState) (prev : FileRec) :
    ∃ rf2,
      (markDeleted p runId st prev).db.files = st.db.files.map (fun r =>
        if (!st.seenPaths.contains prev.relPath) && !p.dryRun && (r.id == prev.id) then
          { r with status := "deleted" } else r) ∧
      (markDeleted p runId st prev).db.nextId = st.db.nextId ∧
      (markDeleted p runId st prev).db.runFiles = st.db.runFiles ++ rf2 := by
  rw [markDeleted]
  dsimp only []
  split_ifs with h1 h2 h3
  · refine ⟨[], ?_, rfl, by rw [List.append_nil]⟩
    have h1m : prev.relPath ∈ st.seenPaths := by simpa using h1
    have hfix : ∀ r ∈ st.db.files,
        (if (!st.seenPaths.contains prev.relPath) && !p.dryRun && (r.id == prev.id) then
          { r with status := "deleted" } else r) = r := by
      intro r hr
      simp [h1m]
    rw [List.map_congr_left hfix]
    exact (List.map_id st.db.files).symm ▸ rfl
  · refine ⟨[], ?_, rfl, by rw [List.append_nil]⟩
    have hfix : ∀ r ∈ st.db.files,
        (if (!st.seenPaths.contains prev.relPath) && !p.dryRun && (r.id == prev.id) then
          { r with status := "deleted" } else r) = r := by
      intro r hr
      simp [h2]
    rw [List.map_congr_left hfix]
    exact (List.map_id st.db.files).symm ▸ rfl
  · refine ⟨[], ?_, rfl, by rw [List.append_nil]⟩
    have h1m : prev.relPath ∉ st.seenPaths := by simpa using h1
    refine List.map_congr_left ?_
    intro r hr
    simp [h1m, h2]
  · refine ⟨[⟨runId, prev.id, "delete", "ok", some "missing_on_disk", none⟩], ?_, rfl, rfl⟩
    have h1m : prev.relPath ∉ st.seenPaths := by simpa using h1
    refine List.map_congr_left ?_
    intro r hr
    simp [h1m, h2]

theorem srcCtx_of_files_eq (sid : Nat) (em : List FileRec) (db db2 : DB)
    (hf : db2.files = db.files) (hn : db.nextId ≤ db2.nextId)
    (hctx : SrcCtx sid em db) : SrcCtx sid em db2 := by
  obtain ⟨⟨hnd, hlt⟩, hemlt, hown⟩ := hctx
  refine ⟨⟨?_, ?_⟩, ?_, ?_⟩
  · rw [hf]; exact hnd
  · intro r hr
    rw [hf] at hr
    exact lt_of_lt_of_le (hlt r hr) hn
  · intro pr hpr
    exact lt_of_lt_of_le (hemlt pr hpr) hn
  · intro pr hpr r hr hid
    rw [hf] at hr
    exact hown pr hpr r hr hid

theorem upsertFolder_files (db : DB) (sid2 : Nat) (rel : String) (pid : Option Nat)
    (depth : Nat) :
    (upsertFolder db sid2 rel pid depth).1.files = db.files ∧
    db.nextId ≤ (upsertFolder db sid2 rel pid depth).1.nextId := by
  rw [upsertFolder]
  cases db.folders.find? (fun fr => fr.sourceId == sid2 && fr.relPath == rel) with
  | none => exact ⟨rfl, Nat.le_succ _⟩
  | some fr => exact ⟨rfl, Nat.le_refl _⟩

theorem markDeleted_ctx (p : Params) (runId : Nat) (st : ScanState) (prev : FileRec)
    (sid : Nat) (em : List FileRec)
    (hctx : SrcCtx sid em st.db) (hprev : prev ∈ em) :
    SrcCtx sid em (markDeleted p runId st prev).db ∧
    (∀ sid2, ¬(sid2 = sid) →
      (markDeleted p runId st prev).db.files.filter (fun r => r.sourceId == sid2) =
        st.db.files.filter (fun r => r.sourceId == sid2)) := by
  obtain ⟨rf2, hfiles, hnext, _⟩ := markDeleted_db_eq p runId st prev
  refine ctx_map_step sid em st.db _ _ prev.id hfiles (le_of_eq hnext.symm) ?_ ?_ ?_
    (fun r hr hid => hctx.2.2 prev hprev r hr hid) hctx
  · intro x
    by_cases hx : ((!st.seenPaths.contains prev.relPath) && !p.dryRun && (x.id == prev.id)) = true
    · rw [if_pos hx]
    · rw [if_neg hx]
  · intro x
    by_cases hx : ((!st.seenPaths.contains prev.relPath) && !p.dryRun && (x.id == prev.id)) = true
    · rw [if_pos hx]
    · rw [if_neg hx]
  · intro x hx
    have hbeq : (x.id == prev.id) = false := beq_eq_false_iff_ne.mpr hx
    simp [hbeq]

theorem foldl_markDeleted_ctx (p : Params) (runId : Nat) (sid : Nat) (em : List FileRec) :
    ∀ (l : List FileRec) (st : ScanState), SrcCtx sid em st.db → (∀ x ∈ l, x ∈ em) →
      SrcCtx sid em (l.foldl (markDeleted p runId) st).db ∧
      (∀ sid2, ¬(sid2 = sid) →
        (l.foldl (markDeleted p runId) st).db.files.filter (fun r => r.sourceId == sid2) =
          st.db.files.filter (fun r => r.sourceId == sid2)) := by
  intro l
  induction l with
  | nil => intro st hctx _; exact ⟨hctx, fun _ _ => rfl⟩
  | cons x xs ih =>
    intro st hctx hmem
    have hstep := markDeleted_ctx p runId st x sid em hctx (hmem x (List.mem_cons_self x xs))
    have hrest := ih (markDeleted p runId st x) hstep.1
      (fun y hy => hmem y (List.mem_cons_of_mem x hy))
    refine ⟨hrest.1, ?_⟩
    intro sid2 hne
    rw [List.foldl_cons] at *
    rw [hrest.2 sid2 hne, hstep.2 sid2 hne]

theorem processFile_ctx (H : HashFns) (p : Params) (runId : Nat) (src : SourceCfg)
    (em : List FileRec) (fm : List (String × Nat)) (dirRel : String)
    (st : ScanState) (f : FsFile)
    (hctx : SrcCtx src.id em st.db)
    (hemfind : ∀ rel pr0, em.find? (fun r => r.relPath == rel) = some pr0 → pr0 ∈ em) :
    SrcCtx src.id em (processFile H p runId src em fm dirRel st f).db ∧
    (∀ sid2, ¬(sid2 = src.id) →
      (processFile H p runId src em fm dirRel st f).db.files.filter
          (fun r => r.sourceId == sid2) =
        st.db.files.filter (fun r => r.sourceId == sid2)) := by
  rw [processFile]
  split
  · exact ⟨hctx, fun _ _ => rfl⟩
  · cases f.stat with
    | none => exact ⟨hctx, fun _ _ => rfl⟩
    | some pstat =>
      dsimp only []
      have hv : (classifyFile H src.changeDetection p.forceRehash
          (em.find? (fun r => r.relPath == fileRelPath dirRel f.name))
          pstat.size pstat.mtime f.content).isNew = false →
          ∃ pr0, (em.find? (fun r => r.relPath == fileRelPath dirRel f.name)) = some pr0 ∧
            pr0 ∈ em := by
        intro hn
        rw [classifyFile_isNew] at hn
        cases hfind : em.find? (fun r => r.relPath == fileRelPath dirRel f.name) with
        | none => rw [hfind] at hn; simp at hn
        | some pr0 => exact ⟨pr0, rfl, hemfind _ pr0 hfind⟩
      have hup := upsertFileRow_ctx st.db src.id
        (((fm.find? (fun e => e.1 == dirRel)).map Prod.snd).getD
          (((fm.find? (fun e => e.1 == "")).map Prod.snd).getD 0))
        (fileRelPath dirRel f.name) (pathExt f.name) pstat
        (classifyFile H src.changeDetection p.forceRehash
          (em.find? (fun r => r.relPath == fileRelPath dirRel f.name))
          pstat.size pstat.mtime f.content)
        (em.find? (fun r => r.relPath == fileRelPath dirRel f.name))
        em hctx hv
      split
      · split
        · exact ⟨hup.1, hup.2.1⟩
        · have hing := ingestFile_ctx H runId src.campaignId
            (upsertFileRow st.db src.id
              (((fm.find? (fun e => e.1 == dirRel)).map Prod.snd).getD
                (((fm.find? (fun e => e.1 == "")).map Prod.snd).getD 0))
              (fileRelPath dirRel f.name) (pathExt f.name) pstat
              (classifyFile H src.changeDetection p.forceRehash
                (em.find? (fun r => r.relPath == fileRelPath dirRel f.name))
                pstat.size pstat.mtime f.content)
              (em.find? (fun r => r.relPath == fileRelPath dirRel f.name))).2
            f.name (pathExt f.name) f.content
            ⟨(upsertFileRow st.db src.id
              (((fm.find? (fun e => e.1 == dirRel)).map Prod.snd).getD
                (((fm.find? (fun e => e.1 == "")).map Prod.snd).getD 0))
              (fileRelPath dirRel f.name) (pathExt f.name) pstat
              (classifyFile H src.changeDetection p.forceRehash
                (em.find? (fun r => r.relPath == fileRelPath dirRel f.name))
                pstat.size pstat.mtime f.content)
              (em.find? (fun r => r.relPath == fileRelPath dirRel f.name))).1,
              statCounters { st.stats with filesSeen := st.stats.filesSeen + 1 }
                (classifyFile H src.changeDetection p.forceRehash
                  (em.find? (fun r => r.relPath == fileRelPath dirRel f.name))
                  pstat.size pstat.mtime f.content),
              st.seenPaths ++ [fileRelPath dirRel f.name], st.filesToIngest⟩
            src.id em hup.1 hup.2.2
          refine ⟨hing.1, ?_⟩
          intro sid2 hne
          rw [hing.2 sid2 hne, hup.2.1 sid2 hne]
      · exact ⟨hup.1, hup.2.1⟩

theorem foldl_processFile_ctx (H : HashFns) (p : Params) (runId : Nat) (src : SourceCfg)
    (em : List FileRec) (fm : List (String × Nat)) (dirRel : String) :
    ∀ (fs : List FsFile) (st : ScanState), SrcCtx src.id em st.db →
      SrcCtx src.id em ((fs.foldl (processFile H p runId src em fm dirRel) st)).db ∧
      (∀ sid2, ¬(sid2 = src.id) →
        ((fs.foldl (processFile H p runId src em fm dirRel) st)).db.files.filter
            (fun r => r.sourceId == sid2) =
          st.db.files.filter (fun r => r.sourceId == sid2)) := by
  intro fs
  induction fs with
  | nil => intro st hctx; exact ⟨hctx, fun _ _ => rfl⟩
  | cons f fs ih =>
    intro st hctx
    have hstep := processFile_ctx H p runId src em fm dirRel st f hctx
      (fun rel pr0 hf => List.mem_of_find?_eq_some hf)
    have hrest := ih (processFile H p runId src em fm dirRel st f) hstep.1
    refine ⟨hrest.1, ?_⟩
    intro sid2 hne
    rw [List.foldl_cons, hrest.2 sid2 hne, hstep.2 sid2 hne]

theorem processDir_ctx (H : HashFns) (p : Params) (runId : Nat) (src : SourceCfg)
    (em : List FileRec) (acc : ScanState × List (String × Nat)) (d : FsDir)
    (hctx : SrcCtx src.id em acc.1.db) :
    SrcCtx src.id em (processDir H p runId src em acc d).1.db ∧
    (∀ sid2, ¬(sid2 = src.id) →
      (processDir H p runId src em acc d).1.db.files.filter
          (fun r => r.sourceId == sid2) =
        acc.1.db.files.filter (fun r => r.sourceId == sid2)) := by
  rw [processDir]
  dsimp only []
  split
  · have hfe := upsertFolder_files acc.1.db src.id d.rel
      (some (((acc.2.find? (fun e => e.1 == (if d.rel == "" then "" else pyParentRel d.rel))).map
        Prod.snd).getD (((acc.2.find? (fun e => e.1 == "")).map Prod.snd).getD 0)))
      (if d.rel == "" then 0 else (purePosixParts d.rel).length)
    have hctx2 := srcCtx_of_files_eq src.id em acc.1.db _ hfe.1 hfe.2 hctx
    have hfold := foldl_processFile_ctx H p runId src em
      (acc.2 ++ [(d.rel, (upsertFolder acc.1.db src.id d.rel
        (some (((acc.2.find? (fun e => e.1 == (if d.rel == "" then "" else pyParentRel d.rel))).map
          Prod.snd).getD (((acc.2.find? (fun e => e.1 == "")).map Prod.snd).getD 0)))
        (if d.rel == "" then 0 else (purePosixParts d.rel).length)).2)])
      d.rel d.files
      { acc.1 with db := (upsertFolder acc.1.db src.id d.rel
        (some (((acc.2.find? (fun e => e.1 == (if d.rel == "" then "" else pyParentRel d.rel))).map
          Prod.snd).getD (((acc.2.find? (fun e => e.1 == "")).map Prod.snd).getD 0)))
        (if d.rel == "" then 0 else (purePosixParts d.rel).length)).1 }
      hctx2
    refine ⟨hfold.1, ?_⟩
    intro sid2 hne
    rw [hfold.2 sid2 hne]
    rw [hfe.1]
  · exact foldl_processFile_ctx H p runId src em acc.2 d.rel d.files acc.1 hctx

theorem foldl_processDir_ctx (H : HashFns) (p : Params) (runId : Nat) (src : SourceCfg)
    (em : List FileRec) :
    ∀ (ds : List FsDir) (acc : ScanState × List (String × Nat)),
      SrcCtx src.id em acc.1.db →
      SrcCtx src.id em ((ds.foldl (processDir H p runId src em) acc)).1.db ∧
      (∀ sid2, ¬(sid2 = src.id) →
        ((ds.foldl (processDir H p runId src em) acc)).1.db.files.filter
            (fun r => r.sourceId == sid2) =
          acc.1.db.files.filter (fun r => r.sourceId == sid2)) := by
  intro ds
  induction ds with
  | nil => intro acc hctx; exact ⟨hctx, fun _ _ => rfl⟩
  | cons d ds ih =>
    intro acc hctx
    have hstep := processDir_ctx H p runId src em acc d hctx
    have hrest := ih (processDir H p runId src em acc d) hstep.1
    refine ⟨hrest.1, ?_⟩
    intro sid2 hne
    rw [List.foldl_cons, hrest.2 sid2 hne, hstep.2 sid2 hne]

theorem srcCtx_init (db : DB) (sid : Nat) (hwf : FilesWF db) :
    SrcCtx sid (sourceSnapshot db sid) db := by
  refine ⟨hwf, ?_, ?_⟩
  · intro pr hpr
    exact hwf.2 pr (List.mem_of_mem_filter hpr)
  · intro pr hpr r hr hid
    have hprf : pr ∈ db.files := List.mem_of_mem_filter hpr
    have hrp : r = pr := List.inj_on_of_nodup_map hwf.1 hr hprf hid
    have hp := List.of_mem_filter hpr
    have hps := (Bool.and_eq_true _ _).mp hp
    rw [hrp]
    exact eq_of_beq hps.1

theorem sourceSnapshot_eq_filter (db : DB) (sid : Nat) :
    sourceSnapshot db sid =
      (db.files.filter (fun r => r.sourceId == sid)).filter
        (fun r => !(r.status == "deleted")) := by
  rw [sourceSnapshot, List.filter_filter]
  exact List.filter_congr (fun r _ => Bool.and_comm _ _)

theorem snapshot_frame_of_filter (db db2 : DB) (sid : Nat)
    (h : db2.files.filter (fun r => r.sourceId == sid) =
      db.files.filter (fun r => r.sourceId == sid)) :
    sourceSnapshot db2 sid = sourceSnapshot db sid := by
  rw [sourceSnapshot_eq_filter, sourceSnapshot_eq_filter, h]

theorem processSource_ctx (H : HashFns) (p : Params) (runId : Nat) (acc : DB × Stats)
    (src : SourceCfg) (hwf : FilesWF acc.1) :
    FilesWF (processSource H p runId acc src).1 ∧
    (∀ sid2, ¬(sid2 = src.id) →
      (processSource H p runId acc src).1.files.filter (fun r => r.sourceId == sid2) =
        acc.1.files.filter (fun r => r.sourceId == sid2)) := by
  rw [processSource]
  dsimp only []
  split
  · exact ⟨hwf, fun _ _ => rfl⟩
  · split
    · have hfe := upsertFolder_files acc.1 src.id "" none 0
      have hctx0 := srcCtx_of_files_eq src.id (sourceSnapshot acc.1 src.id) acc.1 _
        hfe.1 hfe.2 (srcCtx_init acc.1 src.id hwf)
      have hwalk := foldl_processDir_ctx H p runId src (sourceSnapshot acc.1 src.id)
        src.walk
        (⟨(upsertFolder acc.1 src.id "" none 0).1,
          { acc.2 with sourcesScanned := acc.2.sourcesScanned + 1 }, [], 0⟩,
         ((acc.1.folders.filter (fun fr => fr.sourceId == src.id)).map
            (fun fr => (fr.relPath, fr.id))) ++ [("", (upsertFolder acc.1 src.id "" none 0).2)])
        hctx0
      have hdel := foldl_markDeleted_ctx p runId src.id (sourceSnapshot acc.1 src.id)
        (sourceSnapshot acc.1 src.id)
        (src.walk.foldl (processDir H p runId src (sourceSnapshot acc.1 src.id))
          (⟨(upsertFolder acc.1 src.id "" none 0).1,
            { acc.2 with sourcesScanned := acc.2.sourcesScanned + 1 }, [], 0⟩,
           ((acc.1.folders.filter (fun fr => fr.sourceId == src.id)).map
              (fun fr => (fr.relPath, fr.id))) ++
            [("", (upsertFolder acc.1 src.id "" none 0).2)])).1
        hwalk.1 (fun x hx => hx)
      refine ⟨hdel.1.1, ?_⟩
      intro sid2 hne
      rw [hdel.2 sid2 hne, hwalk.2 sid2 hne, hfe.1]
    · have hctx0 := srcCtx_init acc.1 src.id hwf
      have hwalk := foldl_processDir_ctx H p runId src (sourceSnapshot acc.1 src.id)
        src.walk
        (⟨acc.1, { acc.2 with sourcesScanned := acc.2.sourcesScanned + 1 }, [], 0⟩,
         (acc.1.folders.filter (fun fr => fr.sourceId == src.id)).map
            (fun fr => (fr.relPath, fr.id)))
        hctx0
      have hdel := foldl_markDeleted_ctx p runId src.id (sourceSnapshot acc.1 src.id)
        (sourceSnapshot acc.1 src.id)
        (src.walk.foldl (processDir H p runId src (sourceSnapshot acc.1 src.id))
          (⟨acc.1, { acc.2 with sourcesScanned := acc.2.sourcesScanned + 1 }, [], 0⟩,
           (acc.1.folders.filter (fun fr => fr.sourceId == src.id)).map
              (fun fr => (fr.relPath, fr.id)))).1
        hwalk.1 (fun x hx => hx)
      refine ⟨hdel.1.1, ?_⟩
      intro sid2 hne
      rw [hdel.2 sid2 hne, hwalk.2 sid2 hne]

theorem foldl_processSource_ctx (H : HashFns) (p : Params) (runId : Nat) :
    ∀ (srcs : List SourceCfg) (acc : DB × Stats), FilesWF acc.1 →
      FilesWF ((srcs.foldl (processSource H p runId) acc)).1 ∧
      (∀ sid2, (∀ s ∈ srcs, ¬(sid2 = s.id)) →
        ((srcs.foldl (processSource H p runId) acc)).1.files.filter
            (fun r => r.sourceId == sid2) =
          acc.1.files.filter (fun r => r.sourceId == sid2)) := by
  intro srcs
  induction srcs with
  | nil => intro acc hwf; exact ⟨hwf, fun _ _ => rfl⟩
  | cons s ss ih =>
    intro acc hwf
    have hstep := processSource_ctx H p runId acc s hwf
    have hrest := ih (processSource H p runId acc s) hstep.1
    refine ⟨hrest.1, ?_⟩
    intro sid2 hall
    rw [List.foldl_cons,
      hrest.2 sid2 (fun t ht => hall t (List.mem_cons_of_mem s ht)),
      hstep.2 sid2 (hall s (List.mem_cons_self s ss))]

theorem statCounters_char (stats : Stats) (v : Verdict) :
    ((statCounters stats v).filesNew = stats.filesNew + (if v.isNew then 1 else 0)) ∧
    ((statCounters stats v).filesChanged = stats.filesChanged +
      (if v.isNew then 0 else if v.changed then 1 else 0)) ∧
    ((statCounters stats v).filesUnchanged = stats.filesUnchanged +
      (if v.isNew then 0 else if v.changed then 0 else 1)) ∧
    ((statCounters stats v).filesSeen = stats.filesSeen) ∧
    ((statCounters stats v).errors = stats.errors) := by
  rw [statCounters]
  split_ifs with h1 h2
  · simp [h1]
  · simp [h1, h2]
  · simp [h1, h2]

theorem processFile_class_char (H : HashFns) (p : Params) (runId : Nat) (src : SourceCfg)
    (em : List FileRec) (fm : List (String × Nat)) (dirRel : String)
    (st : ScanState) (f : FsFile) :
    ((processFile H p runId src em fm dirRel st f).stats.filesSeen = st.stats.filesSeen +
      (match entryOf src dirRel f with | some _ => 1 | none => 0)) ∧
    ((processFile H p runId src em fm dirRel st f).stats.filesNew = st.stats.filesNew +
      (match entryOf src dirRel f with
       | some e =>
         if (classifySnap H p.forceRehash src.changeDetection em e).isNew then 1 else 0
       | none => 0)) ∧
    ((processFile H p runId src em fm dirRel st f).stats.filesChanged =
      st.stats.filesChanged +
      (match entryOf src dirRel f with
       | some e =>
         if (classifySnap H p.forceRehash src.changeDetection em e).isNew then 0
         else if (classifySnap H p.forceRehash src.changeDetection em e).changed then 1
         else 0
       | none => 0)) ∧
    ((processFile H p runId src em fm dirRel st f).stats.filesUnchanged =
      st.stats.filesUnchanged +
      (match entryOf src dirRel f with
       | some e =>
         if (classifySnap H p.forceRehash src.changeDetection em e).isNew then 0
         else if (classifySnap H p.forceRehash src.changeDetection em e).changed then 0
         else 1
       | none => 0)) ∧
    ((processFile H p runId src em fm dirRel st f).stats.errors =
      st.stats.errors ++ errOf src dirRel f) ∧
    ((processFile H p runId src em fm dirRel st f).seenPaths =
      st.seenPaths ++
      (match entryOf src dirRel f with | some e => [e.rel] | none => [])) := by
  by_cases hinc : _should_include (fileRelPath dirRel f.name) src.includeGlobs
      src.excludeGlobs = true
  · have hnot : ¬((!(_should_include (fileRelPath dirRel f.name) src.includeGlobs
        src.excludeGlobs)) = true) := by simp [hinc]
    rw [processFile, if_neg hnot, entryOf, if_pos hinc, errOf, if_pos hinc]
    cases hstat : f.stat with
    | none => simp
    | some pstat =>
      dsimp only []
      have hsc := statCounters_char { st.stats with filesSeen := st.stats.filesSeen + 1 }
        (classifyFile H src.changeDetection p.forceRehash
          (em.find? (fun r => r.relPath == fileRelPath dirRel f.name))
          pstat.size pstat.mtime f.content)
      have hif := fun fid stx => ingestFile_stats_frame H runId src.campaignId fid f.name
        (pathExt f.name) f.content stx
      have hvv : classifySnap H p.forceRehash src.changeDetection em
          (⟨fileRelPath dirRel f.name, pstat, f.content⟩ : WalkEntry) =
          classifyFile H src.changeDetection p.forceRehash
            (em.find? (fun r => r.relPath == fileRelPath dirRel f.name))
            pstat.size pstat.mtime f.content := rfl
      split
      · split
        · refine ⟨?_, ?_, ?_, ?_, ?_, ?_⟩ <;>
            first
              | simp [hsc.1, hsc.2.1, hsc.2.2.1, hsc.2.2.2.1, hsc.2.2.2.2, classifySnap]
              | rfl
        · refine ⟨?_, ?_, ?_, ?_, ?_, ?_⟩
          · rw [(hif _ _).2.2.1]
            simp [hsc.2.2.2.1]
          · rw [(hif _ _).2.2.2.1]
            simp [hsc.1, classifySnap]
          · rw [(hif _ _).2.2.2.2.1]
            simp [hsc.2.1, classifySnap]
          · rw [(hif _ _).2.2.2.2.2.1]
            simp [hsc.2.2.1, classifySnap]
          · rw [(hif _ _).2.2.2.2.2.2.2.1]
            simp [hsc.2.2.2.2]
          · rw [(hif _ _).2.2.2.2.2.2.2.2]
            simp
      · refine ⟨?_, ?_, ?_, ?_, ?_, ?_⟩ <;>
          first
            | simp [hsc.1, hsc.2.1, hsc.2.2.1, hsc.2.2.2.1, hsc.2.2.2.2, classifySnap]
            | rfl
  · have hnot : ((!(_should_include (fileRelPath dirRel f.name) src.includeGlobs
        src.excludeGlobs)) = true) := by
      simpa using hinc
    rw [processFile, if_pos hnot, entryOf, if_neg hinc, errOf, if_neg hinc]
    simp

theorem foldl_processFile_class (H : HashFns) (p : Params) (runId : Nat) (src : SourceCfg)
    (em : List FileRec) (fm : List (String × Nat)) (dirRel : String) :
    ∀ (fs : List FsFile) (st : ScanState),
      (((fs.foldl (processFile H p runId src em fm dirRel) st)).stats.filesSeen =
        st.stats.filesSeen + (fs.filterMap (entryOf src dirRel)).length) ∧
      (((fs.foldl (processFile H p runId src em fm dirRel) st)).stats.filesNew =
        st.stats.filesNew + countNew H p.forceRehash src.changeDetection em
          (fs.filterMap (entryOf src dirRel))) ∧
      (((fs.foldl (processFile H p runId src em fm dirRel) st)).stats.filesChanged =
        st.stats.filesChanged + countChanged H p.forceRehash src.changeDetection em
          (fs.filterMap (entryOf src dirRel))) ∧
      (((fs.foldl (processFile H p runId src em fm dirRel) st)).stats.filesUnchanged =
        st.stats.filesUnchanged + countUnchanged H p.forceRehash src.changeDetection em
          (fs.filterMap (entryOf src dirRel))) ∧
      (((fs.foldl (processFile H p runId src em fm dirRel) st)).stats.errors =
        st.stats.errors ++ fs.flatMap (errOf src dirRel)) ∧
      (((fs.foldl (processFile H p runId src em fm dirRel) st)).seenPaths =
        st.seenPaths ++ (fs.filterMap (entryOf src dirRel)).map (fun e => e.rel)) := by
  intro fs
  induction fs with
  | nil =>
    intro st
    simp [countNew, countChanged, countUnchanged]
  | cons f fs ih =>
    intro st
    have hstep := processFile_class_char H p runId src em fm dirRel st f
    have hrest := ih (processFile H p runId src em fm dirRel st f)
    rw [List.foldl_cons] at *
    cases hent : entryOf src dirRel f with
    | none =>
      simp only [hent] at hstep
      refine ⟨?_, ?_, ?_, ?_, ?_, ?_⟩
      · rw [hrest.1, hstep.1]
        simp [List.filterMap_cons, hent]
      · rw [hrest.2.1, hstep.2.1]
        simp [List.filterMap_cons, hent]
      · rw [hrest.2.2.1, hstep.2.2.1]
        simp [List.filterMap_cons, hent]
      · rw [hrest.2.2.2.1, hstep.2.2.2.1]
        simp [List.filterMap_cons, hent]
      · rw [hrest.2.2.2.2.1, hstep.2.2.2.2.1]
        simp [List.flatMap_cons, List.append_assoc]
      · rw [hrest.2.2.2.2.2, hstep.2.2.2.2.2]
        simp [List.filterMap_cons, hent]
    | some e =>
      simp only [hent] at hstep
      refine ⟨?_, ?_, ?_, ?_, ?_, ?_⟩
      · rw [hrest.1, hstep.1]
        simp [List.filterMap_cons, hent]
        omega
      · rw [hrest.2.1, hstep.2.1]
        simp [List.filterMap_cons, hent, countNew]
        omega
      · rw [hrest.2.2.1, hstep.2.2.1]
        simp [List.filterMap_cons, hent, countChanged]
        omega
      · rw [hrest.2.2.2.1, hstep.2.2.2.1]
        simp [List.filterMap_cons, hent, countUnchanged]
        omega
      · rw [hrest.2.2.2.2.1, hstep.2.2.2.2.1]
        simp [List.flatMap_cons, List.append_assoc]
      · rw [hrest.2.2.2.2.2, hstep.2.2.2.2.2]
        simp [List.filterMap_cons, hent, List.append_assoc]

theorem countNew_append (H : HashFns) (force : Bool) (mode : String) (snap : List FileRec) :
    ∀ (P Q : List WalkEntry),
      countNew H force mode snap (P ++ Q) =
        countNew H force mode snap P + countNew H force mode snap Q := by
  intro P Q
  induction P with
  | nil => simp [countNew]
  | cons e es ih => simp [countNew, ih]; omega

theorem countChanged_append (H : HashFns) (force : Bool) (mode : String)
    (snap : List FileRec) :
    ∀ (P Q : List WalkEntry),
      countChanged H force mode snap (P ++ Q) =
        countChanged H force mode snap P + countChanged H force mode snap Q := by
  intro P Q
  induction P with
  | nil => simp [countChanged]
  | cons e es ih => simp [countChanged, ih]; omega

theorem countUnchanged_append (H : HashFns) (force : Bool) (mode : String)
    (snap : List FileRec) :
    ∀ (P Q : List WalkEntry),
      countUnchanged H force mode snap (P ++ Q) =
        countUnchanged H force mode snap P + countUnchanged H force mode snap Q := by
  intro P Q
  induction P with
  | nil => simp [countUnchanged]
  | cons e es ih => simp [countUnchanged, ih]; omega

theorem processDir_class_char (H : HashFns) (p : Params) (runId : Nat) (src : SourceCfg)
    (em : List FileRec) (acc : ScanState × List (String × Nat)) (d : FsDir) :
    ((processDir H p runId src em acc d).1.stats.filesSeen =
      acc.1.stats.filesSeen + (d.files.filterMap (entryOf src d.rel)).length) ∧
    ((processDir H p runId src em acc d).1.stats.filesNew =
      acc.1.stats.filesNew + countNew H p.forceRehash src.changeDetection em
        (d.files.filterMap (entryOf src d.rel))) ∧
    ((processDir H p runId src em acc d).1.stats.filesChanged =
      acc.1.stats.filesChanged + countChanged H p.forceRehash src.changeDetection em
        (d.files.filterMap (entryOf src d.rel))) ∧
    ((processDir H p runId src em acc d).1.stats.filesUnchanged =
      acc.1.stats.filesUnchanged + countUnchanged H p.forceRehash src.changeDetection em
        (d.files.filterMap (entryOf src d.rel))) ∧
    ((processDir H p runId src em acc d).1.stats.errors =
      acc.1.stats.errors ++ d.files.flatMap (errOf src d.rel)) ∧
    ((processDir H p runId src em acc d).1.seenPaths =
      acc.1.seenPaths ++ (d.files.filterMap (entryOf src d.rel)).map (fun e => e.rel)) := by
  rw [processDir]
  dsimp only []
  split
  · exact foldl_processFile_class H p runId src em
      (acc.2 ++ [(d.rel, (upsertFolder acc.1.db src.id d.rel
        (some (((acc.2.find? (fun e => e.1 == (if d.rel == "" then "" else pyParentRel d.rel))).map
          Prod.snd).getD (((acc.2.find? (fun e => e.1 == "")).map Prod.snd).getD 0)))
        (if d.rel == "" then 0 else (purePosixParts d.rel).length)).2)])
      d.rel d.files
      { acc.1 with db := (upsertFolder acc.1.db src.id d.rel
        (some (((acc.2.find? (fun e => e.1 == (if d.rel == "" then "" else pyParentRel d.rel))).map
          Prod.snd).getD (((acc.2.find? (fun e => e.1 == "")).map Prod.snd).getD 0)))
        (if d.rel == "" then 0 else (purePosixParts d.rel).length)).1 }
  · exact foldl_processFile_class H p runId src em acc.2 d.rel d.files acc.1

theorem foldl_processDir_class (H : HashFns) (p : Params) (runId : Nat) (src : SourceCfg)
    (em : List FileRec) :
    ∀ (ds : List FsDir) (acc : ScanState × List (String × Nat)),
      (((ds.foldl (processDir H p runId src em) acc)).1.stats.filesSeen =
        acc.1.stats.filesSeen +
          (ds.flatMap (fun d => d.files.filterMap (entryOf src d.rel))).length) ∧
      (((ds.foldl (processDir H p runId src em) acc)).1.stats.filesNew =
        acc.1.stats.filesNew + countNew H p.forceRehash src.changeDetection em
          (ds.flatMap (fun d => d.files.filterMap (entryOf src d.rel)))) ∧
      (((ds.foldl (processDir H p runId src em) acc)).1.stats.filesChanged =
        acc.1.stats.filesChanged + countChanged H p.forceRehash src.changeDetection em
          (ds.flatMap (fun d => d.files.filterMap (entryOf src d.rel)))) ∧
      (((ds.foldl (processDir H p runId src em) acc)).1.stats.filesUnchanged =
        acc.1.stats.filesUnchanged + countUnchanged H p.forceRehash src.changeDetection em
          (ds.flatMap (fun d => d.files.filterMap (entryOf src d.rel)))) ∧
      (((ds.foldl (processDir H p runId src em) acc)).1.stats.errors =
        acc.1.stats.errors ++ ds.flatMap (fun d => d.files.flatMap (errOf src d.rel))) ∧
      (((ds.foldl (processDir H p runId src em) acc)).1.seenPaths =
        acc.1.seenPaths ++
          (ds.flatMap (fun d => d.files.filterMap (entryOf src d.rel))).map
            (fun e => e.rel)) := by
  intro ds
  induction ds with
  | nil =>
    intro acc
    simp [countNew, countChanged, countUnchanged]
  | cons d ds ih =>
    intro acc
    have hstep := processDir_class_char H p runId src em acc d
    have hrest := ih (processDir H p runId src em acc d)
    rw [List.foldl_cons] at *
    refine ⟨?_, ?_, ?_, ?_, ?_, ?_⟩
    · rw [hrest.1, hstep.1]
      simp [List.flatMap_cons]
      omega
    · rw [hrest.2.1, hstep.2.1]
      simp [List.flatMap_cons, countNew_append]
      omega
    · rw [hrest.2.2.1, hstep.2.2.1]
      simp [List.flatMap_cons, countChanged_append]
      omega
    · rw [hrest.2.2.2.1, hstep.2.2.2.1]
      simp [List.flatMap_cons, countUnchanged_append]
      omega
    · rw [hrest.2.2.2.2.1, hstep.2.2.2.2.1]
      simp [List.flatMap_cons, List.append_assoc]
    · rw [hrest.2.2.2.2.2, hstep.2.2.2.2.2]
      simp [List.flatMap_cons, List.append_assoc]

theorem markDeleted_class (p : Params) (runId : Nat) (st : ScanState) (prev : FileRec) :
    ((markDeleted p runId st prev).stats.filesDeleted = st.stats.filesDeleted +
      (if st.seenPaths.contains prev.relPath then 0 else 1)) ∧
    ((markDeleted p runId st prev).stats.filesSeen = st.stats.filesSeen) ∧
    ((markDeleted p runId st prev).stats.filesNew = st.stats.filesNew) ∧
    ((markDeleted p runId st prev).stats.filesChanged = st.stats.filesChanged) ∧
    ((markDeleted p runId st prev).stats.filesUnchanged = st.stats.filesUnchanged) ∧
    ((markDeleted p runId st prev).stats.errors = st.stats.errors) ∧
    ((markDeleted p runId st prev).stats.sourcesTotal = st.stats.sourcesTotal) ∧
    ((markDeleted p runId st prev).stats.sourcesScanned = st.stats.sourcesScanned) ∧
    ((markDeleted p runId st prev).seenPaths = st.seenPaths) := by
  rw [markDeleted]
  dsimp only []
  split_ifs with h1 h2 h3 <;>
    refine ⟨?_, rfl, rfl, rfl, rfl, rfl, rfl, rfl, rfl⟩ <;> simp [h1]

theorem countDeleted_cons (x : FileRec) (l : List FileRec) (rels : List String) :
    countDeleted (x :: l) rels =
      (if rels.contains x.relPath then 0 else 1) + countDeleted l rels := by
  rw [countDeleted, countDeleted, List.filter_cons]
  cases hx : rels.contains x.relPath <;> simp [hx] <;> omega

theorem foldl_markDeleted_class (p : Params) (runId : Nat) :
    ∀ (l : List FileRec) (st : ScanState),
      (((l.foldl (markDeleted p runId) st)).stats.filesDeleted =
        st.stats.filesDeleted + countDeleted l st.seenPaths) ∧
      (((l.foldl (markDeleted p runId) st)).stats.filesSeen = st.stats.filesSeen) ∧
      (((l.foldl (markDeleted p runId) st)).stats.filesNew = st.stats.filesNew) ∧
      (((l.foldl (markDeleted p runId) st)).stats.filesChanged = st.stats.filesChanged) ∧
      (((l.foldl (markDeleted p runId) st)).stats.filesUnchanged =
        st.stats.filesUnchanged) ∧
      (((l.foldl (markDeleted p runId) st)).stats.errors = st.stats.errors) ∧
      (((l.foldl (markDeleted p runId) st)).stats.sourcesTotal = st.stats.sourcesTotal) ∧
      (((l.foldl (markDeleted p runId) st)).stats.sourcesScanned =
        st.stats.sourcesScanned) ∧
      (((l.foldl (markDeleted p runId) st)).seenPaths = st.seenPaths) := by
  intro l
  induction l with
  | nil =>
    intro st
    simp [countDeleted]
  | cons x xs ih =>
    intro st
    have hstep := markDeleted_class p runId st x
    have hrest := ih (markDeleted p runId st x)
    rw [List.foldl_cons] at *
    rw [hstep.2.2.2.2.2.2.2.2] at hrest
    refine ⟨?_, ?_, ?_, ?_, ?_, ?_, ?_, ?_, ?_⟩
    · rw [hrest.1, hstep.1, countDeleted_cons]
      omega
    · rw [hrest.2.1, hstep.2.1]
    · rw [hrest.2.2.1, hstep.2.2.1]
    · rw [hrest.2.2.2.1, hstep.2.2.2.1]
    · rw [hrest.2.2.2.2.1, hstep.2.2.2.2.1]
    · rw [hrest.2.2.2.2.2.1, hstep.2.2.2.2.2.1]
    · rw [hrest.2.2.2.2.2.2.1, hstep.2.2.2.2.2.2.1]
    · rw [hrest.2.2.2.2.2.2.2.1, hstep.2.2.2.2.2.2.2.1]
    · rw [hrest.2.2.2.2.2.2.2.2]

theorem walkIncluded_eq (src : SourceCfg) :
    walkIncluded src = src.walk.flatMap (fun d => d.files.filterMap (entryOf src d.rel)) :=
  rfl

theorem errOf_filterMap (src : SourceCfg) (dirRel : String) (fs : List FsFile) :
    fs.filterMap (fun f =>
      if _should_include (fileRelPath dirRel f.name) src.includeGlobs src.excludeGlobs then
        match f.stat with
        | none => some ("stat failed for " ++ fileRelPath dirRel f.name)
        | some _ => none
      else none) = fs.flatMap (errOf src dirRel) := by
  induction fs with
  | nil => rfl
  | cons f fs ih =>
    rw [List.filterMap_cons, List.flatMap_cons, errOf]
    by_cases hinc : _should_include (fileRelPath dirRel f.name) src.includeGlobs
        src.excludeGlobs = true
    · rw [if_pos hinc, if_pos hinc]
      cases f.stat with
      | none => rw [ih]; rfl
      | some pstat => rw [ih]; rfl
    · rw [if_neg hinc, if_neg hinc, ih]
      rfl

theorem walkErrors_eq (src : SourceCfg) :
    walkErrors src = src.walk.flatMap (fun d => d.files.flatMap (errOf src d.rel)) := by
  rw [walkErrors]
  refine congrArg _ ?_
  funext d
  exact errOf_filterMap src d.rel d.files

theorem foldl_processFile_scanTotal (H : HashFns) (p : Params) (runId : Nat)
    (src : SourceCfg) (em : List FileRec) (fm : List (String × Nat)) (dirRel : String) :
    ∀ (fs : List FsFile) (st : ScanState),
      (((fs.foldl (processFile H p runId src em fm dirRel) st)).stats.sourcesScanned =
        st.stats.sourcesScanned) ∧
      (((fs.foldl (processFile H p runId src em fm dirRel) st)).stats.sourcesTotal =
        st.stats.sourcesTotal) ∧
      (((fs.foldl (processFile H p runId src em fm dirRel) st)).stats.filesDeleted =
        st.stats.filesDeleted) := by
  intro fs
  induction fs with
  | nil => intro st; exact ⟨rfl, rfl, rfl⟩
  | cons f fs ih =>
    intro st
    have hstep := processFile_stats_frame H p runId src em fm dirRel st f
    have hrest := ih (processFile H p runId src em fm dirRel st f)
    rw [List.foldl_cons]
    exact ⟨hrest.1.trans hstep.1, hrest.2.1.trans hstep.2.1, hrest.2.2.trans hstep.2.2⟩

theorem processDir_scanTotal (H : HashFns) (p : Params) (runId : Nat) (src : SourceCfg)
    (em : List FileRec) (acc : ScanState × List (String × Nat)) (d : FsDir) :
    ((processDir H p runId src em acc d).1.stats.sourcesScanned =
      acc.1.stats.sourcesScanned) ∧
    ((processDir H p runId src em acc d).1.stats.sourcesTotal =
      acc.1.stats.sourcesTotal) ∧
    ((processDir H p runId src em acc d).1.stats.filesDeleted =
      acc.1.stats.filesDeleted) := by
  rw [processDir]
  dsimp only []
  split
  · exact foldl_processFile_scanTotal H p runId src em
      (acc.2 ++ [(d.rel, (upsertFolder acc.1.db src.id d.rel
        (some (((acc.2.find? (fun e => e.1 == (if d.rel == "" then "" else pyParentRel d.rel))).map
          Prod.snd).getD (((acc.2.find? (fun e => e.1 == "")).map Prod.snd).getD 0)))
        (if d.rel == "" then 0 else (purePosixParts d.rel).length)).2)])
      d.rel d.files
      { acc.1 with db := (upsertFolder acc.1.db src.id d.rel
        (some (((acc.2.find? (fun e => e.1 == (if d.rel == "" then "" else pyParentRel d.rel))).map
          Prod.snd).getD (((acc.2.find? (fun e => e.1 == "")).map Prod.snd).getD 0)))
        (if d.rel == "" then 0 else (purePosixParts d.rel).length)).1 }
  · exact foldl_processFile_scanTotal H p runId src em acc.2 d.rel d.files acc.1

theorem foldl_processDir_scanTotal (H : HashFns) (p : Params) (runId : Nat)
    (src : SourceCfg) (em : List FileRec) :
    ∀ (ds : List FsDir) (acc : ScanState × List (String × Nat)),
      (((ds.foldl (processDir H p runId src em) acc)).1.stats.sourcesScanned =
        acc.1.stats.sourcesScanned) ∧
      (((ds.foldl (processDir H p runId src em) acc)).1.stats.sourcesTotal =
        acc.1.stats.sourcesTotal) ∧
      (((ds.foldl (processDir H p runId src em) acc)).1.stats.filesDeleted =
        acc.1.stats.filesDeleted) := by
  intro ds
  induction ds with
  | nil => intro acc; exact ⟨rfl, rfl, rfl⟩
  | cons d ds ih =>
    intro acc
    have hstep := processDir_scanTotal H p runId src em acc d
    have hrest := ih (processDir H p runId src em acc d)
    rw [List.foldl_cons]
    exact ⟨hrest.1.trans hstep.1, hrest.2.1.trans hstep.2.1, hrest.2.2.trans hstep.2.2⟩

theorem sourceBody_class (H : HashFns) (p : Params) (runId : Nat) (src : SourceCfg)
    (em : List FileRec) (st0 : ScanState) (fm : List (String × Nat))
    (hsp : st0.seenPaths = []) :
    ((em.foldl (markDeleted p runId)
        (src.walk.foldl (processDir H p runId src em) (st0, fm)).1).stats.sourcesTotal =
      st0.stats.sourcesTotal) ∧
    ((em.foldl (markDeleted p runId)
        (src.walk.foldl (processDir H p runId src em) (st0, fm)).1).stats.sourcesScanned =
      st0.stats.sourcesScanned) ∧
    ((em.foldl (markDeleted p runId)
        (src.walk.foldl (processDir H p runId src em) (st0, fm)).1).stats.filesSeen =
      st0.stats.filesSeen + (walkIncluded src).length) ∧
    ((em.foldl (markDeleted p runId)
        (src.walk.foldl (processDir H p runId src em) (st0, fm)).1).stats.filesNew =
      st0.stats.filesNew + countNew H p.forceRehash src.changeDetection em
        (walkIncluded src)) ∧
    ((em.foldl (markDeleted p runId)
        (src.walk.foldl (processDir H p runId src em) (st0, fm)).1).stats.filesChanged =
      st0.stats.filesChanged + countChanged H p.forceRehash src.changeDetection em
        (walkIncluded src)) ∧
    ((em.foldl (markDeleted p runId)
        (src.walk.foldl (processDir H p runId src em) (st0, fm)).1).stats.filesUnchanged =
      st0.stats.filesUnchanged + countUnchanged H p.forceRehash src.changeDetection em
        (walkIncluded src)) ∧
    ((em.foldl (markDeleted p runId)
        (src.walk.foldl (processDir H p runId src em) (st0, fm)).1).stats.filesDeleted =
      st0.stats.filesDeleted + countDeleted em (walkRels src)) ∧
    ((em.foldl (markDeleted p runId)
        (src.walk.foldl (processDir H p runId src em) (st0, fm)).1).stats.errors =
      st0.stats.errors ++ walkErrors src) := by
  have hw := foldl_processDir_class H p runId src em src.walk (st0, fm)
  have hst := foldl_processDir_scanTotal H p runId src em src.walk (st0, fm)
  have hdel := foldl_markDeleted_class p runId em
    (src.walk.foldl (processDir H p runId src em) (st0, fm)).1
  refine ⟨?_, ?_, ?_, ?_, ?_, ?_, ?_, ?_⟩
  · exact hdel.2.2.2.2.2.2.1.trans hst.2.1
  · exact hdel.2.2.2.2.2.2.2.1.trans hst.1
  · rw [hdel.2.1, hw.1, walkIncluded_eq]
  · rw [hdel.2.2.1, hw.2.1, walkIncluded_eq]
  · rw [hdel.2.2.2.1, hw.2.2.1, walkIncluded_eq]
  · rw [hdel.2.2.2.2.1, hw.2.2.2.1, walkIncluded_eq]
  · rw [hdel.1, hst.2.2, hw.2.2.2.2.2, hsp, List.nil_append, walkRels, walkIncluded_eq]
  · rw [hdel.2.2.2.2.2.1, hw.2.2.2.2.1, walkErrors_eq]

theorem processSource_class_char (H : HashFns) (p : Params) (runId : Nat)
    (acc : DB × Stats) (src : SourceCfg) :
    ((processSource H p runId acc src).2.sourcesTotal = acc.2.sourcesTotal) ∧
    ((processSource H p runId acc src).2.sourcesScanned = acc.2.sourcesScanned + 1) ∧
    ((processSource H p runId acc src).2.filesSeen = acc.2.filesSeen +
      (if src.rootExists then (walkIncluded src).length else 0)) ∧
    ((processSource H p runId acc src).2.filesNew = acc.2.filesNew +
      (if src.rootExists then
        countNew H p.forceRehash src.changeDetection (sourceSnapshot acc.1 src.id)
          (walkIncluded src)
       else 0)) ∧
    ((processSource H p runId acc src).2.filesChanged = acc.2.filesChanged +
      (if src.rootExists then
        countChanged H p.forceRehash src.changeDetection (sourceSnapshot acc.1 src.id)
          (walkIncluded src)
       else 0)) ∧
    ((processSource H p runId acc src).2.filesUnchanged = acc.2.filesUnchanged +
      (if src.rootExists then
        countUnchanged H p.forceRehash src.changeDetection (sourceSnapshot acc.1 src.id)
          (walkIncluded src)
       else 0)) ∧
    ((processSource H p runId acc src).2.filesDeleted = acc.2.filesDeleted +
      (if src.rootExists then
        countDeleted (sourceSnapshot acc.1 src.id) (walkRels src) else 0)) ∧
    ((processSource H p runId acc src).2.errors = acc.2.errors ++
      (if src.rootExists then walkErrors src
       else ["Source '" ++ src.name ++ "' root_path not found"])) := by
  rw [processSource]
  dsimp only []
  split
  · rename_i hroot
    have hre : src.rootExists = false := by simpa using hroot
    rw [hre]
    simp
  · rename_i hroot
    have hre : src.rootExists = true := by simpa using hroot
    rw [hre]
    split
    · have hb := sourceBody_class H p runId src (sourceSnapshot acc.1 src.id)
        ⟨(upsertFolder acc.1 src.id "" none 0).1,
          { acc.2 with sourcesScanned := acc.2.sourcesScanned + 1 }, [], 0⟩
        (((acc.1.folders.filter (fun fr => fr.sourceId == src.id)).map
            (fun fr => (fr.relPath, fr.id))) ++ [("", (upsertFolder acc.1 src.id "" none 0).2)])
        rfl
      exact ⟨hb.1, hb.2.1, by rw [hb.2.2.1]; simp, by rw [hb.2.2.2.1]; simp,
        by rw [hb.2.2.2.2.1]; simp, by rw [hb.2.2.2.2.2.1]; simp,
        by rw [hb.2.2.2.2.2.2.1]; simp, by rw [hb.2.2.2.2.2.2.2]; simp⟩
    · have hb := sourceBody_class H p runId src (sourceSnapshot acc.1 src.id)
        ⟨acc.1, { acc.2 with sourcesScanned := acc.2.sourcesScanned + 1 }, [], 0⟩
        ((acc.1.folders.filter (fun fr => fr.sourceId == src.id)).map
            (fun fr => (fr.relPath, fr.id)))
        rfl
      exact ⟨hb.1, hb.2.1, by rw [hb.2.2.1]; simp, by rw [hb.2.2.2.1]; simp,
        by rw [hb.2.2.2.2.1]; simp, by rw [hb.2.2.2.2.2.1]; simp,
        by rw [hb.2.2.2.2.2.2.1]; simp, by rw [hb.2.2.2.2.2.2.2]; simp⟩

theorem foldl_processSource_class (H : HashFns) (p : Params) (runId : Nat) (db0 : DB) :
    ∀ (srcs : List SourceCfg) (acc : DB × Stats),
      FilesWF acc.1 →
      (∀ s ∈ srcs, sourceSnapshot acc.1 s.id = sourceSnapshot db0 s.id) →
      ((srcs.map (fun s => s.id)).Nodup) →
      (((srcs.foldl (processSource H p runId) acc)).2.sourcesTotal =
        acc.2.sourcesTotal) ∧
      (((srcs.foldl (processSource H p runId) acc)).2.sourcesScanned =
        acc.2.sourcesScanned + srcs.length) ∧
      (((srcs.foldl (processSource H p runId) acc)).2.filesSeen =
        acc.2.filesSeen + expSeen srcs) ∧
      (((srcs.foldl (processSource H p runId) acc)).2.filesNew =
        acc.2.filesNew + expNew H p.forceRehash db0 srcs) ∧
      (((srcs.foldl (processSource H p runId) acc)).2.filesChanged =
        acc.2.filesChanged + expChanged H p.forceRehash db0 srcs) ∧
      (((srcs.foldl (processSource H p runId) acc)).2.filesUnchanged =
        acc.2.filesUnchanged + expUnchanged H p.forceRehash db0 srcs) ∧
      (((srcs.foldl (processSource H p runId) acc)).2.filesDeleted =
        acc.2.filesDeleted + expDeleted db0 srcs) ∧
      (((srcs.foldl (processSource H p runId) acc)).2.errors =
        acc.2.errors ++ expErrors srcs) := by
  intro srcs
  induction srcs with
  | nil =>
    intro acc _ _ _
    simp [expSeen, expNew, expChanged, expUnchanged, expDeleted, expErrors]
  | cons s ss ih =>
    intro acc hwf hsnap hnd
    have hstep := processSource_class_char H p runId acc s
    have hctx := processSource_ctx H p runId acc s hwf
    have hsid : ∀ t ∈ ss, ¬(t.id = s.id) := by
      intro t ht he
      rw [List.map_cons, List.nodup_cons] at hnd
      exact hnd.1 (he ▸ List.mem_map_of_mem (fun q => q.id) ht)
    have hsnap2 : ∀ t ∈ ss, sourceSnapshot (processSource H p runId acc s).1 t.id =
        sourceSnapshot db0 t.id := by
      intro t ht
      rw [snapshot_frame_of_filter acc.1 _ t.id (hctx.2 t.id (hsid t ht))]
      exact hsnap t (List.mem_cons_of_mem s ht)
    have hnd2 : (ss.map (fun q => q.id)).Nodup := by
      rw [List.map_cons, List.nodup_cons] at hnd
      exact hnd.2
    have hrest := ih (processSource H p runId acc s) hctx.1 hsnap2 hnd2
    have hs0 := hsnap s (List.mem_cons_self s ss)
    rw [List.foldl_cons]
    refine ⟨?_, ?_, ?_, ?_, ?_, ?_, ?_, ?_⟩
    · rw [hrest.1, hstep.1]
    · rw [hrest.2.1, hstep.2.1, List.length_cons]
      omega
    · rw [hrest.2.2.1, hstep.2.2.1, expSeen]
      omega
    · rw [hrest.2.2.2.1, hstep.2.2.2.1, expNew, hs0]
      omega
    · rw [hrest.2.2.2.2.1, hstep.2.2.2.2.1, expChanged, hs0]
      omega
    · rw [hrest.2.2.2.2.2.1, hstep.2.2.2.2.2.1, expUnchanged, hs0]
      omega
    · rw [hrest.2.2.2.2.2.2.1, hstep.2.2.2.2.2.2.1, expDeleted, hs0]
      omega
    · rw [hrest.2.2.2.2.2.2.2, hstep.2.2.2.2.2.2.2, expErrors, List.append_assoc]

theorem enabledSources_ids_nodup (db : DB) (c : String)
    (h : (db.sources.map (fun s => s.id)).Nodup) :
    ((enabledSources db c).map (fun s => s.id)).Nodup := by
  rw [enabledSources]
  exact List.Nodup.sublist (List.Sublist.map _ (List.filter_sublist _)) h

theorem run_class_char (H : HashFns) (p : Params) (c : String) (db : DB)
    (hwf : FilesWF db)
    (hnd : ((enabledSources db c).map (fun s => s.id)).Nodup) :
    ((runOutcome H p c db).2.sourcesTotal = (enabledSources db c).length) ∧
    ((runOutcome H p c db).2.sourcesScanned = (enabledSources db c).length) ∧
    ((runOutcome H p c db).2.filesSeen = expSeen (enabledSources db c)) ∧
    ((runOutcome H p c db).2.filesNew = expNew H p.forceRehash db (enabledSources db c)) ∧
    ((runOutcome H p c db).2.filesChanged =
      expChanged H p.forceRehash db (enabledSources db c)) ∧
    ((runOutcome H p c db).2.filesUnchanged =
      expUnchanged H p.forceRehash db (enabledSources db c)) ∧
    ((runOutcome H p c db).2.filesDeleted = expDeleted db (enabledSources db c)) ∧
    ((runOutcome H p c db).2.errors = expErrors (enabledSources db c)) := by
  have hwf1 : FilesWF ({ db with
      runs := db.runs ++ [⟨db.nextId, c, "api", "running", none, none⟩],
      nextId := db.nextId + 1 } : DB) := by
    refine ⟨hwf.1, ?_⟩
    intro r hr
    exact lt_of_lt_of_le (hwf.2 r hr) (Nat.le_succ _)
  have h := foldl_processSource_class H p db.nextId db (enabledSources db c)
    ({ db with runs := db.runs ++ [⟨db.nextId, c, "api", "running", none, none⟩],
               nextId := db.nextId + 1 },
      initStats (enabledSources db c).length)
    hwf1 (fun s _ => rfl) hnd
  rw [runOutcome]
  refine ⟨?_, ?_, ?_, ?_, ?_, ?_, ?_, ?_⟩
  · rw [h.1]; rfl
  · rw [h.2.1]; simp [initStats]
  · rw [h.2.2.1]; simp [initStats]
  · rw [h.2.2.2.1]; simp [initStats]
  · rw [h.2.2.2.2.1]; simp [initStats]
  · rw [h.2.2.2.2.2.1]; simp [initStats]
  · rw [h.2.2.2.2.2.2.1]; simp [initStats]
  · rw [h.2.2.2.2.2.2.2]; simp [initStats]

theorem processFile_dry (H : HashFns) (p : Params) (runId : Nat) (src : SourceCfg)
    (em : List FileRec) (fm : List (String × Nat)) (dirRel : String)
    (st : ScanState) (f : FsFile) (hdry : p.dryRun = true) :
    ((processFile H p runId src em fm dirRel st f).db.docs = st.db.docs) ∧
    ((processFile H p runId src em fm dirRel st f).db.chunks = st.db.chunks) ∧
    ((processFile H p runId src em fm dirRel st f).db.runFiles = st.db.runFiles) ∧
    ((processFile H p runId src em fm dirRel st f).stats.filesIngested =
      st.stats.filesIngested) ∧
    ((processFile H p runId src em fm dirRel st f).stats.docsIngested =
      st.stats.docsIngested) ∧
    ((processFile H p runId src em fm dirRel st f).stats.docsSkipped =
      st.stats.docsSkipped) := by
  rw [processFile]
  split
  · exact ⟨rfl, rfl, rfl, rfl, rfl, rfl⟩
  · cases f.stat with
    | none => exact ⟨rfl, rfl, rfl, rfl, rfl, rfl⟩
    | some pstat =>
      dsimp only []
      have hup := upsertFileRow_frame st.db src.id
        (((fm.find? (fun e => e.1 == dirRel)).map Prod.snd).getD
          (((fm.find? (fun e => e.1 == "")).map Prod.snd).getD 0))
        (fileRelPath dirRel f.name) (pathExt f.name) pstat
        (classifyFile H src.changeDetection p.forceRehash
          (em.find? (fun r => r.relPath == fileRelPath dirRel f.name))
          pstat.size pstat.mtime f.content)
        (em.find? (fun r => r.relPath == fileRelPath dirRel f.name))
      have hsc := statCounters_fields { st.stats with filesSeen := st.stats.filesSeen + 1 }
        (classifyFile H src.changeDetection p.forceRehash
          (em.find? (fun r => r.relPath == fileRelPath dirRel f.name))
          pstat.size pstat.mtime f.content)
      have hsd := statCounters_docs { st.stats with filesSeen := st.stats.filesSeen + 1 }
        (classifyFile H src.changeDetection p.forceRehash
          (em.find? (fun r => r.relPath == fileRelPath dirRel f.name))
          pstat.size pstat.mtime f.content)
      split
      · rename_i hguard
        rw [hdry] at hguard
        simp at hguard
      · exact ⟨hup.2.2.2.2.1, hup.2.2.2.2.2.1, hup.2.2.2.2.2.2.1,
          hsc.2.2.1, hsc.2.2.2, hsd.2.1⟩

theorem markDeleted_dry (p : Params) (runId : Nat) (st : ScanState) (prev : FileRec)
    (hdry : p.dryRun = true) :
    (markDeleted p runId st prev).db = st.db := by
  rw [markDeleted]
  dsimp only []
  rw [hdry]
  split_ifs with h1 h2 h3
  · rfl
  · rfl
  · exact absurd rfl h2
  · exact absurd rfl h2

theorem noNewDeleted_refl (l : List FileRec) : NoNewDeleted l l := by
  refine ⟨Nat.le_refl _, ?_⟩
  intro i h2 hdel
  exact ⟨h2, hdel⟩

theorem noNewDeleted_trans {a b c : List FileRec}
    (hab : NoNewDeleted a b) (hbc : NoNewDeleted b c) : NoNewDeleted a c := by
  refine ⟨Nat.le_trans hab.1 hbc.1, ?_⟩
  intro i h2 hdel
  obtain ⟨hb, hdb⟩ := hbc.2 i h2 hdel
  exact hab.2 i hb hdb

theorem noNewDeleted_append (l news : List FileRec)
    (h : ∀ x ∈ news, ¬(x.status = "deleted")) : NoNewDeleted l (l ++ news) := by
  refine ⟨by simp, ?_⟩
  intro i h2 hdel
  by_cases hi : i < l.length
  · refine ⟨hi, ?_⟩
    rw [List.get_eq_getElem] at hdel ⊢
    rw [List.getElem_append_left hi] at hdel
    exact hdel
  · exfalso
    rw [List.get_eq_getElem] at hdel
    rw [List.getElem_append_right (Nat.le_of_not_lt hi)] at hdel
    exact h _ (List.getElem_mem _) hdel

theorem noNewDeleted_map (l : List FileRec) (g : FileRec → FileRec)
    (h : ∀ x, (g x).status = "deleted" → x.status = "deleted") :
    NoNewDeleted l (l.map g) := by
  refine ⟨by simp, ?_⟩
  intro i h2 hdel
  have hi : i < l.length := by simpa using h2
  refine ⟨hi, ?_⟩
  rw [List.get_eq_getElem] at hdel ⊢
  rw [List.getElem_map] at hdel
  exact h _ hdel

theorem upsertFileRow_noDel (db : DB) (sid folderId : Nat) (relPath : String)
    (ext : Option String) (pstat : PyStat) (v : Verdict) (prev : Option FileRec) :
    NoNewDeleted db.files (upsertFileRow db sid folderId relPath ext pstat v prev).1.files := by
  rw [upsertFileRow]
  split
  · refine noNewDeleted_append _ _ ?_
    intro x hx
    simp at hx
    rw [hx]
    intro hc
    simp at hc
  · refine noNewDeleted_map _ _ ?_
    intro x hx
    by_cases hid : (x.id == (prev.map (fun r => r.id)).getD 0) = true
    · rw [if_pos hid] at hx
      simp at hx
    · rw [if_neg hid] at hx
      exact hx

theorem ingestFile_noDel (H : HashFns) (runId : Nat) (c : String) (fid : Nat)
    (n : String) (e : Option String) (cont : String) (st : ScanState) :
    NoNewDeleted st.db.files (ingestFile H runId c fid n e cont st).db.files := by
  obtain ⟨s0, rf2, hfiles, _, _⟩ := ingestFile_db_eq H runId c fid n e cont st
  rw [hfiles]
  refine noNewDeleted_map _ _ ?_
  intro x hx
  by_cases hid : (x.id == fid) = true
  · rw [if_pos hid] at hx
    simpa using hx
  · rw [if_neg hid] at hx
    exact hx

theorem processFile_noDel (H : HashFns) (p : Params) (runId : Nat) (src : SourceCfg)
    (em : List FileRec) (fm : List (String × Nat)) (dirRel : String)
    (st : ScanState) (f : FsFile) :
    NoNewDeleted st.db.files (processFile H p runId src em fm dirRel st f).db.files := by
  rw [processFile]
  split
  · exact noNewDeleted_refl _
  · cases f.stat with
    | none => exact noNewDeleted_refl _
    | some pstat =>
      dsimp only []
      have hup := upsertFileRow_noDel st.db src.id
        (((fm.find? (fun e => e.1 == dirRel)).map Prod.snd).getD
          (((fm.find? (fun e => e.1 == "")).map Prod.snd).getD 0))
        (fileRelPath dirRel f.name) (pathExt f.name) pstat
        (classifyFile H src.changeDetection p.forceRehash
          (em.find? (fun r => r.relPath == fileRelPath dirRel f.name))
          pstat.size pstat.mtime f.content)
        (em.find? (fun r => r.relPath == fileRelPath dirRel f.name))
      split
      · split
        · exact hup
        · exact noNewDeleted_trans hup (ingestFile_noDel H runId src.campaignId
            (upsertFileRow st.db src.id
              (((fm.find? (fun e => e.1 == dirRel)).map Prod.snd).getD
                (((fm.find? (fun e => e.1 == "")).map Prod.snd).getD 0))
              (fileRelPath dirRel f.name) (pathExt f.name) pstat
              (classifyFile H src.changeDetection p.forceRehash
                (em.find? (fun r => r.relPath == fileRelPath dirRel f.name))
                pstat.size pstat.mtime f.content)
              (em.find? (fun r => r.relPath == fileRelPath dirRel f.name))).2
            f.name (pathExt f.name) f.content
            ⟨(upsertFileRow st.db src.id
              (((fm.find? (fun e => e.1 == dirRel)).map Prod.snd).getD
                (((fm.find? (fun e => e.1 == "")).map Prod.snd).getD 0))
              (fileRelPath dirRel f.name) (pathExt f.name) pstat
              (classifyFile H src.changeDetection p.forceRehash
                (em.find? (fun r => r.relPath == fileRelPath dirRel f.name))
                pstat.size pstat.mtime f.content)
              (em.find? (fun r => r.relPath == fileRelPath dirRel f.name))).1,
              statCounters { st.stats with filesSeen := st.stats.filesSeen + 1 }
                (classifyFile H src.changeDetection p.forceRehash
                  (em.find? (fun r => r.relPath == fileRelPath dirRel f.name))
                  pstat.size pstat.mtime f.content),
              st.seenPaths ++ [fileRelPath dirRel f.name], st.filesToIngest⟩)
      · exact hup

theorem foldl_processFile_noDel (H : HashFns) (p : Params) (runId : Nat) (src : SourceCfg)
    (em : List FileRec) (fm : List (String × Nat)) (dirRel : String) :
    ∀ (fs : List FsFile) (st : ScanState),
      NoNewDeleted st.db.files
        ((fs.foldl (processFile H p runId src em fm dirRel) st)).db.files := by
  intro fs
  induction fs with
  | nil => intro st; exact noNewDeleted_refl _
  | cons f fs ih =>
    intro st
    rw [List.foldl_cons]
    exact noNewDeleted_trans (processFile_noDel H p runId src em fm dirRel st f)
      (ih (processFile H p runId src em fm dirRel st f))

theorem processDir_noDel (H : HashFns) (p : Params) (runId : Nat) (src : SourceCfg)
    (em : List FileRec) (acc : ScanState × List (String × Nat)) (d : FsDir) :
    NoNewDeleted acc.1.db.files (processDir H p runId src em acc d).1.db.files := by
  rw [processDir]
  dsimp only []
  split
  · have hfe := upsertFolder_files acc.1.db src.id d.rel
      (some (((acc.2.find? (fun e => e.1 == (if d.rel == "" then "" else pyParentRel d.rel))).map
        Prod.snd).getD (((acc.2.find? (fun e => e.1 == "")).map Prod.snd).getD 0)))
      (if d.rel == "" then 0 else (purePosixParts d.rel).length)
    have hfold := foldl_processFile_noDel H p runId src em
      (acc.2 ++ [(d.rel, (upsertFolder acc.1.db src.id d.rel
        (some (((acc.2.find? (fun e => e.1 == (if d.rel == "" then "" else pyParentRel d.rel))).map
          Prod.snd).getD (((acc.2.find? (fun e => e.1 == "")).map Prod.snd).getD 0)))
        (if d.rel == "" then 0 else (purePosixParts d.rel).length)).2)])
      d.rel d.files
      { acc.1 with db := (upsertFolder acc.1.db src.id d.rel
        (some (((acc.2.find? (fun e => e.1 == (if d.rel == "" then "" else pyParentRel d.rel))).map
          Prod.snd).getD (((acc.2.find? (fun e => e.1 == "")).map Prod.snd).getD 0)))
        (if d.rel == "" then 0 else (purePosixParts d.rel).length)).1 }
    rw [hfe.1] at hfold
    exact hfold
  · exact foldl_processFile_noDel H p runId src em acc.2 d.rel d.files acc.1

theorem foldl_processDir_noDel (H : HashFns) (p : Params) (runId : Nat) (src : SourceCfg)
    (em : List FileRec) :
    ∀ (ds : List FsDir) (acc : ScanState × List (String × Nat)),
      NoNewDeleted acc.1.db.files
        ((ds.foldl (processDir H p runId src em) acc)).1.db.files := by
  intro ds
  induction ds with
  | nil => intro acc; exact noNewDeleted_refl _
  | cons d ds ih =>
    intro acc
    rw [List.foldl_cons]
    exact noNewDeleted_trans (processDir_noDel H p runId src em acc d)
      (ih (processDir H p runId src em acc d))

theorem foldl_markDeleted_dry (p : Params) (runId : Nat) (hdry : p.dryRun = true) :
    ∀ (l : List FileRec) (st : ScanState),
      ((l.foldl (markDeleted p runId) st)).db = st.db := by
  intro l
  induction l with
  | nil => intro st; rfl
  | cons x xs ih =>
    intro st
    rw [List.foldl_cons, ih (markDeleted p runId st x), markDeleted_dry p runId st x hdry]

theorem foldl_processFile_dry (H : HashFns) (p : Params) (runId : Nat) (src : SourceCfg)
    (em : List FileRec) (fm : List (String × Nat)) (dirRel : String)
    (hdry : p.dryRun = true) :
    ∀ (fs : List FsFile) (st : ScanState),
      (((fs.foldl (processFile H p runId src em fm dirRel) st)).db.docs = st.db.docs) ∧
      (((fs.foldl (processFile H p runId src em fm dirRel) st)).db.chunks =
        st.db.chunks) ∧
      (((fs.foldl (processFile H p runId src em fm dirRel) st)).db.runFiles =
        st.db.runFiles) ∧
      (((fs.foldl (processFile H p runId src em fm dirRel) st)).stats.filesIngested =
        st.stats.filesIngested) ∧
      (((fs.foldl (processFile H p runId src em fm dirRel) st)).stats.docsIngested =
        st.stats.docsIngested) ∧
      (((fs.foldl (processFile H p runId src em fm dirRel) st)).stats.docsSkipped =
        st.stats.docsSkipped) := by
  intro fs
  induction fs with
  | nil => intro st; exact ⟨rfl, rfl, rfl, rfl, rfl, rfl⟩
  | cons f fs ih =>
    intro st
    have hstep := processFile_dry H p runId src em fm dirRel st f hdry
    have hrest := ih (processFile H p runId src em fm dirRel st f)
    rw [List.foldl_cons]
    exact ⟨hrest.1.trans hstep.1, hrest.2.1.trans hstep.2.1,
      hrest.2.2.1.trans hstep.2.2.1, hrest.2.2.2.1.trans hstep.2.2.2.1,
      hrest.2.2.2.2.1.trans hstep.2.2.2.2.1, hrest.2.2.2.2.2.trans hstep.2.2.2.2.2⟩

theorem processDir_dry (H : HashFns) (p : Params) (runId : Nat) (src : SourceCfg)
    (em : List FileRec) (acc : ScanState × List (String × Nat)) (d : FsDir)
    (hdry : p.dryRun = true) :
    ((processDir H p runId src em acc d).1.db.docs = acc.1.db.docs) ∧
    ((processDir H p runId src em acc d).1.db.chunks = acc.1.db.chunks) ∧
    ((processDir H p runId src em acc d).1.db.runFiles = acc.1.db.runFiles) ∧
    ((processDir H p runId src em acc d).1.stats.filesIngested =
      acc.1.stats.filesIngested) ∧
    ((processDir H p runId src em acc d).1.stats.docsIngested =
      acc.1.stats.docsIngested) ∧
    ((processDir H p runId src em acc d).1.stats.docsSkipped =
      acc.1.stats.docsSkipped) := by
  rw [processDir]
  dsimp only []
  split
  · have hfo := upsertFolder_frame acc.1.db src.id d.rel
      (some (((acc.2.find? (fun e => e.1 == (if d.rel == "" then "" else pyParentRel d.rel))).map
        Prod.snd).getD (((acc.2.find? (fun e => e.1 == "")).map Prod.snd).getD 0)))
      (if d.rel == "" then 0 else (purePosixParts d.rel).length)
    have hfold := foldl_processFile_dry H p runId src em
      (acc.2 ++ [(d.rel, (upsertFolder acc.1.db src.id d.rel
        (some (((acc.2.find? (fun e => e.1 == (if d.rel == "" then "" else pyParentRel d.rel))).map
          Prod.snd).getD (((acc.2.find? (fun e => e.1 == "")).map Prod.snd).getD 0)))
        (if d.rel == "" then 0 else (purePosixParts d.rel).length)).2)])
      d.rel hdry d.files
      { acc.1 with db := (upsertFolder acc.1.db src.id d.rel
        (some (((acc.2.find? (fun e => e.1 == (if d.rel == "" then "" else pyParentRel d.rel))).map
          Prod.snd).getD (((acc.2.find? (fun e => e.1 == "")).map Prod.snd).getD 0)))
        (if d.rel == "" then 0 else (purePosixParts d.rel).length)).1 }
    exact ⟨hfold.1.trans hfo.2.2.2.2.1, hfold.2.1.trans hfo.2.2.2.2.2.1,
      hfold.2.2.1.trans hfo.2.2.2.2.2.2.1, hfold.2.2.2.1, hfold.2.2.2.2.1,
      hfold.2.2.2.2.2⟩
  · exact foldl_processFile_dry H p runId src em acc.2 d.rel hdry d.files acc.1

theorem foldl_processDir_dry (H : HashFns) (p : Params) (runId : Nat) (src : SourceCfg)
    (em : List FileRec) (hdry : p.dryRun = true) :
    ∀ (ds : List FsDir) (acc : ScanState × List (String × Nat)),
      (((ds.foldl (processDir H p runId src em) acc)).1.db.docs = acc.1.db.docs) ∧
      (((ds.foldl (processDir H p runId src em) acc)).1.db.chunks = acc.1.db.chunks) ∧
      (((ds.foldl (processDir H p runId src em) acc)).1.db.runFiles =
        acc.1.db.runFiles) ∧
      (((ds.foldl (processDir H p runId src em) acc)).1.stats.filesIngested =
        acc.1.stats.filesIngested) ∧
      (((ds.foldl (processDir H p runId src em) acc)).1.stats.docsIngested =
        acc.1.stats.docsIngested) ∧
      (((ds.foldl (processDir H p runId src em) acc)).1.stats.docsSkipped =
        acc.1.stats.docsSkipped) := by
  intro ds
  induction ds with
  | nil => intro acc; exact ⟨rfl, rfl, rfl, rfl, rfl, rfl⟩
  | cons d ds ih =>
    intro acc
    have hstep := processDir_dry H p runId src em acc d hdry
    have hrest := ih (processDir H p runId src em acc d)
    rw [List.foldl_cons]
    exact ⟨hrest.1.trans hstep.1, hrest.2.1.trans hstep.2.1,
      hrest.2.2.1.trans hstep.2.2.1, hrest.2.2.2.1.trans hstep.2.2.2.1,
      hrest.2.2.2.2.1.trans hstep.2.2.2.2.1, hrest.2.2.2.2.2.trans hstep.2.2.2.2.2⟩

theorem markDeleted_ingest (p : Params) (runId : Nat) (st : ScanState) (prev : FileRec) :
    ((markDeleted p runId st prev).stats.filesIngested = st.stats.filesIngested) ∧
    ((markDeleted p runId st prev).stats.docsIngested = st.stats.docsIngested) ∧
    ((markDeleted p runId st prev).stats.docsSkipped = st.stats.docsSkipped) := by
  rw [markDeleted]
  dsimp only []
  split_ifs <;> exact ⟨rfl, rfl, rfl⟩

theorem foldl_markDeleted_ingest (p : Params) (runId : Nat) :
    ∀ (l : List FileRec) (st : ScanState),
      (((l.foldl (markDeleted p runId) st)).stats.filesIngested =
        st.stats.filesIngested) ∧
      (((l.foldl (markDeleted p runId) st)).stats.docsIngested =
        st.stats.docsIngested) ∧
      (((l.foldl (markDeleted p runId) st)).stats.docsSkipped =
        st.stats.docsSkipped) := by
  intro l
  induction l with
  | nil => intro st; exact ⟨rfl, rfl, rfl⟩
  | cons x xs ih =>
    intro st
    have hstep := markDeleted_ingest p runId st x
    have hrest := ih (markDeleted p runId st x)
    rw [List.foldl_cons]
    exact ⟨hrest.1.trans hstep.1, hrest.2.1.trans hstep.2.1, hrest.2.2.trans hstep.2.2⟩

theorem processSource_dry (H : HashFns) (p : Params) (runId : Nat) (acc : DB × Stats)
    (src : SourceCfg) (hdry : p.dryRun = true) :
    ((processSource H p runId acc src).1.docs = acc.1.docs) ∧
    ((processSource H p runId acc src).1.chunks = acc.1.chunks) ∧
    ((processSource H p runId acc src).1.runFiles = acc.1.runFiles) ∧
    NoNewDeleted acc.1.files (processSource H p runId acc src).1.files ∧
    ((processSource H p runId acc src).2.filesIngested = acc.2.filesIngested) ∧
    ((processSource H p runId acc src).2.docsIngested = acc.2.docsIngested) ∧
    ((processSource H p runId acc src).2.docsSkipped = acc.2.docsSkipped) := by
  rw [processSource]
  dsimp only []
  split
  · exact ⟨rfl, rfl, rfl, noNewDeleted_refl _, rfl, rfl, rfl⟩
  · split
    · have hfo := upsertFolder_frame acc.1 src.id "" none 0
      have hfe := upsertFolder_files acc.1 src.id "" none 0
      have hwalkdb := foldl_processDir_dry H p runId src (sourceSnapshot acc.1 src.id) hdry
        src.walk
        (⟨(upsertFolder acc.1 src.id "" none 0).1,
          { acc.2 with sourcesScanned := acc.2.sourcesScanned + 1 }, [], 0⟩,
         ((acc.1.folders.filter (fun fr => fr.sourceId == src.id)).map
            (fun fr => (fr.relPath, fr.id))) ++ [("", (upsertFolder acc.1 src.id "" none 0).2)])
      have hwalknd := foldl_processDir_noDel H p runId src (sourceSnapshot acc.1 src.id)
        src.walk
        (⟨(upsertFolder acc.1 src.id "" none 0).1,
          { acc.2 with sourcesScanned := acc.2.sourcesScanned + 1 }, [], 0⟩,
         ((acc.1.folders.filter (fun fr => fr.sourceId == src.id)).map
            (fun fr => (fr.relPath, fr.id))) ++ [("", (upsertFolder acc.1 src.id "" none 0).2)])
      have hdeldb := foldl_markDeleted_dry p runId hdry (sourceSnapshot acc.1 src.id)
        (src.walk.foldl (processDir H p runId src (sourceSnapshot acc.1 src.id))
          (⟨(upsertFolder acc.1 src.id "" none 0).1,
            { acc.2 with sourcesScanned := acc.2.sourcesScanned + 1 }, [], 0⟩,
           ((acc.1.folders.filter (fun fr => fr.sourceId == src.id)).map
              (fun fr => (fr.relPath, fr.id))) ++
            [("", (upsertFolder acc.1 src.id "" none 0).2)])).1
      have hdeling := foldl_markDeleted_ingest p runId (sourceSnapshot acc.1 src.id)
        (src.walk.foldl (processDir H p runId src (sourceSnapshot acc.1 src.id))
          (⟨(upsertFolder acc.1 src.id "" none 0).1,
            { acc.2 with sourcesScanned := acc.2.sourcesScanned + 1 }, [], 0⟩,
           ((acc.1.folders.filter (fun fr => fr.sourceId == src.id)).map
              (fun fr => (fr.relPath, fr.id))) ++
            [("", (upsertFolder acc.1 src.id "" none 0).2)])).1
      refine ⟨?_, ?_, ?_, ?_, ?_, ?_, ?_⟩
      · rw [hdeldb, hwalkdb.1, hfo.2.2.2.2.1]
      · rw [hdeldb, hwalkdb.2.1, hfo.2.2.2.2.2.1]
      · rw [hdeldb, hwalkdb.2.2.1, hfo.2.2.2.2.2.2.1]
      · rw [hdeldb]
        rw [hfe.1] at hwalknd
        exact hwalknd
      · rw [hdeling.1, hwalkdb.2.2.2.1]
      · rw [hdeling.2.1, hwalkdb.2.2.2.2.1]
      · rw [hdeling.2.2, hwalkdb.2.2.2.2.2]
    · have hwalkdb := foldl_processDir_dry H p runId src (sourceSnapshot acc.1 src.id) hdry
        src.walk
        (⟨acc.1, { acc.2 with sourcesScanned := acc.2.sourcesScanned + 1 }, [], 0⟩,
         (acc.1.folders.filter (fun fr => fr.sourceId == src.id)).map
            (fun fr => (fr.relPath, fr.id)))
      have hwalknd := foldl_processDir_noDel H p runId src (sourceSnapshot acc.1 src.id)
        src.walk
        (⟨acc.1, { acc.2 with sourcesScanned := acc.2.sourcesScanned + 1 }, [], 0⟩,
         (acc.1.folders.filter (fun fr => fr.sourceId == src.id)).map
            (fun fr => (fr.relPath, fr.id)))
      have hdeldb := foldl_markDeleted_dry p runId hdry (sourceSnapshot acc.1 src.id)
        (src.walk.foldl (processDir H p runId src (sourceSnapshot acc.1 src.id))
          (⟨acc.1, { acc.2 with sourcesScanned := acc.2.sourcesScanned + 1 }, [], 0⟩,
           (acc.1.folders.filter (fun fr => fr.sourceId == src.id)).map
              (fun fr => (fr.relPath, fr.id)))).1
      have hdeling := foldl_markDeleted_ingest p runId (sourceSnapshot acc.1 src.id)
        (src.walk.foldl (processDir H p runId src (sourceSnapshot acc.1 src.id))
          (⟨acc.1, { acc.2 with sourcesScanned := acc.2.sourcesScanned + 1 }, [], 0⟩,
           (acc.1.folders.filter (fun fr => fr.sourceId == src.id)).map
              (fun fr => (fr.relPath, fr.id)))).1
      refine ⟨?_, ?_, ?_, ?_, ?_, ?_, ?_⟩
      · rw [hdeldb, hwalkdb.1]
      · rw [hdeldb, hwalkdb.2.1]
      · rw [hdeldb, hwalkdb.2.2.1]
      · rw [hdeldb]
        exact hwalknd
      · rw [hdeling.1, hwalkdb.2.2.2.1]
      · rw [hdeling.2.1, hwalkdb.2.2.2.2.1]
      · rw [hdeling.2.2, hwalkdb.2.2.2.2.2]

theorem foldl_processSource_dry (H : HashFns) (p : Params) (runId : Nat)
    (hdry : p.dryRun = true) :
    ∀ (srcs : List SourceCfg) (acc : DB × Stats),
      (((srcs.foldl (processSource H p runId) acc)).1.docs = acc.1.docs) ∧
      (((srcs.foldl (processSource H p runId) acc)).1.chunks = acc.1.chunks) ∧
      (((srcs.foldl (processSource H p runId) acc)).1.runFiles = acc.1.runFiles) ∧
      NoNewDeleted acc.1.files ((srcs.foldl (processSource H p runId) acc)).1.files ∧
      (((srcs.foldl (processSource H p runId) acc)).2.filesIngested =
        acc.2.filesIngested) ∧
      (((srcs.foldl (processSource H p runId) acc)).2.docsIngested =
        acc.2.docsIngested) ∧
      (((srcs.foldl (processSource H p runId) acc)).2.docsSkipped =
        acc.2.docsSkipped) := by
  intro srcs
  induction srcs with
  | nil => intro acc; exact ⟨rfl, rfl, rfl, noNewDeleted_refl _, rfl, rfl, rfl⟩
  | cons s ss ih =>
    intro acc
    have hstep := processSource_dry H p runId acc s hdry
    have hrest := ih (processSource H p runId acc s)
    rw [List.foldl_cons]
    exact ⟨hrest.1.trans hstep.1, hrest.2.1.trans hstep.2.1,
      hrest.2.2.1.trans hstep.2.2.1,
      noNewDeleted_trans hstep.2.2.2.1 hrest.2.2.2.1,
      hrest.2.2.2.2.1.trans hstep.2.2.2.2.1,
      hrest.2.2.2.2.2.1.trans hstep.2.2.2.2.2.1,
      hrest.2.2.2.2.2.2.trans hstep.2.2.2.2.2.2⟩

theorem runOutcome_dry (H : HashFns) (p : Params) (c : String) (db : DB)
    (hdry : p.dryRun = true) :
    ((runOutcome H p c db).1.docs = db.docs) ∧
    ((runOutcome H p c db).1.chunks = db.chunks) ∧
    ((runOutcome H p c db).1.runFiles = db.runFiles) ∧
    NoNewDeleted db.files (runOutcome H p c db).1.files ∧
    ((runOutcome H p c db).2.filesIngested = 0) ∧
    ((runOutcome H p c db).2.docsIngested = 0) ∧
    ((runOutcome H p c db).2.docsSkipped = 0) := by
  rw [runOutcome]
  exact foldl_processSource_dry H p db.nextId hdry (enabledSources db c)
    ({ db with runs := db.runs ++ [⟨db.nextId, c, "api", "running", none, none⟩],
               nextId := db.nextId + 1 },
      initStats (enabledSources db c).length)

/-- C1 (amended): a dry run on a known project persists no Document,
Fragment or Run-File write, never flips a surviving File row to `deleted`,
reports all ingest counters as zero, and its classification counters
(sources/files seen, new, changed, unchanged, deleted, errors) are exactly
those of the equivalent live run; File and Folder rows, however, are still
written (see the counterexample). -/
theorem C1_dry_run_report (H : HashFns) (c : String) (p : Params) (db : DB)
    (hdry : p.dryRun = true) (hwf : WF db) :
    ((update_campaign_kb H c p db).1.docs = db.docs) ∧
    ((update_campaign_kb H c p db).1.chunks = db.chunks) ∧
    ((update_campaign_kb H c p db).1.runFiles = db.runFiles) ∧
    NoNewDeleted db.files (update_campaign_kb H c p db).1.files ∧
    (∀ res res',
      (update_campaign_kb H c p db).2 = Except.ok res →
      (update_campaign_kb H c ⟨false, p.forceRehash, p.maxFiles⟩ db).2 = Except.ok res' →
      (res.stats.sourcesTotal = res'.stats.sourcesTotal) ∧
      (res.stats.sourcesScanned = res'.stats.sourcesScanned) ∧
      (res.stats.filesSeen = res'.stats.filesSeen) ∧
      (res.stats.filesNew = res'.stats.filesNew) ∧
      (res.stats.filesChanged = res'.stats.filesChanged) ∧
      (res.stats.filesUnchanged = res'.stats.filesUnchanged) ∧
      (res.stats.filesDeleted = res'.stats.filesDeleted) ∧
      (res.stats.errors = res'.stats.errors) ∧
      (res.stats.filesIngested = 0) ∧
      (res.stats.docsIngested = 0) ∧
      (res.stats.docsSkipped = 0)) := by
  by_cases hc : db.campaigns.contains c = true
  · have hfound := update_campaign_kb_found H p db c hc
    have hdryrun := runOutcome_dry H p c db hdry
    refine ⟨?_, ?_, ?_, ?_, ?_⟩
    · rw [hfound]
      exact hdryrun.1
    · rw [hfound]
      exact hdryrun.2.1
    · rw [hfound]
      exact hdryrun.2.2.1
    · rw [hfound]
      exact hdryrun.2.2.2.1
    · intro res res' hres hres'
      have hfound' := update_campaign_kb_found H ⟨false, p.forceRehash, p.maxFiles⟩ db c hc
      rw [hfound] at hres
      rw [hfound'] at hres'
      simp only [Except.ok.injEq] at hres hres'
      have hstats : res.stats = (runOutcome H p c db).2 := by rw [← hres]
      have hstats' : res'.stats =
          (runOutcome H ⟨false, p.forceRehash, p.maxFiles⟩ c db).2 := by rw [← hres']
      have hchar := run_class_char H p c db ⟨hwf.1, hwf.2.1⟩
        (enabledSources_ids_nodup db c hwf.2.2.2)
      have hchar' := run_class_char H ⟨false, p.forceRehash, p.maxFiles⟩ c db
        ⟨hwf.1, hwf.2.1⟩ (enabledSources_ids_nodup db c hwf.2.2.2)
      rw [hstats, hstats']
      exact ⟨hchar.1.trans hchar'.1.symm, hchar.2.1.trans hchar'.2.1.symm,
        hchar.2.2.1.trans hchar'.2.2.1.symm, hchar.2.2.2.1.trans hchar'.2.2.2.1.symm,
        hchar.2.2.2.2.1.trans hchar'.2.2.2.2.1.symm,
        hchar.2.2.2.2.2.1.trans hchar'.2.2.2.2.2.1.symm,
        hchar.2.2.2.2.2.2.1.trans hchar'.2.2.2.2.2.2.1.symm,
        hchar.2.2.2.2.2.2.2.trans hchar'.2.2.2.2.2.2.2.symm,
        hdryrun.2.2.2.2.1, hdryrun.2.2.2.2.2.1, hdryrun.2.2.2.2.2.2⟩
  · have hcf : db.campaigns.contains c = false := by
      cases h : db.campaigns.contains c
      · rfl
      · exact absurd h hc
    have heq : update_campaign_kb H c p db = (db, Except.error "Campaign not found.") := by
      rw [update_campaign_kb, hcf]
      rfl
    refine ⟨?_, ?_, ?_, ?_, ?_⟩
    · rw [heq]
    · rw [heq]
    · rw [heq]
    · rw [heq]
      exact noNewDeleted_refl _
    · intro res res' hres _
      rw [heq] at hres
      exact absurd hres (by simp)

/-- C1 counterexample: with `dry_run=True` the engine still INSERTs the
walked files as File rows (lines 299–333 run before any dry-run check), so
the store's File table does change. -/
theorem C1_dry_run_counterexample :
    ¬((update_campaign_kb sampleHash "camp" ⟨true, false, none⟩ dbTwoFiles).1.files =
      dbTwoFiles.files) := by decide

theorem C1_dry_run_witness :
    WF dbTwoFiles ∧
    (((update_campaign_kb sampleHash "camp" ⟨true, false, none⟩ dbTwoFiles).1.docs =
        dbTwoFiles.docs) ∧
      ((update_campaign_kb sampleHash "camp" ⟨true, false, none⟩ dbTwoFiles).1.chunks =
        dbTwoFiles.chunks) ∧
      ((update_campaign_kb sampleHash "camp" ⟨true, false, none⟩ dbTwoFiles).1.runFiles =
        dbTwoFiles.runFiles) ∧
      NoNewDeleted dbTwoFiles.files
        (update_campaign_kb sampleHash "camp" ⟨true, false, none⟩ dbTwoFiles).1.files ∧
      (∀ res res',
        (update_campaign_kb sampleHash "camp" ⟨true, false, none⟩ dbTwoFiles).2 =
          Except.ok res →
        (update_campaign_kb sampleHash "camp" ⟨false, false, none⟩ dbTwoFiles).2 =
          Except.ok res' →
        (res.stats.sourcesTotal = res'.stats.sourcesTotal) ∧
        (res.stats.sourcesScanned = res'.stats.sourcesScanned) ∧
        (res.stats.filesSeen = res'.stats.filesSeen) ∧
        (res.stats.filesNew = res'.stats.filesNew) ∧
        (res.stats.filesChanged = res'.stats.filesChanged) ∧
        (res.stats.filesUnchanged = res'.stats.filesUnchanged) ∧
        (res.stats.filesDeleted = res'.stats.filesDeleted) ∧
        (res.stats.errors = res'.stats.errors) ∧
        (res.stats.filesIngested = 0) ∧
        (res.stats.docsIngested = 0) ∧
        (res.stats.docsSkipped = 0))) :=
  ⟨by rw [WF]; decide, C1_dry_run_report sampleHash "camp" ⟨true, false, none⟩
    dbTwoFiles rfl (by rw [WF]; decide)⟩

theorem classify_not_new_not_changed (H : HashFns) (mode : String) (force : Bool)
    (pr : FileRec) (size mtime : Int) (content : String)
    (hsz : pr.sizeBytes = size) (hmt : pr.mtimeEpoch = mtime) :
    ((classifyFile H mode force (some pr) size mtime content).isNew = false) ∧
    ((classifyFile H mode force (some pr) size mtime content).changed = false) := by
  rw [classifyFile_eq]
  have hmc : metaChanged (some pr) size mtime = false := by
    rw [metaChanged]
    simp [hsz, hmt]
  split
  · refine ⟨rfl, ?_⟩
    show (match some pr with
      | some pr => if pr.sha256 == some (H.fileHash content) then false
                   else metaChanged (some pr) size mtime
      | none => metaChanged (some pr) size mtime) = false
    by_cases hh : (pr.sha256 == some (H.fileHash content)) = true
    · simp [hh]
    · simp [hh, hmc]
  · exact ⟨rfl, hmc⟩

theorem countNew_zero_of_found (H : HashFns) (force : Bool) (mode : String)
    (snap : List FileRec) :
    ∀ (l : List WalkEntry),
      (∀ e ∈ l, ∃ r, snap.find? (fun x => x.relPath == e.rel) = some r ∧
        r.sizeBytes = e.pstat.size ∧ r.mtimeEpoch = e.pstat.mtime) →
      countNew H force mode snap l = 0 ∧ countChanged H force mode snap l = 0 := by
  intro l
  induction l with
  | nil => intro _; exact ⟨rfl, rfl⟩
  | cons e es ih =>
    intro h
    obtain ⟨r, hfind, hsz, hmt⟩ := h e (List.mem_cons_self e es)
    have hcl := classify_not_new_not_changed H mode force r e.pstat.size e.pstat.mtime
      e.content hsz hmt
    have hv : classifySnap H force mode snap e =
        classifyFile H mode force (some r) e.pstat.size e.pstat.mtime e.content := by
      rw [classifySnap, hfind]
    have hrest := ih (fun x hx => h x (List.mem_cons_of_mem e hx))
    rw [countNew, countChanged, hv, hcl.1, hcl.2, hrest.1, hrest.2]
    simp

theorem expNew_zero (H : HashFns) (force : Bool) (db : DB) :
    ∀ (srcs : List SourceCfg),
      (∀ s ∈ srcs, s.rootExists = true → SnapMatches db s) →
      expNew H force db srcs = 0 ∧ expChanged H force db srcs = 0 := by
  intro srcs
  induction srcs with
  | nil => intro _; exact ⟨rfl, rfl⟩
  | cons s ss ih =>
    intro h
    have hrest := ih (fun t ht hr => h t (List.mem_cons_of_mem s ht) hr)
    rw [expNew, expChanged, hrest.1, hrest.2]
    by_cases hr : s.rootExists = true
    · have hz := countNew_zero_of_found H force s.changeDetection
        (sourceSnapshot db s.id) (walkIncluded s)
        (fun e he => h s (List.mem_cons_self s ss) hr e he)
      rw [if_pos hr, if_pos hr, hz.1, hz.2]
      exact ⟨rfl, rfl⟩
    · rw [if_neg hr, if_neg hr]
      exact ⟨rfl, rfl⟩

theorem processFile_snapKeep (H : HashFns) (p : Params) (runId : Nat) (src : SourceCfg)
    (em : List FileRec) (fm : List (String × Nat)) (dirRel : String)
    (st : ScanState) (f : FsFile)
    (hsnap : ∀ e, entryOf src dirRel f = some e →
      ∃ r, em.find? (fun x => x.relPath == e.rel) = some r ∧
        r.sizeBytes = e.pstat.size ∧ r.mtimeEpoch = e.pstat.mtime) :
    ((processFile H p runId src em fm dirRel st f).db.docs = st.db.docs) ∧
    ((processFile H p runId src em fm dirRel st f).db.chunks = st.db.chunks) ∧
    ((processFile H p runId src em fm dirRel st f).stats.docsIngested =
      st.stats.docsIngested) ∧
    ((processFile H p runId src em fm dirRel st f).stats.docsSkipped =
      st.stats.docsSkipped) := by
  by_cases hinc : _should_include (fileRelPath dirRel f.name) src.includeGlobs
      src.excludeGlobs = true
  · have hnot : ¬((!(_should_include (fileRelPath dirRel f.name) src.includeGlobs
        src.excludeGlobs)) = true) := by simp [hinc]
    rw [processFile, if_neg hnot]
    cases hstat : f.stat with
    | none => exact ⟨rfl, rfl, rfl, rfl⟩
    | some pstat =>
      dsimp only []
      obtain ⟨r, hfind, hsz, hmt⟩ := hsnap ⟨fileRelPath dirRel f.name, pstat, f.content⟩
        (by rw [entryOf, if_pos hinc, hstat]; rfl)
      have hcl := classify_not_new_not_changed H src.changeDetection p.forceRehash r
        pstat.size pstat.mtime f.content hsz hmt
      have hup := upsertFileRow_frame st.db src.id
        (((fm.find? (fun e => e.1 == dirRel)).map Prod.snd).getD
          (((fm.find? (fun e => e.1 == "")).map Prod.snd).getD 0))
        (fileRelPath dirRel f.name) (pathExt f.name) pstat
        (classifyFile H src.changeDetection p.forceRehash
          (em.find? (fun r => r.relPath == fileRelPath dirRel f.name))
          pstat.size pstat.mtime f.content)
        (em.find? (fun r => r.relPath == fileRelPath dirRel f.name))
      have hsd := statCounters_docs { st.stats with filesSeen := st.stats.filesSeen + 1 }
        (classifyFile H src.changeDetection p.forceRehash
          (em.find? (fun r => r.relPath == fileRelPath dirRel f.name))
          pstat.size pstat.mtime f.content)
      split
      · rename_i hguard
        rw [hfind] at hguard
        rw [hcl.1, hcl.2] at hguard
        simp at hguard
      · exact ⟨hup.2.2.2.2.1, hup.2.2.2.2.2.1, hsd.1, hsd.2.1⟩
  · have hnot : ((!(_should_include (fileRelPath dirRel f.name) src.includeGlobs
        src.excludeGlobs)) = true) := by simpa using hinc
    rw [processFile, if_pos hnot]
    exact ⟨rfl, rfl, rfl, rfl⟩

theorem foldl_processFile_snapKeep (H : HashFns) (p : Params) (runId : Nat)
    (src : SourceCfg) (em : List FileRec) (fm : List (String × Nat)) (dirRel : String) :
    ∀ (fs : List FsFile) (st : ScanState),
      (∀ f ∈ fs, ∀ e, entryOf src dirRel f = some e →
        ∃ r, em.find? (fun x => x.relPath == e.rel) = some r ∧
          r.sizeBytes = e.pstat.size ∧ r.mtimeEpoch = e.pstat.mtime) →
      (((fs.foldl (processFile H p runId src em fm dirRel) st)).db.docs = st.db.docs) ∧
      (((fs.foldl (processFile H p runId src em fm dirRel) st)).db.chunks =
        st.db.chunks) ∧
      (((fs.foldl (processFile H p runId src em fm dirRel) st)).stats.docsIngested =
        st.stats.docsIngested) ∧
      (((fs.foldl (processFile H p runId src em fm dirRel) st)).stats.docsSkipped =
        st.stats.docsSkipped) := by
  intro fs
  induction fs with
  | nil => intro st _; exact ⟨rfl, rfl, rfl, rfl⟩
  | cons f fs ih =>
    intro st h
    have hstep := processFile_snapKeep H p runId src em fm dirRel st f
      (h f (List.mem_cons_self f fs))
    have hrest := ih (processFile H p runId src em fm dirRel st f)
      (fun g hg => h g (List.mem_cons_of_mem f hg))
    rw [List.foldl_cons]
    exact ⟨hrest.1.trans hstep.1, hrest.2.1.trans hstep.2.1,
      hrest.2.2.1.trans hstep.2.2.1, hrest.2.2.2.trans hstep.2.2.2⟩

theorem processDir_snapKeep (H : HashFns) (p : Params) (runId : Nat) (src : SourceCfg)
    (em : List FileRec) (acc : ScanState × List (String × Nat)) (d : FsDir)
    (h : ∀ f ∈ d.files, ∀ e, entryOf src d.rel f = some e →
      ∃ r, em.find? (fun x => x.relPath == e.rel) = some r ∧
        r.sizeBytes = e.pstat.size ∧ r.mtimeEpoch = e.pstat.mtime) :
    ((processDir H p runId src em acc d).1.db.docs = acc.1.db.docs) ∧
    ((processDir H p runId src em acc d).1.db.chunks = acc.1.db.chunks) ∧
    ((processDir H p runId src em acc d).1.stats.docsIngested =
      acc.1.stats.docsIngested) ∧
    ((processDir H p runId src em acc d).1.stats.docsSkipped =
      acc.1.stats.docsSkipped) := by
  rw [processDir]
  dsimp only []
  split
  · have hfo := upsertFolder_frame acc.1.db src.id d.rel
      (some (((acc.2.find? (fun e => e.1 == (if d.rel == "" then "" else pyParentRel d.rel))).map
        Prod.snd).getD (((acc.2.find? (fun e => e.1 == "")).map Prod.snd).getD 0)))
      (if d.rel == "" then 0 else (purePosixParts d.rel).length)
    have hfold := foldl_processFile_snapKeep H p runId src em
      (acc.2 ++ [(d.rel, (upsertFolder acc.1.db src.id d.rel
        (some (((acc.2.find? (fun e => e.1 == (if d.rel == "" then "" else pyParentRel d.rel))).map
          Prod.snd).getD (((acc.2.find? (fun e => e.1 == "")).map Prod.snd).getD 0)))
        (if d.rel == "" then 0 else (purePosixParts d.rel).length)).2)])
      d.rel d.files
      { acc.1 with db := (upsertFolder acc.1.db src.id d.rel
        (some (((acc.2.find? (fun e => e.1 == (if d.rel == "" then "" else pyParentRel d.rel))).map
          Prod.snd).getD (((acc.2.find? (fun e => e.1 == "")).map Prod.snd).getD 0)))
        (if d.rel == "" then 0 else (purePosixParts d.rel).length)).1 }
      h
    exact ⟨hfold.1.trans hfo.2.2.2.2.1, hfold.2.1.trans hfo.2.2.2.2.2.1,
      hfold.2.2.1, hfold.2.2.2⟩
  · exact foldl_processFile_snapKeep H p runId src em acc.2 d.rel d.files acc.1 h

theorem foldl_processDir_snapKeep (H : HashFns) (p : Params) (runId : Nat)
    (src : SourceCfg) (em : List FileRec) :
    ∀ (ds : List FsDir) (acc : ScanState × List (String × Nat)),
      (∀ d ∈ ds, ∀ f ∈ d.files, ∀ e, entryOf src d.rel f = some e →
        ∃ r, em.find? (fun x => x.relPath == e.rel) = some r ∧
          r.sizeBytes = e.pstat.size ∧ r.mtimeEpoch = e.pstat.mtime) →
      (((ds.foldl (processDir H p runId src em) acc)).1.db.docs = acc.1.db.docs) ∧
      (((ds.foldl (processDir H p runId src em) acc)).1.db.chunks = acc.1.db.chunks) ∧
      (((ds.foldl (processDir H p runId src em) acc)).1.stats.docsIngested =
        acc.1.stats.docsIngested) ∧
      (((ds.foldl (processDir H p runId src em) acc)).1.stats.docsSkipped =
        acc.1.stats.docsSkipped) := by
  intro ds
  induction ds with
  | nil => intro acc _; exact ⟨rfl, rfl, rfl, rfl⟩
  | cons d ds ih =>
    intro acc h
    have hstep := processDir_snapKeep H p runId src em acc d
      (h d (List.mem_cons_self d ds))
    have hrest := ih (processDir H p runId src em acc d)
      (fun t ht => h t (List.mem_cons_of_mem d ht))
    rw [List.foldl_cons]
    exact ⟨hrest.1.trans hstep.1, hrest.2.1.trans hstep.2.1,
      hrest.2.2.1.trans hstep.2.2.1, hrest.2.2.2.trans hstep.2.2.2⟩

theorem entryOf_mem_walkIncluded (src : SourceCfg) (d : FsDir) (f : FsFile)
    (e : WalkEntry) (hd : d ∈ src.walk) (hf : f ∈ d.files)
    (he : entryOf src d.rel f = some e) : e ∈ walkIncluded src := by
  rw [walkIncluded_eq]
  exact List.mem_flatMap.mpr ⟨d, hd, List.mem_filterMap.mpr ⟨f, hf, he⟩⟩

theorem processSource_snapKeep (H : HashFns) (p : Params) (runId : Nat)
    (acc : DB × Stats) (src : SourceCfg)
    (hsm : src.rootExists = true → SnapMatches acc.1 src) :
    ((processSource H p runId acc src).1.docs = acc.1.docs) ∧
    ((processSource H p runId acc src).1.chunks = acc.1.chunks) ∧
    ((processSource H p runId acc src).2.docsIngested = acc.2.docsIngested) ∧
    ((processSource H p runId acc src).2.docsSkipped = acc.2.docsSkipped) := by
  rw [processSource]
  dsimp only []
  split
  · exact ⟨rfl, rfl, rfl, rfl⟩
  · rename_i hroot
    have hre : src.rootExists = true := by simpa using hroot
    have hfound : ∀ d ∈ src.walk, ∀ f ∈ d.files, ∀ e, entryOf src d.rel f = some e →
        ∃ r, (sourceSnapshot acc.1 src.id).find? (fun x => x.relPath == e.rel) = some r ∧
          r.sizeBytes = e.pstat.size ∧ r.mtimeEpoch = e.pstat.mtime := by
      intro d hd f hf e he
      exact hsm hre e (entryOf_mem_walkIncluded src d f e hd hf he)
    split
    · have hfo := upsertFolder_frame acc.1 src.id "" none 0
      have hwalk := foldl_processDir_snapKeep H p runId src (sourceSnapshot acc.1 src.id)
        src.walk
        (⟨(upsertFolder acc.1 src.id "" none 0).1,
          { acc.2 with sourcesScanned := acc.2.sourcesScanned + 1 }, [], 0⟩,
         ((acc.1.folders.filter (fun fr => fr.sourceId == src.id)).map
            (fun fr => (fr.relPath, fr.id))) ++ [("", (upsertFolder acc.1 src.id "" none 0).2)])
        hfound
      have hdeldb := foldl_markDeleted_frame p runId (sourceSnapshot acc.1 src.id)
        (src.walk.foldl (processDir H p runId src (sourceSnapshot acc.1 src.id))
          (⟨(upsertFolder acc.1 src.id "" none 0).1,
            { acc.2 with sourcesScanned := acc.2.sourcesScanned + 1 }, [], 0⟩,
           ((acc.1.folders.filter (fun fr => fr.sourceId == src.id)).map
              (fun fr => (fr.relPath, fr.id))) ++
            [("", (upsertFolder acc.1 src.id "" none 0).2)])).1
      have hdeling := foldl_markDeleted_cap p runId (sourceSnapshot acc.1 src.id)
        (src.walk.foldl (processDir H p runId src (sourceSnapshot acc.1 src.id))
          (⟨(upsertFolder acc.1 src.id "" none 0).1,
            { acc.2 with sourcesScanned := acc.2.sourcesScanned + 1 }, [], 0⟩,
           ((acc.1.folders.filter (fun fr => fr.sourceId == src.id)).map
              (fun fr => (fr.relPath, fr.id))) ++
            [("", (upsertFolder acc.1 src.id "" none 0).2)])).1
      refine ⟨?_, ?_, ?_, ?_⟩
      · rw [hdeldb.2.2.2.2.1, hwalk.1, hfo.2.2.2.2.1]
      · rw [hdeldb.2.2.2.2.2.1, hwalk.2.1, hfo.2.2.2.2.2.1]
      · rw [hdeling.1, hwalk.2.2.1]
      · rw [hdeling.2.1, hwalk.2.2.2]
    · have hwalk := foldl_processDir_snapKeep H p runId src (sourceSnapshot acc.1 src.id)
        src.walk
        (⟨acc.1, { acc.2 with sourcesScanned := acc.2.sourcesScanned + 1 }, [], 0⟩,
         (acc.1.folders.filter (fun fr => fr.sourceId == src.id)).map
            (fun fr => (fr.relPath, fr.id)))
        hfound
      have hdeldb := foldl_markDeleted_frame p runId (sourceSnapshot acc.1 src.id)
        (src.walk.foldl (processDir H p runId src (sourceSnapshot acc.1 src.id))
          (⟨acc.1, { acc.2 with sourcesScanned := acc.2.sourcesScanned + 1 }, [], 0⟩,
           (acc.1.folders.filter (fun fr => fr.sourceId == src.id)).map
              (fun fr => (fr.relPath, fr.id)))).1
      have hdeling := foldl_markDeleted_cap p runId (sourceSnapshot acc.1 src.id)
        (src.walk.foldl (processDir H p runId src (sourceSnapshot acc.1 src.id))
          (⟨acc.1, { acc.2 with sourcesScanned := acc.2.sourcesScanned + 1 }, [], 0⟩,
           (acc.1.folders.filter (fun fr => fr.sourceId == src.id)).map
              (fun fr => (fr.relPath, fr.id)))).1
      refine ⟨?_, ?_, ?_, ?_⟩
      · rw [hdeldb.2.2.2.2.1, hwalk.1]
      · rw [hdeldb.2.2.2.2.2.1, hwalk.2.1]
      · rw [hdeling.1, hwalk.2.2.1]
      · rw [hdeling.2.1, hwalk.2.2.2]

theorem snapMatches_of_snapshot_eq (db db2 : DB) (src : SourceCfg)
    (h : sourceSnapshot db2 src.id = sourceSnapshot db src.id)
    (hsm : SnapMatches db src) : SnapMatches db2 src := by
  intro e he
  obtain ⟨r, hf, h1, h2⟩ := hsm e he
  exact ⟨r, by rw [h]; exact hf, h1, h2⟩

theorem foldl_processSource_snapKeep (H : HashFns) (p : Params) (runId : Nat) :
    ∀ (srcs : List SourceCfg) (acc : DB × Stats),
      FilesWF acc.1 →
      ((srcs.map (fun s => s.id)).Nodup) →
      (∀ s ∈ srcs, s.rootExists = true → SnapMatches acc.1 s) →
      (((srcs.foldl (processSource H p runId) acc)).1.docs = acc.1.docs) ∧
      (((srcs.foldl (processSource H p runId) acc)).1.chunks = acc.1.chunks) ∧
      (((srcs.foldl (processSource H p runId) acc)).2.docsIngested =
        acc.2.docsIngested) ∧
      (((srcs.foldl (processSource H p runId) acc)).2.docsSkipped =
        acc.2.docsSkipped) := by
  intro srcs
  induction srcs with
  | nil => intro acc _ _ _; exact ⟨rfl, rfl, rfl, rfl⟩
  | cons s ss ih =>
    intro acc hwf hnd hsm
    have hstep := processSource_snapKeep H p runId acc s (hsm s (List.mem_cons_self s ss))
    have hctx := processSource_ctx H p runId acc s hwf
    have hsid : ∀ t ∈ ss, ¬(t.id = s.id) := by
      intro t ht he
      rw [List.map_cons, List.nodup_cons] at hnd
      exact hnd.1 (he ▸ List.mem_map_of_mem (fun q => q.id) ht)
    have hnd2 : (ss.map (fun q => q.id)).Nodup := by
      rw [List.map_cons, List.nodup_cons] at hnd
      exact hnd.2
    have hsm2 : ∀ t ∈ ss, t.rootExists = true →
        SnapMatches (processSource H p runId acc s).1 t := by
      intro t ht hr
      exact snapMatches_of_snapshot_eq acc.1 _ t
        (snapshot_frame_of_filter acc.1 _ t.id (hctx.2 t.id (hsid t ht)))
        (hsm t (List.mem_cons_of_mem s ht) hr)
    have hrest := ih (processSource H p runId acc s) hctx.1 hnd2 hsm2
    rw [List.foldl_cons]
    exact ⟨hrest.1.trans hstep.1, hrest.2.1.trans hstep.2.1,
      hrest.2.2.1.trans hstep.2.2.1, hrest.2.2.2.trans hstep.2.2.2⟩

theorem filter_map_comm {α : Type} (g : α → α) (q : α → Bool) :
    ∀ (l : List α), (∀ x ∈ l, q (g x) = q x) →
      (l.map g).filter q = (l.filter q).map g := by
  intro l
  induction l with
  | nil => intro _; rfl
  | cons x xs ih =>
    intro h
    rw [List.map_cons, List.filter_cons, List.filter_cons, h x (List.mem_cons_self x xs)]
    cases hx : q x with
    | true =>
      simp only [if_pos]
      rw [List.map_cons, ih (fun y hy => h y (List.mem_cons_of_mem x hy))]
    | false =>
      simp only [Bool.false_eq_true, if_false]
      exact ih (fun y hy => h y (List.mem_cons_of_mem x hy))

theorem find?_of_nodup_rels (l : List FileRec) (x : FileRec) (rel : String)
    (hnd : (l.map (fun q => q.relPath)).Nodup) (hx : x ∈ l) (hrel : x.relPath = rel) :
    l.find? (fun q => q.relPath == rel) = some x := by
  have hsome : (l.find? (fun q => q.relPath == rel)).isSome := by
    rw [List.find?_isSome]
    exact ⟨x, hx, by rw [hrel]; simp⟩
  obtain ⟨y, hy⟩ := Option.isSome_iff_exists.mp hsome
  have hymem := List.mem_of_find?_eq_some hy
  have hyrel : y.relPath = rel := by
    have := List.find?_some hy
    simpa using this
  have hxy : y = x := List.inj_on_of_nodup_map hnd hymem hx (hyrel.trans hrel.symm)
  rw [hy, hxy]

theorem est_benign_map (src : SourceCfg) (em : List FileRec) (n0 : Nat)
    (P : List WalkEntry) (db db2 : DB) (g : FileRec → FileRec)
    (hdb : db2.files = db.files.map g) (hnext : db.nextId ≤ db2.nextId)
    (hg : ∀ x, (g x).id = x.id ∧ (g x).sourceId = x.sourceId ∧
      (g x).relPath = x.relPath ∧ (g x).sizeBytes = x.sizeBytes ∧
      (g x).mtimeEpoch = x.mtimeEpoch ∧ (g x).status = x.status)
    (hinv : EstInv src em n0 P db) : EstInv src em n0 P db2 := by
  obtain ⟨h1, h2, h3, h4, h5⟩ := hinv
  have hsnap : sourceSnapshot db2 src.id = (sourceSnapshot db src.id).map g := by
    rw [sourceSnapshot, sourceSnapshot, hdb]
    refine filter_map_comm g _ db.files ?_
    intro x _
    rw [(hg x).2.1, (hg x).2.2.2.2.2]
  have hrels : (sourceSnapshot db2 src.id).map (fun x => x.relPath) =
      (sourceSnapshot db src.id).map (fun x => x.relPath) := by
    rw [hsnap, List.map_map]
    exact List.map_congr_left (fun x _ => (hg x).2.2.1)
  refine ⟨Nat.le_trans h1 hnext, ?_, ?_, ?_, ?_⟩
  · rw [hrels]; exact h2
  · rw [hrels]; exact h3
  · intro e he
    obtain ⟨x, hx, hs1, hs2, hs3, hs4, hs5, hs6⟩ := h4 e he
    refine ⟨g x, by rw [hdb]; exact List.mem_map_of_mem g hx, ?_, ?_, ?_, ?_, ?_, ?_⟩
    · rw [(hg x).2.1]; exact hs1
    · rw [(hg x).2.2.1]; exact hs2
    · rw [(hg x).2.2.2.1]; exact hs3
    · rw [(hg x).2.2.2.2.1]; exact hs4
    · rw [(hg x).2.2.2.2.2]; exact hs5
    · rw [(hg x).1]; exact hs6
  · intro r0 hr0 hrel
    obtain ⟨x, hx, hs1, hs2, hs3⟩ := h5 r0 hr0 hrel
    refine ⟨g x, by rw [hdb]; exact List.mem_map_of_mem g hx, ?_, ?_, ?_⟩
    · rw [(hg x).1]; exact hs1
    · rw [(hg x).2.2.1]; exact hs2
    · rw [(hg x).2.2.2.2.2]; exact hs3

theorem est_append (src : SourceCfg) (em : List FileRec) (n0 : Nat) (P : List WalkEntry)
    (db db2 : DB) (e : WalkEntry) (row : FileRec)
    (hdb : db2.files = db.files ++ [row]) (hnext : db.nextId ≤ db2.nextId)
    (hrow : row.sourceId = src.id ∧ row.relPath = e.rel ∧
      row.sizeBytes = e.pstat.size ∧ row.mtimeEpoch = e.pstat.mtime ∧
      row.status = "seen" ∧ n0 ≤ row.id)
    (hfind : em.find? (fun x => x.relPath == e.rel) = none)
    (hPn : e.rel ∉ P.map (fun q => q.rel))
    (hinv : EstInv src em n0 P db) : EstInv src em n0 (P ++ [e]) db2 := by
  obtain ⟨h1, h2, h3, h4, h5⟩ := hinv
  have hemrel : e.rel ∉ em.map (fun x => x.relPath) := by
    intro hmem
    obtain ⟨x, hx, hxe⟩ := List.mem_map.mp hmem
    rw [List.find?_eq_none] at hfind
    exact absurd (by rw [hxe]; simp : (x.relPath == e.rel) = true)
      (by simpa using hfind x hx)
  have hsnap : sourceSnapshot db2 src.id = sourceSnapshot db src.id ++ [row] := by
    rw [sourceSnapshot, sourceSnapshot, hdb, List.filter_append]
    have : [row].filter (fun r => r.sourceId == src.id && !(r.status == "deleted")) =
        [row] := by
      rw [List.filter_cons]
      simp [hrow.1, hrow.2.2.2.2.1]
    rw [this]
  have hrels : (sourceSnapshot db2 src.id).map (fun x => x.relPath) =
      (sourceSnapshot db src.id).map (fun x => x.relPath) ++ [e.rel] := by
    rw [hsnap, List.map_append]
    simp [hrow.2.1]
  have hnotin : e.rel ∉ (sourceSnapshot db src.id).map (fun x => x.relPath) := by
    intro hmem
    cases h3 e.rel hmem with
    | inl h => exact hemrel h
    | inr h => exact hPn h
  refine ⟨Nat.le_trans h1 hnext, ?_, ?_, ?_, ?_⟩
  · rw [hrels, List.nodup_append]
    exact ⟨h2, List.nodup_singleton _, by
      intro a ha hb
      simp at hb
      exact hnotin (hb ▸ ha)⟩
  · intro rel hrel
    rw [hrels, List.mem_append] at hrel
    rw [List.map_append, List.mem_append]
    cases hrel with
    | inl h =>
      cases h3 rel h with
      | inl hh => exact Or.inl hh
      | inr hh => exact Or.inr (Or.inl hh)
    | inr h =>
      simp at h
      right
      right
      simp [h]
  · intro e2 he2
    rw [List.mem_append] at he2
    cases he2 with
    | inl h =>
      obtain ⟨x, hx, hfields⟩ := h4 e2 h
      exact ⟨x, by rw [hdb]; exact List.mem_append_left _ hx, hfields⟩
    | inr h =>
      simp at h
      subst h
      refine ⟨row, by rw [hdb]; exact List.mem_append_right _ (List.mem_singleton_self _),
        hrow.1, hrow.2.1, hrow.2.2.1, hrow.2.2.2.1, hrow.2.2.2.2.1, ?_⟩
      rw [trackId, hfind]
      exact hrow.2.2.2.2.2
  · intro r0 hr0 hrel
    rw [List.map_append, List.mem_append] at hrel
    push_neg at hrel
    obtain ⟨x, hx, hfields⟩ := h5 r0 hr0 hrel.1
    exact ⟨x, by rw [hdb]; exact List.mem_append_left _ hx, hfields⟩

theorem est_refresh (src : SourceCfg) (em : List FileRec) (n0 : Nat) (P : List WalkEntry)
    (db db2 : DB) (e : WalkEntry) (pr0 : FileRec) (g : FileRec → FileRec)
    (hdb : db2.files = db.files.map g) (hnext : db.nextId ≤ db2.nextId)
    (hgfix : ∀ x, ¬(x.id = pr0.id) → g x = x)
    (hgpres : ∀ x, (g x).id = x.id ∧ (g x).sourceId = x.sourceId ∧
      (g x).relPath = x.relPath)
    (hgset : ∀ x, x.id = pr0.id → (g x).sizeBytes = e.pstat.size ∧
      (g x).mtimeEpoch = e.pstat.mtime ∧ (g x).status = "seen")
    (hfind : em.find? (fun x => x.relPath == e.rel) = some pr0)
    (hPn : e.rel ∉ P.map (fun q => q.rel))
    (hemid : (em.map (fun r => r.id)).Nodup)
    (hem0 : ∀ r ∈ em, r.id < n0)
    (hwf : FilesWF db)
    (hown : ∀ r ∈ db.files, r.id = pr0.id → r.sourceId = src.id)
    (hinv : EstInv src em n0 P db) : EstInv src em n0 (P ++ [e]) db2 := by
  obtain ⟨h1, h2, h3, h4, h5⟩ := hinv
  have hpr0em : pr0 ∈ em := List.mem_of_find?_eq_some hfind
  have hpr0rel : pr0.relPath = e.rel := by
    have := List.find?_some hfind
    simpa using this
  obtain ⟨w, hw, hwid, hwrel, hwnd⟩ := h5 pr0 hpr0em (by rw [hpr0rel]; exact hPn)
  have huniq : ∀ x ∈ db.files, x.id = pr0.id → x = w := by
    intro x hx hxid
    exact List.inj_on_of_nodup_map hwf.1 hx hw (by rw [hxid, hwid])
  have hpcomm : ∀ x ∈ db.files,
      ((g x).sourceId == src.id && !((g x).status == "deleted")) =
        (x.sourceId == src.id && !(x.status == "deleted")) := by
    intro x hx
    by_cases hxid : x.id = pr0.id
    · have hxw := huniq x hx hxid
      rw [(hgpres x).2.1, (hgset x hxid).2.2]
      subst hxw
      rw [hown x hx hxid]
      have : ¬(x.status = "deleted") := hwnd
      simp [this]
    · rw [hgfix x hxid]
  have hsnap : sourceSnapshot db2 src.id = (sourceSnapshot db src.id).map g := by
    rw [sourceSnapshot, sourceSnapshot, hdb]
    exact filter_map_comm g _ db.files hpcomm
  have hrels : (sourceSnapshot db2 src.id).map (fun x => x.relPath) =
      (sourceSnapshot db src.id).map (fun x => x.relPath) := by
    rw [hsnap, List.map_map]
    exact List.map_congr_left (fun x _ => (hgpres x).2.2)
  refine ⟨Nat.le_trans h1 hnext, ?_, ?_, ?_, ?_⟩
  · rw [hrels]; exact h2
  · intro rel hrel
    rw [hrels] at hrel
    rw [List.map_append, List.mem_append]
    cases h3 rel hrel with
    | inl h => exact Or.inl h
    | inr h => exact Or.inr (Or.inl h)
  · intro e2 he2
    rw [List.mem_append] at he2
    cases he2 with
    | inl h =>
      obtain ⟨x, hx, hs1, hs2, hs3, hs4, hs5, hs6⟩ := h4 e2 h
      have hxne : ¬(x.id = pr0.id) := by
        intro hxid
        rw [trackId] at hs6
        cases hfind2 : em.find? (fun q => q.relPath == e2.rel) with
        | none =>
          rw [hfind2] at hs6
          have := hem0 pr0 hpr0em
          omega
        | some q =>
          rw [hfind2] at hs6
          have hqem : q ∈ em := List.mem_of_find?_eq_some hfind2
          have hqrel : q.relPath = e2.rel := by
            have := List.find?_some hfind2
            simpa using this
          have hqpr : q = pr0 :=
            List.inj_on_of_nodup_map hemid hqem hpr0em (by rw [← hs6, hxid])
          have : e2.rel = e.rel := by rw [← hqrel, hqpr, hpr0rel]
          exact hPn (this ▸ List.mem_map_of_mem (fun q => q.rel) h)
      have hgx := hgfix x hxne
      refine ⟨x, ?_, hs1, hs2, hs3, hs4, hs5, hs6⟩
      rw [hdb]
      rw [← hgx]
      exact List.mem_map_of_mem g hx
    | inr h =>
      simp at h
      subst h
      refine ⟨g w, by rw [hdb]; exact List.mem_map_of_mem g hw, ?_, ?_, ?_, ?_, ?_, ?_⟩
      · rw [(hgpres w).2.1]
        exact hown w hw hwid
      · rw [(hgpres w).2.2, hwrel, hpr0rel]
      · exact (hgset w hwid).1
      · exact (hgset w hwid).2.1
      · exact (hgset w hwid).2.2
      · rw [trackId, hfind, (hgpres w).1, hwid]
  · intro r0 hr0 hrel
    rw [List.map_append, List.mem_append] at hrel
    push_neg at hrel
    have hr0ne : ¬(r0.id = pr0.id) := by
      intro hid
      have : r0 = pr0 := List.inj_on_of_nodup_map hemid hr0 hpr0em hid
      have : r0.relPath = e.rel := by rw [this, hpr0rel]
      refine hrel.2 ?_
      simp [this]
    obtain ⟨x, hx, hs1, hs2, hs3⟩ := h5 r0 hr0 hrel.1
    have hxne : ¬(x.id = pr0.id) := by rw [hs1]; exact hr0ne
    have hgx := hgfix x hxne
    refine ⟨x, ?_, hs1, hs2, hs3⟩
    rw [hdb, ← hgx]
    exact List.mem_map_of_mem g hx

theorem est_ingest (H : HashFns) (runId : Nat) (c : String) (fid : Nat)
    (n : String) (ex : Option String) (cont : String) (st : ScanState)
    (src : SourceCfg) (em : List FileRec) (n0 : Nat) (P : List WalkEntry)
    (hinv : EstInv src em n0 P st.db) :
    EstInv src em n0 P (ingestFile H runId c fid n ex cont st).db := by
  obtain ⟨s0, rf2, hfiles, hnext, _⟩ := ingestFile_db_eq H runId c fid n ex cont st
  refine est_benign_map src em n0 P st.db _ _ hfiles hnext ?_ hinv
  intro x
  by_cases hx : (x.id == fid) = true
  · rw [if_pos hx]
    exact ⟨rfl, rfl, rfl, rfl, rfl, rfl⟩
  · rw [if_neg hx]
    exact ⟨rfl, rfl, rfl, rfl, rfl, rfl⟩

theorem processFile_est (H : HashFns) (p : Params) (runId : Nat) (src : SourceCfg)
    (em : List FileRec) (n0 : Nat) (fm : List (String × Nat)) (dirRel : String)
    (st : ScanState) (f : FsFile) (P : List WalkEntry)
    (hemid : (em.map (fun r => r.id)).Nodup)
    (hem0 : ∀ r ∈ em, r.id < n0)
    (hctx : SrcCtx src.id em st.db)
    (hinv : EstInv src em n0 P st.db)
    (hPn : ∀ e, entryOf src dirRel f = some e → e.rel ∉ P.map (fun q => q.rel)) :
    EstInv src em n0 (P ++ (entryOf src dirRel f).toList)
      (processFile H p runId src em fm dirRel st f).db := by
  by_cases hinc : _should_include (fileRelPath dirRel f.name) src.includeGlobs
      src.excludeGlobs = true
  · have hnot : ¬((!(_should_include (fileRelPath dirRel f.name) src.includeGlobs
        src.excludeGlobs)) = true) := by simp [hinc]
    rw [processFile, if_neg hnot, entryOf, if_pos hinc]
    cases hstat : f.stat with
    | none => simpa using hinv
    | some pstat =>
      dsimp only []
      rw [Option.map_some']
      have hent : entryOf src dirRel f =
          some ⟨fileRelPath dirRel f.name, pstat, f.content⟩ := by
        rw [entryOf, if_pos hinc, hstat]
        rfl
      have hPn2 : fileRelPath dirRel f.name ∉ P.map (fun q => q.rel) :=
        hPn _ hent
      cases hfind : em.find? (fun r => r.relPath == fileRelPath dirRel f.name) with
      | none =>
        have hnew : (classifyFile H src.changeDetection p.forceRehash none
            pstat.size pstat.mtime f.content).isNew = true := by
          rw [classifyFile_isNew]
          rfl
        have hup := upsertFileRow_true_eq st.db src.id
          (((fm.find? (fun e => e.1 == dirRel)).map Prod.snd).getD
            (((fm.find? (fun e => e.1 == "")).map Prod.snd).getD 0))
          (fileRelPath dirRel f.name) (pathExt f.name) pstat
          (classifyFile H src.changeDetection p.forceRehash none
            pstat.size pstat.mtime f.content)
          none hnew
        have hest1 : EstInv src em n0
            (P ++ [(⟨fileRelPath dirRel f.name, pstat, f.content⟩ : WalkEntry)])
            (upsertFileRow st.db src.id
              (((fm.find? (fun e => e.1 == dirRel)).map Prod.snd).getD
                (((fm.find? (fun e => e.1 == "")).map Prod.snd).getD 0))
              (fileRelPath dirRel f.name) (pathExt f.name) pstat
              (classifyFile H src.changeDetection p.forceRehash none
                pstat.size pstat.mtime f.content)
              none).1 := by
          refine est_append src em n0 P st.db _
            ⟨fileRelPath dirRel f.name, pstat, f.content⟩ _ hup.1
            (by rw [hup.2.1]; exact Nat.le_succ _)
            ⟨rfl, rfl, rfl, rfl, rfl, hinv.1⟩ hfind hPn2 hinv
        split
        · split
          · exact hest1
          · exact est_ingest H runId src.campaignId _ f.name (pathExt f.name) f.content
              _ src em n0 _ hest1
        · exact hest1
      | some pr0 =>
        have hnew : (classifyFile H src.changeDetection p.forceRehash (some pr0)
            pstat.size pstat.mtime f.content).isNew = false := by
          rw [classifyFile_isNew]
          rfl
        have hup := upsertFileRow_false_eq st.db src.id
          (((fm.find? (fun e => e.1 == dirRel)).map Prod.snd).getD
            (((fm.find? (fun e => e.1 == "")).map Prod.snd).getD 0))
          (fileRelPath dirRel f.name) (pathExt f.name) pstat
          (classifyFile H src.changeDetection p.forceRehash (some pr0)
            pstat.size pstat.mtime f.content)
          (some pr0) pr0 hnew rfl
        have hest1 : EstInv src em n0
            (P ++ [(⟨fileRelPath dirRel f.name, pstat, f.content⟩ : WalkEntry)])
            (upsertFileRow st.db src.id
              (((fm.find? (fun e => e.1 == dirRel)).map Prod.snd).getD
                (((fm.find? (fun e => e.1 == "")).map Prod.snd).getD 0))
              (fileRelPath dirRel f.name) (pathExt f.name) pstat
              (classifyFile H src.changeDetection p.forceRehash (some pr0)
                pstat.size pstat.mtime f.content)
              (some pr0)).1 := by
          refine est_refresh src em n0 P st.db _
            ⟨fileRelPath dirRel f.name, pstat, f.content⟩ pr0 _ hup.1
            (le_of_eq hup.2.1.symm) ?_ ?_ ?_ hfind hPn2 hemid hem0 hctx.1
            (fun r hr hid => hctx.2.2 pr0 (List.mem_of_find?_eq_some hfind) r hr hid)
            hinv
          · intro x hx
            have hbeq : (x.id == pr0.id) = false := beq_eq_false_iff_ne.mpr hx
            rw [if_neg (by simp [hbeq])]
          · intro x
            by_cases hx : (x.id == pr0.id) = true
            · rw [if_pos hx]
              exact ⟨rfl, rfl, rfl⟩
            · rw [if_neg hx]
              exact ⟨rfl, rfl, rfl⟩
          · intro x hx
            rw [if_pos (by simp [hx])]
            exact ⟨rfl, rfl, rfl⟩
        split
        · split
          · exact hest1
          · exact est_ingest H runId src.campaignId _ f.name (pathExt f.name) f.content
              _ src em n0 _ hest1
        · exact hest1
  · have hnot : ((!(_should_include (fileRelPath dirRel f.name) src.includeGlobs
        src.excludeGlobs)) = true) := by simpa using hinc
    rw [processFile, if_pos hnot, entryOf, if_neg hinc]
    simpa using hinv

theorem est_files_eq (src : SourceCfg) (em : List FileRec) (n0 : Nat)
    (P : List WalkEntry) (db db2 : DB)
    (hf : db2.files = db.files) (hn : db.nextId ≤ db2.nextId)
    (hinv : EstInv src em n0 P db) : EstInv src em n0 P db2 := by
  obtain ⟨h1, h2, h3, h4, h5⟩ := hinv
  have hsnap : sourceSnapshot db2 src.id = sourceSnapshot db src.id := by
    rw [sourceSnapshot, sourceSnapshot, hf]
  refine ⟨Nat.le_trans h1 hn, ?_, ?_, ?_, ?_⟩
  · rw [hsnap]; exact h2
  · rw [hsnap]; exact h3
  · intro e he
    obtain ⟨x, hx, hfl⟩ := h4 e he
    exact ⟨x, by rw [hf]; exact hx, hfl⟩
  · intro r0 hr0 hrel
    obtain ⟨x, hx, hfl⟩ := h5 r0 hr0 hrel
    exact ⟨x, by rw [hf]; exact hx, hfl⟩

theorem foldl_processFile_est (H : HashFns) (p : Params) (runId : Nat) (src : SourceCfg)
    (em : List FileRec) (n0 : Nat) (fm : List (String × Nat)) (dirRel : String)
    (hemid : (em.map (fun r => r.id)).Nodup)
    (hem0 : ∀ r ∈ em, r.id < n0) :
    ∀ (fs : List FsFile) (st : ScanState) (P : List WalkEntry),
      SrcCtx src.id em st.db →
      EstInv src em n0 P st.db →
      ((P.map (fun q => q.rel) ++
        (fs.filterMap (entryOf src dirRel)).map (fun q => q.rel)).Nodup) →
      EstInv src em n0 (P ++ fs.filterMap (entryOf src dirRel))
        ((fs.foldl (processFile H p runId src em fm dirRel) st)).db := by
  intro fs
  induction fs with
  | nil =>
    intro st P _ hinv _
    simpa using hinv
  | cons f fs ih =>
    intro st P hctx hinv hnd
    have hctx2 := processFile_ctx H p runId src em fm dirRel st f hctx
      (fun rel pr0 hf => List.mem_of_find?_eq_some hf)
    rw [List.foldl_cons]
    cases hent : entryOf src dirRel f with
    | none =>
      have hstep := processFile_est H p runId src em n0 fm dirRel st f P hemid hem0
        hctx hinv (fun e he => absurd (hent ▸ he) (by simp))
      rw [hent] at hstep
      simp only [Option.toList_none, List.append_nil] at hstep
      have := ih (processFile H p runId src em fm dirRel st f) P hctx2.1 hstep
        (by rwa [List.filterMap_cons, hent] at hnd)
      rwa [List.filterMap_cons, hent]
    | some e =>
      have hPn : e.rel ∉ P.map (fun q => q.rel) := by
        rw [List.filterMap_cons, hent] at hnd
        intro hmem
        rw [List.nodup_append] at hnd
        exact hnd.2.2 hmem (by simp)
      have hstep := processFile_est H p runId src em n0 fm dirRel st f P hemid hem0
        hctx hinv (by
          intro e2 he2
          rw [hent] at he2
          cases he2
          exact hPn)
      rw [hent] at hstep
      simp only [Option.toList_some] at hstep
      have hnd2 : ((P ++ [e]).map (fun q => q.rel) ++
          (fs.filterMap (entryOf src dirRel)).map (fun q => q.rel)).Nodup := by
        rw [List.filterMap_cons, hent] at hnd
        simp only [List.map_append, List.map_cons, List.map_nil] at hnd ⊢
        rw [List.append_assoc]
        simpa using hnd
      have := ih (processFile H p runId src em fm dirRel st f) (P ++ [e]) hctx2.1
        hstep hnd2
      rw [List.filterMap_cons, hent]
      rwa [List.append_assoc] at this

theorem processDir_est (H : HashFns) (p : Params) (runId : Nat) (src : SourceCfg)
    (em : List FileRec) (n0 : Nat)
    (hemid : (em.map (fun r => r.id)).Nodup)
    (hem0 : ∀ r ∈ em, r.id < n0)
    (acc : ScanState × List (String × Nat)) (d : FsDir) (P : List WalkEntry)
    (hctx : SrcCtx src.id em acc.1.db)
    (hinv : EstInv src em n0 P acc.1.db)
    (hnd : ((P.map (fun q => q.rel) ++
      (d.files.filterMap (entryOf src d.rel)).map (fun q => q.rel)).Nodup)) :
    EstInv src em n0 (P ++ d.files.filterMap (entryOf src d.rel))
      (processDir H p runId src em acc d).1.db := by
  rw [processDir]
  dsimp only []
  split
  · have hfe := upsertFolder_files acc.1.db src.id d.rel
      (some (((acc.2.find? (fun e => e.1 == (if d.rel == "" then "" else pyParentRel d.rel))).map
        Prod.snd).getD (((acc.2.find? (fun e => e.1 == "")).map Prod.snd).getD 0)))
      (if d.rel == "" then 0 else (purePosixParts d.rel).length)
    have hctx2 := srcCtx_of_files_eq src.id em acc.1.db _ hfe.1 hfe.2 hctx
    have hinv2 := est_files_eq src em n0 P acc.1.db _ hfe.1 hfe.2 hinv
    exact foldl_processFile_est H p runId src em n0
      (acc.2 ++ [(d.rel, (upsertFolder acc.1.db src.id d.rel
        (some (((acc.2.find? (fun e => e.1 == (if d.rel == "" then "" else pyParentRel d.rel))).map
          Prod.snd).getD (((acc.2.find? (fun e => e.1 == "")).map Prod.snd).getD 0)))
        (if d.rel == "" then 0 else (purePosixParts d.rel).length)).2)])
      d.rel hemid hem0 d.files
      { acc.1 with db := (upsertFolder acc.1.db src.id d.rel
        (some (((acc.2.find? (fun e => e.1 == (if d.rel == "" then "" else pyParentRel d.rel))).map
          Prod.snd).getD (((acc.2.find? (fun e => e.1 == "")).map Prod.snd).getD 0)))
        (if d.rel == "" then 0 else (purePosixParts d.rel).length)).1 }
      P hctx2 hinv2 hnd
  · exact foldl_processFile_est H p runId src em n0 acc.2 d.rel hemid hem0 d.files
      acc.1 P hctx hinv hnd

theorem foldl_processDir_est (H : HashFns) (p : Params) (runId : Nat) (src : SourceCfg)
    (em : List FileRec) (n0 : Nat)
    (hemid : (em.map (fun r => r.id)).Nodup)
    (hem0 : ∀ r ∈ em, r.id < n0) :
    ∀ (ds : List FsDir) (acc : ScanState × List (String × Nat)) (P : List WalkEntry),
      SrcCtx src.id em acc.1.db →
      EstInv src em n0 P acc.1.db →
      ((P.map (fun q => q.rel) ++
        (ds.flatMap (fun d => d.files.filterMap (entryOf src d.rel))).map
          (fun q => q.rel)).Nodup) →
      EstInv src em n0 (P ++ ds.flatMap (fun d => d.files.filterMap (entryOf src d.rel)))
        ((ds.foldl (processDir H p runId src em) acc)).1.db := by
  intro ds
  induction ds with
  | nil =>
    intro acc P _ hinv _
    simpa using hinv
  | cons d ds ih =>
    intro acc P hctx hinv hnd
    rw [List.foldl_cons]
    rw [List.flatMap_cons, List.map_append] at hnd
    have hnd' := hnd
    rw [← List.append_assoc] at hnd'
    have hnd1 := List.Nodup.of_append_left hnd'
    have hstep := processDir_est H p runId src em n0 hemid hem0 acc d P hctx hinv hnd1
    have hctx2 := processDir_ctx H p runId src em acc d hctx
    have hnd2 : (((P ++ d.files.filterMap (entryOf src d.rel)).map (fun q => q.rel) ++
        (ds.flatMap (fun t => t.files.filterMap (entryOf src t.rel))).map
          (fun q => q.rel)).Nodup) := by
      rw [List.map_append]
      exact hnd'
    have := ih (processDir H p runId src em acc d)
      (P ++ d.files.filterMap (entryOf src d.rel)) hctx2.1 hstep hnd2
    rw [List.flatMap_cons]
    rwa [List.append_assoc] at this

theorem snapRels_sublist (sid : Nat) (g : FileRec → FileRec)
    (hgdel : ∀ x, g x = x ∨ (g x).status = "deleted") :
    ∀ (l : List FileRec),
      List.Sublist
        (((l.map g).filter
          (fun r => r.sourceId == sid && !(r.status == "deleted"))).map
            (fun x => x.relPath))
        ((l.filter (fun r => r.sourceId == sid && !(r.status == "deleted"))).map
          (fun x => x.relPath)) := by
  intro l
  induction l with
  | nil => exact List.Sublist.refl _
  | cons x xs ih =>
    rw [List.map_cons, List.filter_cons, List.filter_cons]
    cases hgdel x with
    | inl h =>
      rw [h]
      cases hx : (x.sourceId == sid && !(x.status == "deleted")) with
      | true =>
        simp only [if_pos]
        rw [List.map_cons, List.map_cons]
        exact List.Sublist.cons₂ _ ih
      | false =>
        simp only [Bool.false_eq_true, if_false]
        exact ih
    | inr h =>
      have hgx : ((g x).sourceId == sid && !((g x).status == "deleted")) = false := by
        rw [h]
        simp
      rw [hgx]
      simp only [Bool.false_eq_true, if_false]
      cases hx : (x.sourceId == sid && !(x.status == "deleted")) with
      | true =>
        simp only [if_pos]
        rw [List.map_cons]
        exact List.Sublist.cons _ ih
      | false =>
        simp only [Bool.false_eq_true, if_false]
        exact ih

theorem markDeleted_est (p : Params) (runId : Nat) (st : ScanState) (prev : FileRec)
    (src : SourceCfg) (em : List FileRec) (n0 : Nat) (P : List WalkEntry)
    (hprev : prev ∈ em)
    (hemid : (em.map (fun r => r.id)).Nodup)
    (hem0 : ∀ r ∈ em, r.id < n0)
    (hseen : ∀ e ∈ P, st.seenPaths.contains e.rel = true) :
    (((sourceSnapshot st.db src.id).map (fun x => x.relPath)).Nodup →
      ((sourceSnapshot (markDeleted p runId st prev).db src.id).map
        (fun x => x.relPath)).Nodup) ∧
    ((∀ e ∈ P, ∃ x ∈ st.db.files, x.sourceId = src.id ∧ x.relPath = e.rel ∧
        x.sizeBytes = e.pstat.size ∧ x.mtimeEpoch = e.pstat.mtime ∧
        x.status = "seen" ∧ trackId em n0 e.rel x.id) →
      (∀ e ∈ P, ∃ x ∈ (markDeleted p runId st prev).db.files,
        x.sourceId = src.id ∧ x.relPath = e.rel ∧
        x.sizeBytes = e.pstat.size ∧ x.mtimeEpoch = e.pstat.mtime ∧
        x.status = "seen" ∧ trackId em n0 e.rel x.id)) := by
  obtain ⟨rf2, hfiles, hnext, _⟩ := markDeleted_db_eq p runId st prev
  constructor
  · intro hnd
    have hsub := snapRels_sublist src.id
      (fun r => if (!st.seenPaths.contains prev.relPath) && !p.dryRun &&
          (r.id == prev.id) then { r with status := "deleted" } else r)
      (by
        intro x
        dsimp only []
        by_cases hx : ((!st.seenPaths.contains prev.relPath) && !p.dryRun &&
            (x.id == prev.id)) = true
        · right
          rw [if_pos hx]
        · left
          rw [if_neg hx])
      st.db.files
    rw [sourceSnapshot] at hnd
    rw [sourceSnapshot, hfiles]
    exact List.Nodup.sublist hsub hnd
  · intro h4 e he
    obtain ⟨x, hx, hs1, hs2, hs3, hs4, hs5, hs6⟩ := h4 e he
    by_cases hcont : st.seenPaths.contains prev.relPath = true
    · refine ⟨x, ?_, hs1, hs2, hs3, hs4, hs5, hs6⟩
      rw [hfiles]
      have : (fun r => if (!st.seenPaths.contains prev.relPath) && !p.dryRun &&
          (r.id == prev.id) then ({ r with status := "deleted" } : FileRec) else r) x = x := by
        dsimp only []
        have hcm : prev.relPath ∈ st.seenPaths := by simpa using hcont
        rw [if_neg (by simp [hcm])]
      exact List.mem_map.mpr ⟨x, hx, this⟩
    · have hxne : ¬(x.id = prev.id) := by
        intro hxid
        rw [trackId] at hs6
        cases hfind2 : em.find? (fun q => q.relPath == e.rel) with
        | none =>
          rw [hfind2] at hs6
          have := hem0 prev hprev
          omega
        | some q =>
          rw [hfind2] at hs6
          have hqem : q ∈ em := List.mem_of_find?_eq_some hfind2
          have hqrel : q.relPath = e.rel := by
            have := List.find?_some hfind2
            simpa using this
          have hqprev : q = prev :=
            List.inj_on_of_nodup_map hemid hqem hprev (by rw [← hs6, hxid])
          have : prev.relPath = e.rel := by rw [← hqprev, hqrel]
          exact hcont (by rw [this]; exact hseen e he)
      refine ⟨x, ?_, hs1, hs2, hs3, hs4, hs5, hs6⟩
      rw [hfiles]
      have : (fun r => if (!st.seenPaths.contains prev.relPath) && !p.dryRun &&
          (r.id == prev.id) then ({ r with status := "deleted" } : FileRec) else r) x = x := by
        have hbeq : (x.id == prev.id) = false := beq_eq_false_iff_ne.mpr hxne
        dsimp only []
        rw [if_neg (by simp [hbeq])]
      exact List.mem_map.mpr ⟨x, hx, this⟩

theorem foldl_markDeleted_est (p : Params) (runId : Nat)
    (src : SourceCfg) (em : List FileRec) (n0 : Nat) (P : List WalkEntry)
    (hemid : (em.map (fun r => r.id)).Nodup)
    (hem0 : ∀ r ∈ em, r.id < n0) :
    ∀ (l : List FileRec) (st : ScanState),
      (∀ y ∈ l, y ∈ em) →
      (∀ e ∈ P, st.seenPaths.contains e.rel = true) →
      (((sourceSnapshot st.db src.id).map (fun x => x.relPath)).Nodup) →
      (∀ e ∈ P, ∃ x ∈ st.db.files, x.sourceId = src.id ∧ x.relPath = e.rel ∧
        x.sizeBytes = e.pstat.size ∧ x.mtimeEpoch = e.pstat.mtime ∧
        x.status = "seen" ∧ trackId em n0 e.rel x.id) →
      (((sourceSnapshot ((l.foldl (markDeleted p runId) st)).db src.id).map
          (fun x => x.relPath)).Nodup) ∧
      (∀ e ∈ P, ∃ x ∈ ((l.foldl (markDeleted p runId) st)).db.files,
        x.sourceId = src.id ∧ x.relPath = e.rel ∧
        x.sizeBytes = e.pstat.size ∧ x.mtimeEpoch = e.pstat.mtime ∧
        x.status = "seen" ∧ trackId em n0 e.rel x.id) := by
  intro l
  induction l with
  | nil => intro st _ _ hnd h4; exact ⟨hnd, h4⟩
  | cons y ys ih =>
    intro st hmem hseen hnd h4
    have hstep := markDeleted_est p runId st y src em n0 P
      (hmem y (List.mem_cons_self y ys)) hemid hem0 hseen
    have hsp : (markDeleted p runId st y).seenPaths = st.seenPaths :=
      (markDeleted_class p runId st y).2.2.2.2.2.2.2.2
    rw [List.foldl_cons]
    exact ih (markDeleted p runId st y) (fun z hz => hmem z (List.mem_cons_of_mem y hz))
      (by rw [hsp]; exact hseen) (hstep.1 hnd) (hstep.2 h4)

theorem entryOf_rel (src : SourceCfg) (dirRel : String) (f : FsFile) (e : WalkEntry)
    (he : entryOf src dirRel f = some e) : e.rel = fileRelPath dirRel f.name := by
  rw [entryOf] at he
  split at he
  · cases hstat : f.stat with
    | none => rw [hstat] at he; simp at he
    | some ps =>
      rw [hstat] at he
      simp only [Option.map_some', Option.some.injEq] at he
      rw [← he]
  · simp at he

theorem dirRels_sublist (src : SourceCfg) (dirRel : String) :
    ∀ (fs : List FsFile),
      List.Sublist ((fs.filterMap (entryOf src dirRel)).map (fun q => q.rel))
        (fs.map (fun f => fileRelPath dirRel f.name)) := by
  intro fs
  induction fs with
  | nil => exact List.Sublist.refl _
  | cons f fs ih =>
    rw [List.filterMap_cons, List.map_cons]
    cases hent : entryOf src dirRel f with
    | none => exact List.Sublist.cons _ ih
    | some e =>
      rw [List.map_cons, entryOf_rel src dirRel f e hent]
      exact List.Sublist.cons₂ _ ih

theorem walkRels_nodup (src : SourceCfg) (hwalk : wfWalk src) :
    (walkRels src).Nodup := by
  rw [wfWalk] at hwalk
  refine List.Nodup.sublist ?_ hwalk
  rw [walkRels, walkIncluded_eq]
  have : ∀ (ds : List FsDir),
      List.Sublist
        ((ds.flatMap (fun d => d.files.filterMap (entryOf src d.rel))).map
          (fun q => q.rel))
        (ds.flatMap (fun d => d.files.map (fun f => fileRelPath d.rel f.name))) := by
    intro ds
    induction ds with
    | nil => exact List.Sublist.refl _
    | cons d ds ih =>
      rw [List.flatMap_cons, List.flatMap_cons, List.map_append]
      exact List.Sublist.append (dirRels_sublist src d.rel d.files) ih
  exact this src.walk

theorem processSource_snapself (H : HashFns) (p : Params) (runId : Nat)
    (acc : DB × Stats) (src : SourceCfg)
    (hroot : src.rootExists = true) (hwalk : wfWalk src)
    (hwf : FilesWF acc.1)
    (hnd : ((sourceSnapshot acc.1 src.id).map (fun x => x.relPath)).Nodup) :
    SnapMatches (processSource H p runId acc src).1 src := by
  have hemid : ((sourceSnapshot acc.1 src.id).map (fun r => r.id)).Nodup :=
    List.Nodup.sublist (List.Sublist.map _ (List.filter_sublist _)) hwf.1
  have hem0 : ∀ r ∈ sourceSnapshot acc.1 src.id, r.id < acc.1.nextId := by
    intro r hr
    exact hwf.2 r (List.mem_of_mem_filter hr)
  have hwrels : ((src.walk.flatMap (fun d => d.files.filterMap (entryOf src d.rel))).map
      (fun q => q.rel)).Nodup := by
    have := walkRels_nodup src hwalk
    rwa [walkRels, walkIncluded_eq] at this
  rw [processSource]
  dsimp only []
  rw [if_neg (by simp [hroot])]
  split
  · have hfe := upsertFolder_files acc.1 src.id "" none 0
    have hctx0 := srcCtx_of_files_eq src.id (sourceSnapshot acc.1 src.id) acc.1 _
      hfe.1 hfe.2 (srcCtx_init acc.1 src.id hwf)
    have hinv0 : EstInv src (sourceSnapshot acc.1 src.id) acc.1.nextId []
        (upsertFolder acc.1 src.id "" none 0).1 := by
      refine ⟨hfe.2, ?_, ?_, by simp, ?_⟩
      · have : sourceSnapshot (upsertFolder acc.1 src.id "" none 0).1 src.id =
            sourceSnapshot acc.1 src.id := by
          rw [sourceSnapshot, sourceSnapshot, hfe.1]
        rw [this]
        exact hnd
      · intro rel hrel
        left
        have : sourceSnapshot (upsertFolder acc.1 src.id "" none 0).1 src.id =
            sourceSnapshot acc.1 src.id := by
          rw [sourceSnapshot, sourceSnapshot, hfe.1]
        rwa [this] at hrel
      · intro r0 hr0 _
        have hr0f : r0 ∈ acc.1.files := List.mem_of_mem_filter hr0
        have hp := List.of_mem_filter hr0
        have hps := (Bool.and_eq_true _ _).mp hp
        refine ⟨r0, by rw [hfe.1]; exact hr0f, rfl, rfl, ?_⟩
        intro hdel
        rw [hdel] at hps
        simp at hps
    have hwalkEst := foldl_processDir_est H p runId src (sourceSnapshot acc.1 src.id)
      acc.1.nextId hemid hem0 src.walk
      (⟨(upsertFolder acc.1 src.id "" none 0).1,
        { acc.2 with sourcesScanned := acc.2.sourcesScanned + 1 }, [], 0⟩,
       ((acc.1.folders.filter (fun fr => fr.sourceId == src.id)).map
          (fun fr => (fr.relPath, fr.id))) ++ [("", (upsertFolder acc.1 src.id "" none 0).2)])
      [] hctx0 hinv0 (by simpa using hwrels)
    have hw := foldl_processDir_class H p runId src (sourceSnapshot acc.1 src.id)
      src.walk
      (⟨(upsertFolder acc.1 src.id "" none 0).1,
        { acc.2 with sourcesScanned := acc.2.sourcesScanned + 1 }, [], 0⟩,
       ((acc.1.folders.filter (fun fr => fr.sourceId == src.id)).map
          (fun fr => (fr.relPath, fr.id))) ++ [("", (upsertFolder acc.1 src.id "" none 0).2)])
    rw [List.nil_append] at hwalkEst
    have hseen : ∀ e ∈ src.walk.flatMap (fun d => d.files.filterMap (entryOf src d.rel)),
        ((src.walk.foldl (processDir H p runId src (sourceSnapshot acc.1 src.id))
          (⟨(upsertFolder acc.1 src.id "" none 0).1,
            { acc.2 with sourcesScanned := acc.2.sourcesScanned + 1 }, [], 0⟩,
           ((acc.1.folders.filter (fun fr => fr.sourceId == src.id)).map
              (fun fr => (fr.relPath, fr.id))) ++
            [("", (upsertFolder acc.1 src.id "" none 0).2)])).1).seenPaths.contains
          e.rel = true := by
      intro e he
      rw [hw.2.2.2.2.2]
      have : e.rel ∈ (src.walk.flatMap
          (fun d => d.files.filterMap (entryOf src d.rel))).map (fun q => q.rel) :=
        List.mem_map_of_mem _ he
      simpa using this
    have hfin := foldl_markDeleted_est p runId src (sourceSnapshot acc.1 src.id)
      acc.1.nextId (src.walk.flatMap (fun d => d.files.filterMap (entryOf src d.rel)))
      hemid hem0 (sourceSnapshot acc.1 src.id)
      ((src.walk.foldl (processDir H p runId src (sourceSnapshot acc.1 src.id))
        (⟨(upsertFolder acc.1 src.id "" none 0).1,
          { acc.2 with sourcesScanned := acc.2.sourcesScanned + 1 }, [], 0⟩,
         ((acc.1.folders.filter (fun fr => fr.sourceId == src.id)).map
            (fun fr => (fr.relPath, fr.id))) ++
          [("", (upsertFolder acc.1 src.id "" none 0).2)])).1)
      (fun y hy => hy) hseen hwalkEst.2.1 hwalkEst.2.2.2.1
    intro e he
    rw [walkIncluded_eq] at he
    obtain ⟨x, hxmem, hs1, hs2, hs3, hs4, hs5, _⟩ := hfin.2 e he
    have hxsnap : x ∈ sourceSnapshot
        (((sourceSnapshot acc.1 src.id).foldl (markDeleted p runId)
          ((src.walk.foldl (processDir H p runId src (sourceSnapshot acc.1 src.id))
            (⟨(upsertFolder acc.1 src.id "" none 0).1,
              { acc.2 with sourcesScanned := acc.2.sourcesScanned + 1 }, [], 0⟩,
             ((acc.1.folders.filter (fun fr => fr.sourceId == src.id)).map
                (fun fr => (fr.relPath, fr.id))) ++
              [("", (upsertFolder acc.1 src.id "" none 0).2)])).1)).db) src.id := by
      rw [sourceSnapshot]
      refine List.mem_filter.mpr ⟨hxmem, ?_⟩
      rw [hs1, hs5]
      simp
    refine ⟨x, ?_, hs3, hs4⟩
    exact find?_of_nodup_rels _ x e.rel hfin.1 hxsnap hs2
  · have hctx0 := srcCtx_init acc.1 src.id hwf
    have hinv0 : EstInv src (sourceSnapshot acc.1 src.id) acc.1.nextId [] acc.1 := by
      refine ⟨Nat.le_refl _, hnd, ?_, by simp, ?_⟩
      · intro rel hrel
        left
        exact hrel
      · intro r0 hr0 _
        have hr0f : r0 ∈ acc.1.files := List.mem_of_mem_filter hr0
        have hp := List.of_mem_filter hr0
        have hps := (Bool.and_eq_true _ _).mp hp
        refine ⟨r0, hr0f, rfl, rfl, ?_⟩
        intro hdel
        rw [hdel] at hps
        simp at hps
    have hwalkEst := foldl_processDir_est H p runId src (sourceSnapshot acc.1 src.id)
      acc.1.nextId hemid hem0 src.walk
      (⟨acc.1, { acc.2 with sourcesScanned := acc.2.sourcesScanned + 1 }, [], 0⟩,
       (acc.1.folders.filter (fun fr => fr.sourceId == src.id)).map
          (fun fr => (fr.relPath, fr.id)))
      [] hctx0 hinv0 (by simpa using hwrels)
    have hw := foldl_processDir_class H p runId src (sourceSnapshot acc.1 src.id)
      src.walk
      (⟨acc.1, { acc.2 with sourcesScanned := acc.2.sourcesScanned + 1 }, [], 0⟩,
       (acc.1.folders.filter (fun fr => fr.sourceId == src.id)).map
          (fun fr => (fr.relPath, fr.id)))
    rw [List.nil_append] at hwalkEst
    have hseen : ∀ e ∈ src.walk.flatMap (fun d => d.files.filterMap (entryOf src d.rel)),
        ((src.walk.foldl (processDir H p runId src (sourceSnapshot acc.1 src.id))
          (⟨acc.1, { acc.2 with sourcesScanned := acc.2.sourcesScanned + 1 }, [], 0⟩,
           (acc.1.folders.filter (fun fr => fr.sourceId == src.id)).map
              (fun fr => (fr.relPath, fr.id)))).1).seenPaths.contains e.rel = true := by
      intro e he
      rw [hw.2.2.2.2.2]
      have : e.rel ∈ (src.walk.flatMap
          (fun d => d.files.filterMap (entryOf src d.rel))).map (fun q => q.rel) :=
        List.mem_map_of_mem _ he
      simpa using this
    have hfin := foldl_markDeleted_est p runId src (sourceSnapshot acc.1 src.id)
      acc.1.nextId (src.walk.flatMap (fun d => d.files.filterMap (entryOf src d.rel)))
      hemid hem0 (sourceSnapshot acc.1 src.id)
      ((src.walk.foldl (processDir H p runId src (sourceSnapshot acc.1 src.id))
        (⟨acc.1, { acc.2 with sourcesScanned := acc.2.sourcesScanned + 1 }, [], 0⟩,
         (acc.1.folders.filter (fun fr => fr.sourceId == src.id)).map
            (fun fr => (fr.relPath, fr.id)))).1)
      (fun y hy => hy) hseen hwalkEst.2.1 hwalkEst.2.2.2.1
    intro e he
    rw [walkIncluded_eq] at he
    obtain ⟨x, hxmem, hs1, hs2, hs3, hs4, hs5, _⟩ := hfin.2 e he
    have hxsnap : x ∈ sourceSnapshot
        (((sourceSnapshot acc.1 src.id).foldl (markDeleted p runId)
          ((src.walk.foldl (processDir H p runId src (sourceSnapshot acc.1 src.id))
            (⟨acc.1, { acc.2 with sourcesScanned := acc.2.sourcesScanned + 1 }, [], 0⟩,
             (acc.1.folders.filter (fun fr => fr.sourceId == src.id)).map
                (fun fr => (fr.relPath, fr.id)))).1)).db) src.id := by
      rw [sourceSnapshot]
      refine List.mem_filter.mpr ⟨hxmem, ?_⟩
      rw [hs1, hs5]
      simp
    refine ⟨x, ?_, hs3, hs4⟩
    exact find?_of_nodup_rels _ x e.rel hfin.1 hxsnap hs2

theorem sourceSnapshot_files_eq (db db2 : DB) (sid : Nat)
    (h : db2.files = db.files) : sourceSnapshot db2 sid = sourceSnapshot db sid := by
  rw [sourceSnapshot, sourceSnapshot, h]

theorem enabledSources_eq (db db2 : DB) (c : String)
    (h : db2.sources = db.sources) : enabledSources db2 c = enabledSources db c := by
  rw [enabledSources, enabledSources, h]

theorem foldl_processSource_snapself (H : HashFns) (p : Params) (runId : Nat) :
    ∀ (srcs : List SourceCfg) (acc : DB × Stats) (s : SourceCfg),
      FilesWF acc.1 → ((srcs.map (fun q => q.id)).Nodup) → s ∈ srcs →
      s.rootExists = true → wfWalk s →
      (((sourceSnapshot acc.1 s.id).map (fun x => x.relPath)).Nodup) →
      SnapMatches ((srcs.foldl (processSource H p runId) acc)).1 s := by
  intro srcs
  induction srcs with
  | nil => intro acc s _ _ hmem; exact absurd hmem (List.not_mem_nil s)
  | cons t ts ih =>
    intro acc s hwf hnd hmem hroot hwalk hsnd
    have hctx := processSource_ctx H p runId acc t hwf
    rw [List.foldl_cons]
    by_cases hst : s = t
    · subst hst
      have hsm1 := processSource_snapself H p runId acc s hroot hwalk hwf hsnd
      have hne : ∀ u ∈ ts, ¬(s.id = u.id) := by
        intro u hu he
        rw [List.map_cons, List.nodup_cons] at hnd
        exact hnd.1 (he ▸ List.mem_map_of_mem (fun q => q.id) hu)
      have hfold := foldl_processSource_ctx H p runId ts (processSource H p runId acc s)
        hctx.1
      exact snapMatches_of_snapshot_eq _ _ s
        (snapshot_frame_of_filter _ _ s.id (hfold.2 s.id hne)) hsm1
    · have hsmem : s ∈ ts := by
        cases List.mem_cons.mp hmem with
        | inl h => exact absurd h hst
        | inr h => exact h
      have hne : ¬(s.id = t.id) := by
        intro he
        rw [List.map_cons, List.nodup_cons] at hnd
        exact hnd.1 (he ▸ List.mem_map_of_mem (fun q => q.id) hsmem)
      have hnd2 : (ts.map (fun q => q.id)).Nodup := by
        rw [List.map_cons, List.nodup_cons] at hnd
        exact hnd.2
      have hsnap2 : sourceSnapshot (processSource H p runId acc t).1 s.id =
          sourceSnapshot acc.1 s.id :=
        snapshot_frame_of_filter _ _ s.id (hctx.2 s.id hne)
      refine ih (processSource H p runId acc t) s hctx.1 hnd2 hsmem hroot hwalk ?_
      rw [hsnap2]
      exact hsnd

theorem upsertDoc_skip (H : HashFns) (db2 : DB) (c2 : String) (fid : Nat)
    (t dt b : String) (d : DocRec)
    (hfind : db2.docs.find? (fun q => q.campaignId == c2 && q.sourceFileId == fid) =
      some d)
    (hhash : d.contentHash = H.textHash b) :
    _upsert_document_and_chunks H db2 c2 fid t dt b = (db2, d.id, "skipped") := by
  rw [_upsert_document_and_chunks]
  dsimp only []
  rw [hfind]
  dsimp only []
  rw [if_pos (by rw [hhash]; simp)]

/-- C2: immediately re-running the synchronizer with no filesystem change
classifies zero files as new and zero as changed, ingests zero documents,
and leaves the Document and Fragment tables untouched; and whenever the
existing Document for a (campaign, file) pair carries the hash of the new
body, the materializer reports `skipped` and writes nothing. -/
theorem C2_second_run_idempotent (H : HashFns) (c : String) (p : Params) (db : DB)
    (hwf : WF db)
    (hsrcs : ∀ s ∈ enabledSources db c, s.rootExists = true → wfWalk s ∧
      (((sourceSnapshot db s.id).map (fun x => x.relPath)).Nodup)) :
    (∀ res2,
      (update_campaign_kb H c p (update_campaign_kb H c p db).1).2 = Except.ok res2 →
      res2.stats.filesNew = 0 ∧ res2.stats.filesChanged = 0 ∧
      res2.stats.docsIngested = 0) ∧
    ((update_campaign_kb H c p (update_campaign_kb H c p db).1).1.docs =
      (update_campaign_kb H c p db).1.docs) ∧
    ((update_campaign_kb H c p (update_campaign_kb H c p db).1).1.chunks =
      (update_campaign_kb H c p db).1.chunks) ∧
    (∀ (db2 : DB) (c2 : String) (fid : Nat) (t dt b : String) (d : DocRec),
      db2.docs.find? (fun q => q.campaignId == c2 && q.sourceFileId == fid) = some d →
      d.contentHash = H.textHash b →
      _upsert_document_and_chunks H db2 c2 fid t dt b = (db2, d.id, "skipped")) := by
  by_cases hc : db.campaigns.contains c = true
  · have hfound := update_campaign_kb_found H p db c hc
    have hndids := enabledSources_ids_nodup db c hwf.2.2.2
    have hfr := foldl_processSource_frame H p db.nextId (enabledSources db c)
      ({ db with runs := db.runs ++ [⟨db.nextId, c, "api", "running", none, none⟩],
                 nextId := db.nextId + 1 }, initStats (enabledSources db c).length)
    have hwf0 : FilesWF ({ db with
        runs := db.runs ++ [⟨db.nextId, c, "api", "running", none, none⟩],
        nextId := db.nextId + 1 } : DB) := by
      refine ⟨hwf.1, ?_⟩
      intro r hr
      exact lt_of_lt_of_le (hwf.2.1 r hr) (Nat.le_succ _)
    have hro_wf : FilesWF (runOutcome H p c db).1 := by
      rw [runOutcome]
      exact (foldl_processSource_ctx H p db.nextId (enabledSources db c) _ hwf0).1
    have hdb1files : (update_campaign_kb H c p db).1.files =
        (runOutcome H p c db).1.files := by rw [hfound]
    have hdb1next : (update_campaign_kb H c p db).1.nextId =
        (runOutcome H p c db).1.nextId := by rw [hfound]
    have hdb1camp : (update_campaign_kb H c p db).1.campaigns = db.campaigns := by
      rw [hfound]
      show (runOutcome H p c db).1.campaigns = db.campaigns
      rw [runOutcome]
      exact hfr.2.1
    have hdb1src : (update_campaign_kb H c p db).1.sources = db.sources := by
      rw [hfound]
      show (runOutcome H p c db).1.sources = db.sources
      rw [runOutcome]
      exact hfr.2.2.1
    have hdb1wf : FilesWF (update_campaign_kb H c p db).1 := by
      refine ⟨?_, ?_⟩
      · rw [hdb1files]; exact hro_wf.1
      · intro r hr
        rw [hdb1files] at hr
        rw [hdb1next]
        exact hro_wf.2 r hr
    have hen1 : enabledSources (update_campaign_kb H c p db).1 c =
        enabledSources db c := enabledSources_eq db _ c hdb1src
    have hsm1 : ∀ s ∈ enabledSources db c, s.rootExists = true →
        SnapMatches (update_campaign_kb H c p db).1 s := by
      intro s hs hr
      have hro_sm : SnapMatches (runOutcome H p c db).1 s := by
        rw [runOutcome]
        refine foldl_processSource_snapself H p db.nextId (enabledSources db c)
          ({ db with runs := db.runs ++ [⟨db.nextId, c, "api", "running", none, none⟩],
                     nextId := db.nextId + 1 }, initStats (enabledSources db c).length)
          s hwf0 hndids hs hr (hsrcs s hs hr).1 ?_
        rw [sourceSnapshot_files_eq db ({ db with
          runs := db.runs ++ [⟨db.nextId, c, "api", "running", none, none⟩],
          nextId := db.nextId + 1 } : DB) s.id rfl]
        exact (hsrcs s hs hr).2
      exact snapMatches_of_snapshot_eq _ _ s
        (sourceSnapshot_files_eq _ _ s.id hdb1files) hro_sm
    have hc1 : (update_campaign_kb H c p db).1.campaigns.contains c = true := by
      rw [hdb1camp]; exact hc
    have hfound2 := update_campaign_kb_found H p (update_campaign_kb H c p db).1 c hc1
    have hndids1 : ((enabledSources (update_campaign_kb H c p db).1 c).map
        (fun s => s.id)).Nodup := by
      rw [hen1]; exact hndids
    have hwf1' : FilesWF ({ (update_campaign_kb H c p db).1 with
        runs := (update_campaign_kb H c p db).1.runs ++
          [⟨(update_campaign_kb H c p db).1.nextId, c, "api", "running", none, none⟩],
        nextId := (update_campaign_kb H c p db).1.nextId + 1 } : DB) := by
      refine ⟨hdb1wf.1, ?_⟩
      intro r hr
      exact lt_of_lt_of_le (hdb1wf.2 r hr) (Nat.le_succ _)
    have hsm1' : ∀ s ∈ enabledSources (update_campaign_kb H c p db).1 c,
        s.rootExists = true →
        SnapMatches ({ (update_campaign_kb H c p db).1 with
          runs := (update_campaign_kb H c p db).1.runs ++
            [⟨(update_campaign_kb H c p db).1.nextId, c, "api", "running", none, none⟩],
          nextId := (update_campaign_kb H c p db).1.nextId + 1 } : DB) s := by
      intro s hs hr
      rw [hen1] at hs
      exact snapMatches_of_snapshot_eq _ _ s
        (sourceSnapshot_files_eq _ _ s.id rfl) (hsm1 s hs hr)
    have hkeep := foldl_processSource_snapKeep H p (update_campaign_kb H c p db).1.nextId
      (enabledSources (update_campaign_kb H c p db).1 c)
      ({ (update_campaign_kb H c p db).1 with
        runs := (update_campaign_kb H c p db).1.runs ++
          [⟨(update_campaign_kb H c p db).1.nextId, c, "api", "running", none, none⟩],
        nextId := (update_campaign_kb H c p db).1.nextId + 1 },
       initStats (enabledSources (update_campaign_kb H c p db).1 c).length)
      hwf1' hndids1 hsm1'
    refine ⟨?_, ?_, ?_, fun db2 c2 fid t dt b d hfind hhash =>
      upsertDoc_skip H db2 c2 fid t dt b d hfind hhash⟩
    · intro res2 hres2
      rw [hfound2] at hres2
      simp only [Except.ok.injEq] at hres2
      have hstats2 : res2.stats =
          (runOutcome H p c (update_campaign_kb H c p db).1).2 := by rw [← hres2]
      have hchar := run_class_char H p c (update_campaign_kb H c p db).1 hdb1wf hndids1
      have hzero := expNew_zero H p.forceRehash (update_campaign_kb H c p db).1
        (enabledSources (update_campaign_kb H c p db).1 c)
        (by
          intro s hs hr
          rw [hen1] at hs
          exact hsm1 s hs hr)
      refine ⟨?_, ?_, ?_⟩
      · rw [hstats2, hchar.2.2.2.1, hzero.1]
      · rw [hstats2, hchar.2.2.2.2.1, hzero.2]
      · rw [hstats2]
        show (runOutcome H p c (update_campaign_kb H c p db).1).2.docsIngested = 0
        rw [runOutcome]
        exact hkeep.2.2.1
    · rw [hfound2]
      show (runOutcome H p c (update_campaign_kb H c p db).1).1.docs =
        (update_campaign_kb H c p db).1.docs
      rw [runOutcome]
      exact hkeep.1
    · rw [hfound2]
      show (runOutcome H p c (update_campaign_kb H c p db).1).1.chunks =
        (update_campaign_kb H c p db).1.chunks
      rw [runOutcome]
      exact hkeep.2.1
  · have hcf : db.campaigns.contains c = false := by
      cases h : db.campaigns.contains c
      · rfl
      · exact absurd h hc
    have heq : update_campaign_kb H c p db = (db, Except.error "Campaign not found.") := by
      rw [update_campaign_kb, hcf]
      rfl
    refine ⟨?_, ?_, ?_, fun db2 c2 fid t dt b d hfind hhash =>
      upsertDoc_skip H db2 c2 fid t dt b d hfind hhash⟩
    · intro res2 hres2
      rw [heq] at hres2
      have hres2' : (update_campaign_kb H c p db).2 = Except.ok res2 := hres2
      rw [heq] at hres2'
      exact absurd hres2' (by simp)
    · rw [heq]
      show (update_campaign_kb H c p db).1.docs = db.docs
      rw [heq]
    · rw [heq]
      show (update_campaign_kb H c p db).1.chunks = db.chunks
      rw [heq]

theorem C2_second_run_witness :
    WF dbTwoFiles ∧
    (∀ res2,
      (update_campaign_kb sampleHash "camp" ⟨false, false, none⟩
        (update_campaign_kb sampleHash "camp" ⟨false, false, none⟩ dbTwoFiles).1).2 =
        Except.ok res2 →
      res2.stats.filesNew = 0 ∧ res2.stats.filesChanged = 0 ∧
      res2.stats.docsIngested = 0) ∧
    ((update_campaign_kb sampleHash "camp" ⟨false, false, none⟩
        (update_campaign_kb sampleHash "camp" ⟨false, false, none⟩ dbTwoFiles).1).1.docs =
      (update_campaign_kb sampleHash "camp" ⟨false, false, none⟩ dbTwoFiles).1.docs) :=
  ⟨by rw [WF]; decide,
   (C2_second_run_idempotent sampleHash "camp" ⟨false, false, none⟩ dbTwoFiles
     (by rw [WF]; decide)
     (by
       intro s hs hr
       have he : enabledSources dbTwoFiles "camp" = [srcTwoFiles] := rfl
       rw [he] at hs
       have hse : s = srcTwoFiles := by simpa using hs
       subst hse
       refine ⟨?_, ?_⟩
       · rw [wfWalk]; decide
       · decide)).1,
   (C2_second_run_idempotent sampleHash "camp" ⟨false, false, none⟩ dbTwoFiles
     (by rw [WF]; decide)
     (by
       intro s hs hr
       have he : enabledSources dbTwoFiles "camp" = [srcTwoFiles] := rfl
       rw [he] at hs
       have hse : s = srcTwoFiles := by simpa using hs
       subst hse
       refine ⟨?_, ?_⟩
       · rw [wfWalk]; decide
       · decide)).2.1⟩

theorem auditFrame_refl (vid : Nat) (rf : List RunFileRec) : AuditFrame vid rf rf :=
  ⟨[], by simp, by simp⟩

theorem auditFrame_trans {vid : Nat} {a b c : List RunFileRec}
    (h1 : AuditFrame vid a b) (h2 : AuditFrame vid b c) : AuditFrame vid a c := by
  obtain ⟨n1, he1, hn1⟩ := h1
  obtain ⟨n2, he2, hn2⟩ := h2
  refine ⟨n1 ++ n2, by rw [he2, he1, List.append_assoc], ?_⟩
  intro x hx
  cases List.mem_append.mp hx with
  | inl h => exact hn1 x h
  | inr h => exact hn2 x h

theorem auditFrame_filter (vid : Nat) (rid : Nat) (rf rf2 : List RunFileRec)
    (h : AuditFrame vid rf rf2) :
    rf2.filter (fun a => a.runId == rid && a.fileId == vid) =
      rf.filter (fun a => a.runId == rid && a.fileId == vid) := by
  obtain ⟨news, he, hn⟩ := h
  rw [he]
  refine filter_append_none _ _ news ?_
  intro a ha
  have := hn a ha
  simp [this]

theorem ingestFile_rf (H : HashFns) (runId : Nat) (c : String) (fid : Nat)
    (n : String) (e : Option String) (cont : String) (st : ScanState) :
    ∃ rf2, (ingestFile H runId c fid n e cont st).db.runFiles =
        st.db.runFiles ++ rf2 ∧ ∀ a ∈ rf2, a.fileId = fid := by
  rw [ingestFile]
  have hud := fun dt => upsertDoc_frame H st.db c fid (pathStem n) dt cont
  dsimp only []
  split_ifs <;> dsimp only <;>
    first
      | (refine ⟨[], ?_, by simp⟩
         · rw [(hud _).2.2.2.2.2.1, List.append_nil])
      | (refine ⟨[⟨runId, fid, "ingest", "ok", none, none⟩], ?_, by simp⟩
         · rw [(hud _).2.2.2.2.2.1])

theorem markDeleted_rf (p : Params) (runId : Nat) (st : ScanState) (prev : FileRec) :
    ∃ rf2, (markDeleted p runId st prev).db.runFiles = st.db.runFiles ++ rf2 ∧
      ∀ a ∈ rf2, a.fileId = prev.id := by
  rw [markDeleted]
  dsimp only []
  split_ifs
  · exact ⟨[], by simp, by simp⟩
  · exact ⟨[], by simp, by simp⟩
  · exact ⟨[], by simp, by simp⟩
  · exact ⟨[⟨runId, prev.id, "delete", "ok", some "missing_on_disk", none⟩],
      rfl, by simp⟩

theorem processFile_c9 (H : HashFns) (p : Params) (runId : Nat) (src : SourceCfg)
    (em : List FileRec) (fm : List (String × Nat)) (dirRel : String)
    (st : ScanState) (f : FsFile) (v : FileRec)
    (hctx : SrcCtx src.id em st.db)
    (hv : v ∈ st.db.files)
    (hfind_ne : (∃ e, entryOf src dirRel f = some e) →
      ∀ pr0, em.find? (fun x => x.relPath == fileRelPath dirRel f.name) =
        some pr0 → ¬(pr0.id = v.id)) :
    v ∈ (processFile H p runId src em fm dirRel st f).db.files ∧
    AuditFrame v.id st.db.runFiles (processFile H p runId src em fm dirRel st f).db.runFiles := by
  by_cases hinc : _should_include (fileRelPath dirRel f.name) src.includeGlobs
      src.excludeGlobs = true
  case neg =>
    have hnot : ((!(_should_include (fileRelPath dirRel f.name) src.includeGlobs
        src.excludeGlobs)) = true) := by simpa using hinc
    rw [processFile, if_pos hnot]
    exact ⟨hv, auditFrame_refl _ _⟩
  case pos =>
  have hnot : ¬((!(_should_include (fileRelPath dirRel f.name) src.includeGlobs
      src.excludeGlobs)) = true) := by simp [hinc]
  rw [processFile, if_neg hnot]
  cases hstat : f.stat with
    | none => exact ⟨hv, auditFrame_refl _ _⟩
    | some pstat =>
      dsimp only []
      have hvlt : v.id < st.db.nextId := hctx.1.2 v hv
      have hent : entryOf src dirRel f =
          some ⟨fileRelPath dirRel f.name, pstat, f.content⟩ := by
        rw [entryOf, if_pos hinc, hstat]
        rfl
      cases hfind : em.find? (fun r => r.relPath == fileRelPath dirRel f.name) with
      | none =>
        have hnew : (classifyFile H src.changeDetection p.forceRehash none
            pstat.size pstat.mtime f.content).isNew = true := by
          rw [classifyFile_isNew]; rfl
        have hup := upsertFileRow_true_eq st.db src.id
          (((fm.find? (fun e => e.1 == dirRel)).map Prod.snd).getD
            (((fm.find? (fun e => e.1 == "")).map Prod.snd).getD 0))
          (fileRelPath dirRel f.name) (pathExt f.name) pstat
          (classifyFile H src.changeDetection p.forceRehash none
            pstat.size pstat.mtime f.content) none hnew
        have hv1 : v ∈ (upsertFileRow st.db src.id
            (((fm.find? (fun e => e.1 == dirRel)).map Prod.snd).getD
              (((fm.find? (fun e => e.1 == "")).map Prod.snd).getD 0))
            (fileRelPath dirRel f.name) (pathExt f.name) pstat
            (classifyFile H src.changeDetection p.forceRehash none
              pstat.size pstat.mtime f.content) none).1.files := by
          rw [hup.1]
          exact List.mem_append_left _ hv
        have hfne : ¬((upsertFileRow st.db src.id
            (((fm.find? (fun e => e.1 == dirRel)).map Prod.snd).getD
              (((fm.find? (fun e => e.1 == "")).map Prod.snd).getD 0))
            (fileRelPath dirRel f.name) (pathExt f.name) pstat
            (classifyFile H src.changeDetection p.forceRehash none
              pstat.size pstat.mtime f.content) none).2 = v.id) := by
          rw [hup.2.2.1]
          omega
        split
        · split
          · exact ⟨hv1, by rw [hup.2.2.2.2.2]; exact auditFrame_refl _ _⟩
          · obtain ⟨rf2, hrf, hfid⟩ := ingestFile_rf H runId src.campaignId _ f.name
              (pathExt f.name) f.content
              ⟨(upsertFileRow st.db src.id
                (((fm.find? (fun e => e.1 == dirRel)).map Prod.snd).getD
                  (((fm.find? (fun e => e.1 == "")).map Prod.snd).getD 0))
                (fileRelPath dirRel f.name) (pathExt f.name) pstat
                (classifyFile H src.changeDetection p.forceRehash none
                  pstat.size pstat.mtime f.content) none).1,
               statCounters { st.stats with filesSeen := st.stats.filesSeen + 1 }
                 (classifyFile H src.changeDetection p.forceRehash none
                   pstat.size pstat.mtime f.content),
               st.seenPaths ++ [fileRelPath dirRel f.name], st.filesToIngest⟩
            obtain ⟨s0, rfx, hfiles, _, _⟩ := ingestFile_db_eq H runId src.campaignId _
              f.name (pathExt f.name) f.content
              ⟨(upsertFileRow st.db src.id
                (((fm.find? (fun e => e.1 == dirRel)).map Prod.snd).getD
                  (((fm.find? (fun e => e.1 == "")).map Prod.snd).getD 0))
                (fileRelPath dirRel f.name) (pathExt f.name) pstat
                (classifyFile H src.changeDetection p.forceRehash none
                  pstat.size pstat.mtime f.content) none).1,
               statCounters { st.stats with filesSeen := st.stats.filesSeen + 1 }
                 (classifyFile H src.changeDetection p.forceRehash none
                   pstat.size pstat.mtime f.content),
               st.seenPaths ++ [fileRelPath dirRel f.name], st.filesToIngest⟩
            refine ⟨?_, ?_⟩
            · rw [hfiles]
              refine List.mem_map.mpr ⟨v, hv1, ?_⟩
              dsimp only []
              rw [if_neg (fun hbeq => hfne (eq_of_beq hbeq).symm)]
            · rw [hrf, hup.2.2.2.2.2]
              refine ⟨rf2, rfl, ?_⟩
              intro a ha hav
              exact hfne (by rw [← hav, hfid a ha])
        · exact ⟨hv1, by rw [hup.2.2.2.2.2]; exact auditFrame_refl _ _⟩
      | some pr0 =>
        have hne := hfind_ne ⟨_, hent⟩ pr0 hfind
        have hnew : (classifyFile H src.changeDetection p.forceRehash (some pr0)
            pstat.size pstat.mtime f.content).isNew = false := by
          rw [classifyFile_isNew]; rfl
        have hup := upsertFileRow_false_eq st.db src.id
          (((fm.find? (fun e => e.1 == dirRel)).map Prod.snd).getD
            (((fm.find? (fun e => e.1 == "")).map Prod.snd).getD 0))
          (fileRelPath dirRel f.name) (pathExt f.name) pstat
          (classifyFile H src.changeDetection p.forceRehash (some pr0)
            pstat.size pstat.mtime f.content) (some pr0) pr0 hnew rfl
        have hv1 : v ∈ (upsertFileRow st.db src.id
            (((fm.find? (fun e => e.1 == dirRel)).map Prod.snd).getD
              (((fm.find? (fun e => e.1 == "")).map Prod.snd).getD 0))
            (fileRelPath dirRel f.name) (pathExt f.name) pstat
            (classifyFile H src.changeDetection p.forceRehash (some pr0)
              pstat.size pstat.mtime f.content) (some pr0)).1.files := by
          rw [hup.1]
          refine List.mem_map.mpr ⟨v, hv, ?_⟩
          dsimp only []
          rw [if_neg (fun hbeq => hne (eq_of_beq hbeq).symm)]
        have hfne : ¬((upsertFileRow st.db src.id
            (((fm.find? (fun e => e.1 == dirRel)).map Prod.snd).getD
              (((fm.find? (fun e => e.1 == "")).map Prod.snd).getD 0))
            (fileRelPath dirRel f.name) (pathExt f.name) pstat
            (classifyFile H src.changeDetection p.forceRehash (some pr0)
              pstat.size pstat.mtime f.content) (some pr0)).2 = v.id) := by
          rw [hup.2.2.1]
          exact hne
        split
        · split
          · exact ⟨hv1, by rw [hup.2.2.2.2.2]; exact auditFrame_refl _ _⟩
          · obtain ⟨rf2, hrf, hfid⟩ := ingestFile_rf H runId src.campaignId _ f.name
              (pathExt f.name) f.content
              ⟨(upsertFileRow st.db src.id
                (((fm.find? (fun e => e.1 == dirRel)).map Prod.snd).getD
                  (((fm.find? (fun e => e.1 == "")).map Prod.snd).getD 0))
                (fileRelPath dirRel f.name) (pathExt f.name) pstat
                (classifyFile H src.changeDetection p.forceRehash (some pr0)
                  pstat.size pstat.mtime f.content) (some pr0)).1,
               statCounters { st.stats with filesSeen := st.stats.filesSeen + 1 }
                 (classifyFile H src.changeDetection p.forceRehash (some pr0)
                   pstat.size pstat.mtime f.content),
               st.seenPaths ++ [fileRelPath dirRel f.name], st.filesToIngest⟩
            obtain ⟨s0, rfx, hfiles, _, _⟩ := ingestFile_db_eq H runId src.campaignId _
              f.name (pathExt f.name) f.content
              ⟨(upsertFileRow st.db src.id
                (((fm.find? (fun e => e.1 == dirRel)).map Prod.snd).getD
                  (((fm.find? (fun e => e.1 == "")).map Prod.snd).getD 0))
                (fileRelPath dirRel f.name) (pathExt f.name) pstat
                (classifyFile H src.changeDetection p.forceRehash (some pr0)
                  pstat.size pstat.mtime f.content) (some pr0)).1,
               statCounters { st.stats with filesSeen := st.stats.filesSeen + 1 }
                 (classifyFile H src.changeDetection p.forceRehash (some pr0)
                   pstat.size pstat.mtime f.content),
               st.seenPaths ++ [fileRelPath dirRel f.name], st.filesToIngest⟩
            refine ⟨?_, ?_⟩
            · rw [hfiles]
              refine List.mem_map.mpr ⟨v, hv1, ?_⟩
              dsimp only []
              rw [if_neg (fun hbeq => hfne (eq_of_beq hbeq).symm)]
            · rw [hrf, hup.2.2.2.2.2]
              refine ⟨rf2, rfl, ?_⟩
              intro a ha hav
              exact hfne (by rw [← hav, hfid a ha])
        · exact ⟨hv1, by rw [hup.2.2.2.2.2]; exact auditFrame_refl _ _⟩

theorem foldl_processFile_c9 (H : HashFns) (p : Params) (runId : Nat) (src : SourceCfg)
    (em : List FileRec) (fm : List (String × Nat)) (dirRel : String) (v : FileRec) :
    ∀ (fs : List FsFile) (st : ScanState),
      SrcCtx src.id em st.db → v ∈ st.db.files →
      (∀ f ∈ fs, (∃ e, entryOf src dirRel f = some e) →
        ∀ pr0, em.find? (fun x => x.relPath == fileRelPath dirRel f.name) = some pr0 →
          ¬(pr0.id = v.id)) →
      v ∈ ((fs.foldl (processFile H p runId src em fm dirRel) st)).db.files ∧
      AuditFrame v.id st.db.runFiles
        ((fs.foldl (processFile H p runId src em fm dirRel) st)).db.runFiles := by
  intro fs
  induction fs with
  | nil => intro st _ hv _; exact ⟨hv, auditFrame_refl _ _⟩
  | cons f fs ih =>
    intro st hctx hv hne
    have hstep := processFile_c9 H p runId src em fm dirRel st f v hctx hv
      (hne f (List.mem_cons_self f fs))
    have hctx2 := processFile_ctx H p runId src em fm dirRel st f hctx
      (fun rel pr0 hf => List.mem_of_find?_eq_some hf)
    have hrest := ih (processFile H p runId src em fm dirRel st f) hctx2.1 hstep.1
      (fun g hg => hne g (List.mem_cons_of_mem f hg))
    rw [List.foldl_cons]
    exact ⟨hrest.1, auditFrame_trans hstep.2 hrest.2⟩

theorem processDir_c9 (H : HashFns) (p : Params) (runId : Nat) (src : SourceCfg)
    (em : List FileRec) (acc : ScanState × List (String × Nat)) (d : FsDir) (v : FileRec)
    (hctx : SrcCtx src.id em acc.1.db) (hv : v ∈ acc.1.db.files)
    (hne : ∀ f ∈ d.files, (∃ e, entryOf src d.rel f = some e) →
      ∀ pr0, em.find? (fun x => x.relPath == fileRelPath d.rel f.name) = some pr0 →
        ¬(pr0.id = v.id)) :
    v ∈ (processDir H p runId src em acc d).1.db.files ∧
    AuditFrame v.id acc.1.db.runFiles (processDir H p runId src em acc d).1.db.runFiles := by
  rw [processDir]
  dsimp only []
  split
  · have hfo := upsertFolder_frame acc.1.db src.id d.rel
      (some (((acc.2.find? (fun e => e.1 == (if d.rel == "" then "" else pyParentRel d.rel))).map
        Prod.snd).getD (((acc.2.find? (fun e => e.1 == "")).map Prod.snd).getD 0)))
      (if d.rel == "" then 0 else (purePosixParts d.rel).length)
    have hctx2 := srcCtx_of_files_eq src.id em acc.1.db _ hfo.2.2.2.1 hfo.2.2.2.2.2.2.2
      hctx
    have hfold := foldl_processFile_c9 H p runId src em
      (acc.2 ++ [(d.rel, (upsertFolder acc.1.db src.id d.rel
        (some (((acc.2.find? (fun e => e.1 == (if d.rel == "" then "" else pyParentRel d.rel))).map
          Prod.snd).getD (((acc.2.find? (fun e => e.1 == "")).map Prod.snd).getD 0)))
        (if d.rel == "" then 0 else (purePosixParts d.rel).length)).2)])
      d.rel v d.files
      { acc.1 with db := (upsertFolder acc.1.db src.id d.rel
        (some (((acc.2.find? (fun e => e.1 == (if d.rel == "" then "" else pyParentRel d.rel))).map
          Prod.snd).getD (((acc.2.find? (fun e => e.1 == "")).map Prod.snd).getD 0)))
        (if d.rel == "" then 0 else (purePosixParts d.rel).length)).1 }
      hctx2 (by rw [hfo.2.2.2.1]; exact hv) hne
    refine ⟨hfold.1, ?_⟩
    have := hfold.2
    rw [hfo.2.2.2.2.2.2.1] at this
    exact this
  · exact foldl_processFile_c9 H p runId src em acc.2 d.rel v d.files acc.1 hctx hv hne

theorem foldl_processDir_c9 (H : HashFns) (p : Params) (runId : Nat) (src : SourceCfg)
    (em : List FileRec) (v : FileRec) :
    ∀ (ds : List FsDir) (acc : ScanState × List (String × Nat)),
      SrcCtx src.id em acc.1.db → v ∈ acc.1.db.files →
      (∀ d ∈ ds, ∀ f ∈ d.files, (∃ e, entryOf src d.rel f = some e) →
        ∀ pr0, em.find? (fun x => x.relPath == fileRelPath d.rel f.name) = some pr0 →
          ¬(pr0.id = v.id)) →
      v ∈ ((ds.foldl (processDir H p runId src em) acc)).1.db.files ∧
      AuditFrame v.id acc.1.db.runFiles
        ((ds.foldl (processDir H p runId src em) acc)).1.db.runFiles := by
  intro ds
  induction ds with
  | nil => intro acc _ hv _; exact ⟨hv, auditFrame_refl _ _⟩
  | cons d ds ih =>
    intro acc hctx hv hne
    have hstep := processDir_c9 H p runId src em acc d v hctx hv
      (hne d (List.mem_cons_self d ds))
    have hctx2 := processDir_ctx H p runId src em acc d hctx
    have hrest := ih (processDir H p runId src em acc d) hctx2.1 hstep.1
      (fun t ht => hne t (List.mem_cons_of_mem d ht))
    rw [List.foldl_cons]
    exact ⟨hrest.1, auditFrame_trans hstep.2 hrest.2⟩

theorem markDeleted_c9keep (p : Params) (runId : Nat) (st : ScanState) (prev : FileRec)
    (v : FileRec) (hne : ¬(prev.id = v.id)) (hv : v ∈ st.db.files) :
    v ∈ (markDeleted p runId st prev).db.files ∧
    AuditFrame v.id st.db.runFiles (markDeleted p runId st prev).db.runFiles := by
  obtain ⟨rfa, hfiles, _, hrfa⟩ := markDeleted_db_eq p runId st prev
  obtain ⟨rfb, hrf, hfid⟩ := markDeleted_rf p runId st prev
  refine ⟨?_, ?_⟩
  · rw [hfiles]
    refine List.mem_map.mpr ⟨v, hv, ?_⟩
    have hbeq : (v.id == prev.id) = false := by
      refine beq_eq_false_iff_ne.mpr ?_
      intro h
      exact hne h.symm
    rw [if_neg (by simp [hbeq])]
  · refine ⟨rfb, hrf, ?_⟩
    intro a ha hav
    exact hne (by rw [← hav, hfid a ha])

theorem foldl_markDeleted_c9 (p : Params) (runId : Nat) (v : FileRec) :
    ∀ (l : List FileRec) (st : ScanState),
      (∀ y ∈ l, ¬(y.id = v.id)) → v ∈ st.db.files →
      v ∈ ((l.foldl (markDeleted p runId) st)).db.files ∧
      AuditFrame v.id st.db.runFiles ((l.foldl (markDeleted p runId) st)).db.runFiles := by
  intro l
  induction l with
  | nil => intro st _ hv; exact ⟨hv, auditFrame_refl _ _⟩
  | cons y ys ih =>
    intro st hne hv
    have hstep := markDeleted_c9keep p runId st y v (hne y (List.mem_cons_self y ys)) hv
    have hrest := ih (markDeleted p runId st y)
      (fun z hz => hne z (List.mem_cons_of_mem y hz)) hstep.1
    rw [List.foldl_cons]
    exact ⟨hrest.1, auditFrame_trans hstep.2 hrest.2⟩

theorem markDeleted_c9fire (p : Params) (runId : Nat) (st : ScanState) (v : FileRec)
    (hdry : p.dryRun = false)
    (hv : v ∈ st.db.files)
    (hns : st.seenPaths.contains v.relPath = false)
    (hconf : st.db.runFiles.filter
      (fun a => a.runId == runId && a.fileId == v.id) = []) :
    ({ v with status := "deleted" } : FileRec) ∈ (markDeleted p runId st v).db.files ∧
    (markDeleted p runId st v).db.runFiles = st.db.runFiles ++
      [⟨runId, v.id, "delete", "ok", some "missing_on_disk", none⟩] := by
  have hany : (st.db.runFiles.any (fun e => e.runId == runId && e.fileId == v.id)) =
      false := by
    rw [← List.isEmpty_iff] at hconf
    rw [List.isEmpty_eq_true, List.filter_eq_nil_iff] at hconf
    rw [List.any_eq_false]
    intro a ha
    simpa using hconf a ha
  have hnsm : v.relPath ∉ st.seenPaths := by simpa using hns
  rw [markDeleted]
  dsimp only []
  rw [if_neg (by simp [hnsm]), hdry]
  rw [if_neg (by simp)]
  rw [if_neg (by simp [hany])]
  refine ⟨?_, rfl⟩
  refine List.mem_map.mpr ⟨v, hv, ?_⟩
  rw [if_pos (by simp)]

theorem foldl_markDeleted_c9split (p : Params) (runId : Nat) (v : FileRec)
    (hdry : p.dryRun = false) :
    ∀ (l1 l2 : List FileRec) (st : ScanState),
      (∀ y ∈ l1, ¬(y.id = v.id)) → (∀ y ∈ l2, ¬(y.id = v.id)) →
      v ∈ st.db.files →
      st.seenPaths.contains v.relPath = false →
      st.db.runFiles.filter (fun a => a.runId == runId && a.fileId == v.id) = [] →
      (({ v with status := "deleted" } : FileRec) ∈
        (((l1 ++ v :: l2).foldl (markDeleted p runId) st)).db.files) ∧
      ((((l1 ++ v :: l2).foldl (markDeleted p runId) st)).db.runFiles.filter
          (fun a => a.runId == runId && a.fileId == v.id) =
        [⟨runId, v.id, "delete", "ok", some "missing_on_disk", none⟩]) := by
  intro l1 l2 st hl1 hl2 hv hns hconf
  rw [List.foldl_append, List.foldl_cons]
  have h1 := foldl_markDeleted_c9 p runId v l1 st hl1 hv
  have hsp1 : ((l1.foldl (markDeleted p runId) st)).seenPaths = st.seenPaths :=
    (foldl_markDeleted_class p runId l1 st).2.2.2.2.2.2.2.2
  have hconf1 : ((l1.foldl (markDeleted p runId) st)).db.runFiles.filter
      (fun a => a.runId == runId && a.fileId == v.id) = [] := by
    rw [auditFrame_filter v.id runId _ _ h1.2]
    exact hconf
  have hfire := markDeleted_c9fire p runId (l1.foldl (markDeleted p runId) st) v hdry
    h1.1 (by rw [hsp1]; exact hns) hconf1
  have h2 := foldl_markDeleted_c9 p runId ({ v with status := "deleted" } : FileRec) l2
    (markDeleted p runId (l1.foldl (markDeleted p runId) st) v) hl2 hfire.1
  refine ⟨h2.1, ?_⟩
  rw [auditFrame_filter v.id runId _ _ h2.2]
  rw [hfire.2, List.filter_append, hconf1]
  simp

theorem processSource_c9self (H : HashFns) (p : Params) (runId : Nat)
    (acc : DB × Stats) (src : SourceCfg) (r : FileRec)
    (hdry : p.dryRun = false) (hroot : src.rootExists = true)
    (hwf : FilesWF acc.1)
    (hr : r ∈ acc.1.files) (hrsid : r.sourceId = src.id) (hseen : r.status = "seen")
    (habsent : r.relPath ∉ walkRels src)
    (hconf : acc.1.runFiles.filter
      (fun a => a.runId == runId && a.fileId == r.id) = []) :
    (({ r with status := "deleted" } : FileRec) ∈
      (processSource H p runId acc src).1.files) ∧
    ((processSource H p runId acc src).1.runFiles.filter
        (fun a => a.runId == runId && a.fileId == r.id) =
      [⟨runId, r.id, "delete", "ok", some "missing_on_disk", none⟩]) := by
  have hrem : r ∈ sourceSnapshot acc.1 src.id := by
    rw [sourceSnapshot]
    refine List.mem_filter.mpr ⟨hr, ?_⟩
    rw [hrsid, hseen]
    simp
  have hemid : ((sourceSnapshot acc.1 src.id).map (fun q => q.id)).Nodup :=
    List.Nodup.sublist (List.Sublist.map _ (List.filter_sublist _)) hwf.1
  have hfind_ne : ∀ d ∈ src.walk, ∀ f ∈ d.files,
      (∃ e, entryOf src d.rel f = some e) →
      ∀ pr0, (sourceSnapshot acc.1 src.id).find?
        (fun x => x.relPath == fileRelPath d.rel f.name) = some pr0 →
      ¬(pr0.id = r.id) := by
    intro d hd f hf ⟨e, hent⟩ pr0 hfind hid
    have hpr0 : pr0 ∈ sourceSnapshot acc.1 src.id := List.mem_of_find?_eq_some hfind
    have hpr0rel : pr0.relPath = fileRelPath d.rel f.name := by
      have := List.find?_some hfind
      simpa using this
    have hpr0r : pr0 = r := List.inj_on_of_nodup_map hemid hpr0 hrem hid
    have hrw : r.relPath ∈ walkRels src := by
      rw [← hpr0r, hpr0rel, ← entryOf_rel src d.rel f e hent]
      rw [walkRels]
      exact List.mem_map_of_mem _ (entryOf_mem_walkIncluded src d f e hd hf hent)
    exact habsent hrw
  obtain ⟨l1, l2, hsplit⟩ := List.append_of_mem hrem
  have hemnd : (sourceSnapshot acc.1 src.id).Nodup := List.Nodup.of_map _ hemid
  have hl1 : ∀ y ∈ l1, ¬(y.id = r.id) := by
    intro y hy he
    have hyem : y ∈ sourceSnapshot acc.1 src.id := by
      rw [hsplit]
      exact List.mem_append_left _ hy
    have hyr : y = r := List.inj_on_of_nodup_map hemid hyem hrem he
    rw [hsplit] at hemnd
    have := (List.nodup_append.mp hemnd).2.2
    exact this hy (hyr ▸ List.mem_cons_self r l2)
  have hl2 : ∀ y ∈ l2, ¬(y.id = r.id) := by
    intro y hy he
    have hyem : y ∈ sourceSnapshot acc.1 src.id := by
      rw [hsplit]
      exact List.mem_append_right _ (List.mem_cons_of_mem r hy)
    have hyr : y = r := List.inj_on_of_nodup_map hemid hyem hrem he
    rw [hsplit] at hemnd
    have := (List.nodup_append.mp hemnd).2.1
    rw [List.nodup_cons] at this
    exact this.1 (hyr ▸ hy)
  rw [processSource]
  dsimp only []
  rw [if_neg (by simp [hroot])]
  split
  · have hfo := upsertFolder_frame acc.1 src.id "" none 0
    have hctx0 := srcCtx_of_files_eq src.id (sourceSnapshot acc.1 src.id) acc.1 _
      hfo.2.2.2.1 hfo.2.2.2.2.2.2.2 (srcCtx_init acc.1 src.id hwf)
    have hwalk9 := foldl_processDir_c9 H p runId src (sourceSnapshot acc.1 src.id) r
      src.walk
      (⟨(upsertFolder acc.1 src.id "" none 0).1,
        { acc.2 with sourcesScanned := acc.2.sourcesScanned + 1 }, [], 0⟩,
       ((acc.1.folders.filter (fun fr => fr.sourceId == src.id)).map
          (fun fr => (fr.relPath, fr.id))) ++ [("", (upsertFolder acc.1 src.id "" none 0).2)])
      hctx0 (by rw [hfo.2.2.2.1]; exact hr) hfind_ne
    have hw := foldl_processDir_class H p runId src (sourceSnapshot acc.1 src.id)
      src.walk
      (⟨(upsertFolder acc.1 src.id "" none 0).1,
        { acc.2 with sourcesScanned := acc.2.sourcesScanned + 1 }, [], 0⟩,
       ((acc.1.folders.filter (fun fr => fr.sourceId == src.id)).map
          (fun fr => (fr.relPath, fr.id))) ++ [("", (upsertFolder acc.1 src.id "" none 0).2)])
    have hnsw : ((src.walk.foldl (processDir H p runId src (sourceSnapshot acc.1 src.id))
        (⟨(upsertFolder acc.1 src.id "" none 0).1,
          { acc.2 with sourcesScanned := acc.2.sourcesScanned + 1 }, [], 0⟩,
         ((acc.1.folders.filter (fun fr => fr.sourceId == src.id)).map
            (fun fr => (fr.relPath, fr.id))) ++
          [("", (upsertFolder acc.1 src.id "" none 0).2)])).1).seenPaths.contains
        r.relPath = false := by
      cases hcc : ((src.walk.foldl (processDir H p runId src (sourceSnapshot acc.1 src.id))
        (⟨(upsertFolder acc.1 src.id "" none 0).1,
          { acc.2 with sourcesScanned := acc.2.sourcesScanned + 1 }, [], 0⟩,
         ((acc.1.folders.filter (fun fr => fr.sourceId == src.id)).map
            (fun fr => (fr.relPath, fr.id))) ++
          [("", (upsertFolder acc.1 src.id "" none 0).2)])).1).seenPaths.contains
          r.relPath with
      | false => rfl
      | true =>
        exfalso
        have hmem := (by simpa using hcc : r.relPath ∈
          ((src.walk.foldl (processDir H p runId src (sourceSnapshot acc.1 src.id))
            (⟨(upsertFolder acc.1 src.id "" none 0).1,
              { acc.2 with sourcesScanned := acc.2.sourcesScanned + 1 }, [], 0⟩,
             ((acc.1.folders.filter (fun fr => fr.sourceId == src.id)).map
                (fun fr => (fr.relPath, fr.id))) ++
              [("", (upsertFolder acc.1 src.id "" none 0).2)])).1).seenPaths)
        rw [hw.2.2.2.2.2] at hmem
        simp only [List.nil_append] at hmem
        refine habsent ?_
        rw [walkRels, walkIncluded_eq]
        simpa using hmem
    have hconf1 : ((src.walk.foldl (processDir H p runId src (sourceSnapshot acc.1 src.id))
        (⟨(upsertFolder acc.1 src.id "" none 0).1,
          { acc.2 with sourcesScanned := acc.2.sourcesScanned + 1 }, [], 0⟩,
         ((acc.1.folders.filter (fun fr => fr.sourceId == src.id)).map
            (fun fr => (fr.relPath, fr.id))) ++
          [("", (upsertFolder acc.1 src.id "" none 0).2)])).1).db.runFiles.filter
        (fun a => a.runId == runId && a.fileId == r.id) = [] := by
      rw [auditFrame_filter r.id runId _ _ hwalk9.2]
      rw [hfo.2.2.2.2.2.2.1]
      exact hconf
    have hdel := foldl_markDeleted_c9split p runId r hdry l1 l2
      ((src.walk.foldl (processDir H p runId src (sourceSnapshot acc.1 src.id))
        (⟨(upsertFolder acc.1 src.id "" none 0).1,
          { acc.2 with sourcesScanned := acc.2.sourcesScanned + 1 }, [], 0⟩,
         ((acc.1.folders.filter (fun fr => fr.sourceId == src.id)).map
            (fun fr => (fr.relPath, fr.id))) ++
          [("", (upsertFolder acc.1 src.id "" none 0).2)])).1)
      hl1 hl2 hwalk9.1 hnsw hconf1
    rw [← hsplit] at hdel
    exact hdel
  · have hctx0 := srcCtx_init acc.1 src.id hwf
    have hwalk9 := foldl_processDir_c9 H p runId src (sourceSnapshot acc.1 src.id) r
      src.walk
      (⟨acc.1, { acc.2 with sourcesScanned := acc.2.sourcesScanned + 1 }, [], 0⟩,
       (acc.1.folders.filter (fun fr => fr.sourceId == src.id)).map
          (fun fr => (fr.relPath, fr.id)))
      hctx0 hr hfind_ne
    have hw := foldl_processDir_class H p runId src (sourceSnapshot acc.1 src.id)
      src.walk
      (⟨acc.1, { acc.2 with sourcesScanned := acc.2.sourcesScanned + 1 }, [], 0⟩,
       (acc.1.folders.filter (fun fr => fr.sourceId == src.id)).map
          (fun fr => (fr.relPath, fr.id)))
    have hnsw : ((src.walk.foldl (processDir H p runId src (sourceSnapshot acc.1 src.id))
        (⟨acc.1, { acc.2 with sourcesScanned := acc.2.sourcesScanned + 1 }, [], 0⟩,
         (acc.1.folders.filter (fun fr => fr.sourceId == src.id)).map
            (fun fr => (fr.relPath, fr.id)))).1).seenPaths.contains r.relPath = false := by
      cases hcc : ((src.walk.foldl (processDir H p runId src (sourceSnapshot acc.1 src.id))
        (⟨acc.1, { acc.2 with sourcesScanned := acc.2.sourcesScanned + 1 }, [], 0⟩,
         (acc.1.folders.filter (fun fr => fr.sourceId == src.id)).map
            (fun fr => (fr.relPath, fr.id)))).1).seenPaths.contains r.relPath with
      | false => rfl
      | true =>
        exfalso
        have hmem := (by simpa using hcc : r.relPath ∈
          ((src.walk.foldl (processDir H p runId src (sourceSnapshot acc.1 src.id))
            (⟨acc.1, { acc.2 with sourcesScanned := acc.2.sourcesScanned + 1 }, [], 0⟩,
             (acc.1.folders.filter (fun fr => fr.sourceId == src.id)).map
                (fun fr => (fr.relPath, fr.id)))).1).seenPaths)
        rw [hw.2.2.2.2.2] at hmem
        simp only [List.nil_append] at hmem
        refine habsent ?_
        rw [walkRels, walkIncluded_eq]
        simpa using hmem
    have hconf1 : ((src.walk.foldl (processDir H p runId src (sourceSnapshot acc.1 src.id))
        (⟨acc.1, { acc.2 with sourcesScanned := acc.2.sourcesScanned + 1 }, [], 0⟩,
         (acc.1.folders.filter (fun fr => fr.sourceId == src.id)).map
            (fun fr => (fr.relPath, fr.id)))).1).db.runFiles.filter
        (fun a => a.runId == runId && a.fileId == r.id) = [] := by
      rw [auditFrame_filter r.id runId _ _ hwalk9.2]
      exact hconf
    have hdel := foldl_markDeleted_c9split p runId r hdry l1 l2
      ((src.walk.foldl (processDir H p runId src (sourceSnapshot acc.1 src.id))
        (⟨acc.1, { acc.2 with sourcesScanned := acc.2.sourcesScanned + 1 }, [], 0⟩,
         (acc.1.folders.filter (fun fr => fr.sourceId == src.id)).map
            (fun fr => (fr.relPath, fr.id)))).1)
      hl1 hl2 hwalk9.1 hnsw hconf1
    rw [← hsplit] at hdel
    exact hdel

theorem processSource_c9other (H : HashFns) (p : Params) (runId : Nat)
    (acc : DB × Stats) (s' : SourceCfg) (v : FileRec)
    (hwf : FilesWF acc.1) (hv : v ∈ acc.1.files) (hvsid : ¬(v.sourceId = s'.id)) :
    v ∈ (processSource H p runId acc s').1.files ∧
    AuditFrame v.id acc.1.runFiles (processSource H p runId acc s').1.runFiles := by
  have hctx0 := srcCtx_init acc.1 s'.id hwf
  have hemsid : ∀ y ∈ sourceSnapshot acc.1 s'.id, y.sourceId = s'.id := by
    intro y hy
    have := List.mem_filter.mp (by rw [sourceSnapshot] at hy; exact hy)
    have hb := this.2
    simp at hb
    exact hb.1
  have hemsub : ∀ y ∈ sourceSnapshot acc.1 s'.id, y ∈ acc.1.files := by
    intro y hy
    exact (List.mem_filter.mp (by rw [sourceSnapshot] at hy; exact hy)).1
  have hidne : ∀ y ∈ sourceSnapshot acc.1 s'.id, ¬(y.id = v.id) := by
    intro y hy he
    have hyv : y = v := List.inj_on_of_nodup_map hwf.1 (hemsub y hy) hv he
    exact hvsid (hyv ▸ hemsid y hy)
  have hfind_ne : ∀ d ∈ s'.walk, ∀ f ∈ d.files,
      (∃ e, entryOf s' d.rel f = some e) →
      ∀ pr0, (sourceSnapshot acc.1 s'.id).find?
        (fun x => x.relPath == fileRelPath d.rel f.name) = some pr0 →
      ¬(pr0.id = v.id) := by
    intro d _ f _ _ pr0 hfind
    exact hidne pr0 (List.mem_of_find?_eq_some hfind)
  rw [processSource]
  dsimp only []
  split
  · exact ⟨hv, auditFrame_refl _ _⟩
  split
  · have hfo := upsertFolder_frame acc.1 s'.id "" none 0
    have hctx1 := srcCtx_of_files_eq s'.id (sourceSnapshot acc.1 s'.id) acc.1 _
      hfo.2.2.2.1 hfo.2.2.2.2.2.2.2 hctx0
    have hwalk9 := foldl_processDir_c9 H p runId s' (sourceSnapshot acc.1 s'.id) v
      s'.walk
      (⟨(upsertFolder acc.1 s'.id "" none 0).1,
        { acc.2 with sourcesScanned := acc.2.sourcesScanned + 1 }, [], 0⟩,
       ((acc.1.folders.filter (fun fr => fr.sourceId == s'.id)).map
          (fun fr => (fr.relPath, fr.id))) ++ [("", (upsertFolder acc.1 s'.id "" none 0).2)])
      hctx1 (by rw [hfo.2.2.2.1]; exact hv) hfind_ne
    have hmd := foldl_markDeleted_c9 p runId v (sourceSnapshot acc.1 s'.id)
      ((s'.walk.foldl (processDir H p runId s' (sourceSnapshot acc.1 s'.id))
        (⟨(upsertFolder acc.1 s'.id "" none 0).1,
          { acc.2 with sourcesScanned := acc.2.sourcesScanned + 1 }, [], 0⟩,
         ((acc.1.folders.filter (fun fr => fr.sourceId == s'.id)).map
            (fun fr => (fr.relPath, fr.id))) ++
          [("", (upsertFolder acc.1 s'.id "" none 0).2)])).1)
      hidne hwalk9.1
    refine ⟨hmd.1, ?_⟩
    refine auditFrame_trans ?_ hmd.2
    have := hwalk9.2
    rw [hfo.2.2.2.2.2.2.1] at this
    exact this
  · have hwalk9 := foldl_processDir_c9 H p runId s' (sourceSnapshot acc.1 s'.id) v
      s'.walk
      (⟨acc.1, { acc.2 with sourcesScanned := acc.2.sourcesScanned + 1 }, [], 0⟩,
       (acc.1.folders.filter (fun fr => fr.sourceId == s'.id)).map
          (fun fr => (fr.relPath, fr.id)))
      hctx0 hv hfind_ne
    have hmd := foldl_markDeleted_c9 p runId v (sourceSnapshot acc.1 s'.id)
      ((s'.walk.foldl (processDir H p runId s' (sourceSnapshot acc.1 s'.id))
        (⟨acc.1, { acc.2 with sourcesScanned := acc.2.sourcesScanned + 1 }, [], 0⟩,
         (acc.1.folders.filter (fun fr => fr.sourceId == s'.id)).map
            (fun fr => (fr.relPath, fr.id)))).1)
      hidne hwalk9.1
    exact ⟨hmd.1, auditFrame_trans hwalk9.2 hmd.2⟩

theorem foldl_processSource_c9other (H : HashFns) (p : Params) (runId : Nat)
    (v : FileRec) :
    ∀ (srcs : List SourceCfg) (acc : DB × Stats), FilesWF acc.1 →
      (∀ u ∈ srcs, ¬(v.sourceId = u.id)) → v ∈ acc.1.files →
      v ∈ ((srcs.foldl (processSource H p runId) acc)).1.files ∧
      AuditFrame v.id acc.1.runFiles
        ((srcs.foldl (processSource H p runId) acc)).1.runFiles := by
  intro srcs
  induction srcs with
  | nil => intro acc _ _ hv; exact ⟨hv, auditFrame_refl _ _⟩
  | cons s ss ih =>
    intro acc hwf hne hv
    rw [List.foldl_cons]
    have hstep := processSource_c9other H p runId acc s v hwf hv
      (fun he => hne s (List.mem_cons_self s ss) he)
    have hwf1 := (processSource_ctx H p runId acc s hwf).1
    have hrest := ih (processSource H p runId acc s) hwf1
      (fun u hu => hne u (List.mem_cons_of_mem s hu)) hstep.1
    exact ⟨hrest.1, auditFrame_trans hstep.2 hrest.2⟩

theorem foldl_processSource_c9split (H : HashFns) (p : Params) (runId : Nat)
    (src : SourceCfg) (r : FileRec) (l1 l2 : List SourceCfg) (acc : DB × Stats)
    (hdry : p.dryRun = false) (hroot : src.rootExists = true)
    (hwf : FilesWF acc.1)
    (hl1 : ∀ u ∈ l1, ¬(r.sourceId = u.id)) (hl2 : ∀ u ∈ l2, ¬(r.sourceId = u.id))
    (hr : r ∈ acc.1.files) (hrsid : r.sourceId = src.id) (hseen : r.status = "seen")
    (habsent : r.relPath ∉ walkRels src)
    (hconf : acc.1.runFiles.filter
      (fun a => a.runId == runId && a.fileId == r.id) = []) :
    (({ r with status := "deleted" } : FileRec) ∈
      ((l1 ++ src :: l2).foldl (processSource H p runId) acc).1.files) ∧
    (((l1 ++ src :: l2).foldl (processSource H p runId) acc).1.runFiles.filter
        (fun a => a.runId == runId && a.fileId == r.id) =
      [⟨runId, r.id, "delete", "ok", some "missing_on_disk", none⟩]) := by
  rw [List.foldl_append, List.foldl_cons]
  have h1 := foldl_processSource_c9other H p runId r l1 acc hwf hl1 hr
  have hwf1 := (foldl_processSource_ctx H p runId l1 acc hwf).1
  have hconf1 : ((l1.foldl (processSource H p runId) acc)).1.runFiles.filter
      (fun a => a.runId == runId && a.fileId == r.id) = [] := by
    rw [auditFrame_filter r.id runId _ _ h1.2]
    exact hconf
  have hself := processSource_c9self H p runId (l1.foldl (processSource H p runId) acc)
    src r hdry hroot hwf1 h1.1 hrsid hseen habsent hconf1
  have hwf2 := (processSource_ctx H p runId (l1.foldl (processSource H p runId) acc)
    src hwf1).1
  have h2 := foldl_processSource_c9other H p runId ({ r with status := "deleted" })
    l2 (processSource H p runId (l1.foldl (processSource H p runId) acc) src)
    hwf2 hl2 hself.1
  refine ⟨h2.1, ?_⟩
  rw [auditFrame_filter r.id runId _ _ h2.2]
  exact hself.2

/-- C9: a File row left at status `seen` by an earlier run, whose relative
path the walk of its (enabled, reachable) source no longer yields, is
soft-deleted by the next live run: its row survives with status `deleted`
(same id and path, never physically removed), and the run's audit trail
holds exactly one Run-File row for this (run, file) pair — action `delete`,
status `ok`, reason `missing_on_disk`. -/
theorem C9_soft_delete (H : HashFns) (c : String) (p : Params) (db : DB)
    (src : SourceCfg) (r : FileRec)
    (hdry : p.dryRun = false) (hwf : WF db)
    (hfound : db.campaigns.contains c = true)
    (hsrc : src ∈ enabledSources db c) (hroot : src.rootExists = true)
    (hr : r ∈ db.files) (hrsid : r.sourceId = src.id) (hseen : r.status = "seen")
    (habsent : r.relPath ∉ walkRels src) :
    (∃ r2 ∈ (update_campaign_kb H c p db).1.files,
      r2.id = r.id ∧ r2.relPath = r.relPath ∧ r2.status = "deleted") ∧
    ((update_campaign_kb H c p db).1.runFiles.filter
        (fun a => a.runId == db.nextId && a.fileId == r.id) =
      [⟨db.nextId, r.id, "delete", "ok", some "missing_on_disk", none⟩]) := by
  rw [update_campaign_kb_found H p db c hfound]
  dsimp only []
  rw [runOutcome]
  have hwf1 : FilesWF ({ db with
      runs := db.runs ++ [⟨db.nextId, c, "api", "running", none, none⟩],
      nextId := db.nextId + 1 } : DB) := by
    refine ⟨hwf.1, ?_⟩
    intro x hx
    exact Nat.lt_succ_of_lt (hwf.2.1 x hx)
  have hconf0 : ({ db with
      runs := db.runs ++ [⟨db.nextId, c, "api", "running", none, none⟩],
      nextId := db.nextId + 1 } : DB).runFiles.filter
      (fun a => a.runId == db.nextId && a.fileId == r.id) = [] := by
    refine List.filter_eq_nil_iff.mpr ?_
    intro a ha
    have hlt := hwf.2.2.1 a ha
    simp only [Bool.and_eq_true, beq_iff_eq, not_and]
    intro he
    exact absurd he (Nat.ne_of_lt hlt)
  obtain ⟨l1, l2, hsplit⟩ := List.append_of_mem hsrc
  have hndids : ((enabledSources db c).map (fun s => s.id)).Nodup :=
    List.Nodup.sublist (List.Sublist.map _ (List.filter_sublist _)) hwf.2.2.2
  rw [hsplit] at hndids
  rw [List.map_append, List.map_cons] at hndids
  have hnd := List.nodup_append.mp hndids
  have hl1 : ∀ u ∈ l1, ¬(r.sourceId = u.id) := by
    intro u hu he
    have huid : u.id ∈ l1.map (fun s => s.id) := List.mem_map_of_mem _ hu
    have : u.id ∉ src.id :: l2.map (fun s => s.id) := hnd.2.2 huid
    exact this (by rw [← he, hrsid]; exact List.mem_cons_self _ _)
  have hl2 : ∀ u ∈ l2, ¬(r.sourceId = u.id) := by
    intro u hu he
    have hcons := List.nodup_cons.mp hnd.2.1
    refine hcons.1 ?_
    have : src.id = u.id := by rw [← hrsid]; exact he
    rw [this]
    exact List.mem_map_of_mem _ hu
  rw [hsplit]
  have hmain := foldl_processSource_c9split H p db.nextId src r l1 l2
    ({ db with
        runs := db.runs ++ [⟨db.nextId, c, "api", "running", none, none⟩],
        nextId := db.nextId + 1 },
     initStats (l1 ++ src :: l2).length)
    hdry hroot hwf1 hl1 hl2 hr hrsid hseen habsent hconf0
  exact ⟨⟨({ r with status := "deleted" } : FileRec), hmain.1, rfl, rfl, rfl⟩, hmain.2⟩

theorem C9_soft_delete_witness :
    ((⟨7, 1, 3, "a.md", some "md", 1, 10, some "f:alpha", "seen", "ok", none⟩ : FileRec)
        ∈ dbGone.files) ∧
    ((∃ r2 ∈ (update_campaign_kb sampleHash "camp" ⟨false, false, none⟩ dbGone).1.files,
        r2.id = 7 ∧ r2.relPath = "a.md" ∧ r2.status = "deleted") ∧
      ((update_campaign_kb sampleHash "camp" ⟨false, false, none⟩ dbGone).1.runFiles.filter
          (fun a => a.runId == 100 && a.fileId == 7) =
        [⟨100, 7, "delete", "ok", some "missing_on_disk", none⟩])) :=
  ⟨by decide,
   C9_soft_delete sampleHash "camp" ⟨false, false, none⟩ dbGone srcGone
     ⟨7, 1, 3, "a.md", some "md", 1, 10, some "f:alpha", "seen", "ok", none⟩
     rfl (by rw [WF]; decide) (by decide) (by decide) rfl (by decide) rfl rfl (by decide)⟩
